import Mathlib

/-!
Verification of the Markdown3D spatial layout engine.

The TypeScript sources are shallowly embedded into Lean.  JavaScript numbers
are modelled as exact rationals (`ℚ`).  `Math.sqrt` enters the code in two
ways and is embedded accordingly:

* inside comparisons (`Math.sqrt a < b`, `dist > 0`, …) we use the exact
  real-number equivalent over squares: `Real.sqrt a < b ↔ 0 < b ∧ a < b ^ 2`
  for `0 ≤ a` (helpers `sqrtLt`, `sqrtLe`, `sqrtGt` below);
* as a numeric value flowing into further arithmetic (unit vectors, spring
  magnitudes) it is kept as an opaque parameter `sqrtQ : ℚ → ℚ`, so theorems
  hold for every implementation of the square root.

`Math.cos`, `Math.sin`, `Math.PI` and `Math.random` are likewise passed in as
parameters (`JsMath`, random streams), since the engine's guarantees do not
depend on their concrete values.
-/

namespace M3D

open scoped List

/-- Embeds the comparison `Math.sqrt a < b` (for `0 ≤ a`) by its exact
real-number equivalent: `Real.sqrt a < b ↔ 0 < b ∧ a < b ^ 2`. -/
def sqrtLt (a b : ℚ) : Bool :=
  decide (0 < b) && decide (a < b ^ 2)

/-- Embeds the comparison `Math.sqrt a ≤ b` (for `0 ≤ a`) by its exact
real-number equivalent: `Real.sqrt a ≤ b ↔ 0 ≤ b ∧ a ≤ b ^ 2`. -/
def sqrtLe (a b : ℚ) : Bool :=
  decide (0 ≤ b) && decide (a ≤ b ^ 2)

/-- Embeds the comparison `b < Math.sqrt a` (for `0 ≤ a`) by its exact
real-number equivalent: `b < Real.sqrt a ↔ b < 0 ∨ b ^ 2 < a`. -/
def sqrtGt (a b : ℚ) : Bool :=
  decide (b < 0) || decide (b ^ 2 < a)

/-! ## Octree (src/core/octree.ts) -/

/-- `BoundingBox` from octree.ts: six real-valued bounds, min/max per axis. -/
structure BoundingBox where
  minX : ℚ
  minY : ℚ
  minZ : ℚ
  maxX : ℚ
  maxY : ℚ
  maxZ : ℚ
  deriving DecidableEq, Repr

/-- `OctreeNode` from octree.ts: an entry with a center, an influence radius
and an arbitrary `data` payload (the source type is `any`; we keep it as a
type parameter). -/
structure OctreeNode (α : Type) where
  id : String
  x : ℚ
  y : ℚ
  z : ℚ
  radius : ℚ
  data : α
  deriving DecidableEq, Repr

/-- `OctreeCell` from octree.ts.  The source stores `children : OctreeCell[]
| null` where the array, once created, holds exactly 8 octants; we model the
two states as two constructors, `leaf` (children `null`) and `node` (the 8
children in the octant order 0..7 of `subdivide`). -/
inductive OctreeCell (α : Type) where
  | leaf (bounds : BoundingBox) (nodes : List (OctreeNode α))
      (maxNodes maxDepth depth : ℕ)
  | node (bounds : BoundingBox) (nodes : List (OctreeNode α))
      (k0 k1 k2 k3 k4 k5 k6 k7 : OctreeCell α)
      (maxNodes maxDepth depth : ℕ)
  deriving DecidableEq, Repr

namespace OctreeCell

variable {α : Type}

/-- The cell's `bounds` field. -/
def bounds : OctreeCell α → BoundingBox
  | leaf b _ _ _ _ => b
  | node b _ _ _ _ _ _ _ _ _ _ _ _ => b

/-- The cell's own `nodes` list. -/
def ownNodes : OctreeCell α → List (OctreeNode α)
  | leaf _ ns _ _ _ => ns
  | node _ ns _ _ _ _ _ _ _ _ _ _ _ => ns

/-- The cell's `maxNodes` capacity field. -/
def maxNodes : OctreeCell α → ℕ
  | leaf _ _ mn _ _ => mn
  | node _ _ _ _ _ _ _ _ _ _ mn _ _ => mn

/-- The cell's `maxDepth` field. -/
def maxDepth : OctreeCell α → ℕ
  | leaf _ _ _ md _ => md
  | node _ _ _ _ _ _ _ _ _ _ _ md _ => md

/-- The cell's `depth` field. -/
def depth : OctreeCell α → ℕ
  | leaf _ _ _ _ dp => dp
  | node _ _ _ _ _ _ _ _ _ _ _ _ dp => dp

/-- `this.children !== null` in the source. -/
def hasChildren : OctreeCell α → Bool
  | leaf _ _ _ _ _ => false
  | node _ _ _ _ _ _ _ _ _ _ _ _ _ => true

/-- The list of children (octant order), empty for a leaf. -/
def kids : OctreeCell α → List (OctreeCell α)
  | leaf _ _ _ _ _ => []
  | node _ _ a b c d e f g h _ _ _ => [a, b, c, d, e, f, g, h]

/-- `this.nodes.push(node)` on this cell. -/
def push : OctreeCell α → OctreeNode α → OctreeCell α
  | leaf b ns mn md dp, n => leaf b (ns ++ [n]) mn md dp
  | node b ns a b1 c d e f g h mn md dp, n =>
      node b (ns ++ [n]) a b1 c d e f g h mn md dp

end OctreeCell

/-- `OctreeCell.contains` from octree.ts: the entry's center lies within the
cell's (closed) bounds. -/
def inBounds (b : BoundingBox) (n : OctreeNode α) : Bool :=
  decide (b.minX ≤ n.x) && decide (n.x ≤ b.maxX) &&
  decide (b.minY ≤ n.y) && decide (n.y ≤ b.maxY) &&
  decide (b.minZ ≤ n.z) && decide (n.z ≤ b.maxZ)

/-- `OctreeCell.nodeInRange` from octree.ts. -/
def nodeInRange (n : OctreeNode α) (r : BoundingBox) : Bool :=
  decide (r.minX ≤ n.x) && decide (n.x ≤ r.maxX) &&
  decide (r.minY ≤ n.y) && decide (n.y ≤ r.maxY) &&
  decide (r.minZ ≤ n.z) && decide (n.z ≤ r.maxZ)

/-- `OctreeCell.intersects` from octree.ts. -/
def intersects (b r : BoundingBox) : Bool :=
  ! (decide (r.maxX < b.minX) || decide (r.minX > b.maxX) ||
     decide (r.maxY < b.minY) || decide (r.minY > b.maxY) ||
     decide (r.maxZ < b.minZ) || decide (r.minZ > b.maxZ))

namespace OctreeCell

variable {α : Type}

/-- All entries stored in the subtree of a cell: its own `nodes` followed by
the children's entries in octant order. -/
def elems : OctreeCell α → List (OctreeNode α)
  | leaf _ ns _ _ _ => ns
  | node _ ns a b c d e f g h _ _ _ =>
      ns ++ (elems a ++ (elems b ++ (elems c ++ (elems d ++
        (elems e ++ (elems f ++ (elems g ++ elems h)))))))

/-- The loop `for (const child of this.children) if (child.insert(node)) …`:
try to insert into each child in order; `some` with the updated children when
one accepts, `none` when all reject.  The insertion procedure is passed in as
`ins` (it is the recursive call at the current fuel level). -/
def insertSeq (ins : OctreeCell α → OctreeNode α → Bool × OctreeCell α) :
    List (OctreeCell α) → OctreeNode α → Option (List (OctreeCell α))
  | [], _ => none
  | k :: ks, n =>
    match ins k n with
    | (true, k') => some (k' :: ks)
    | (false, _) =>
      match insertSeq ins ks n with
      | some ks' => some (k :: ks')
      | none => none

/-- The redistribution loop of `OctreeCell.subdivide`: each existing entry is
offered to the children in order and kept in the parent when none of them
accepts it. -/
def redistrib (ins : OctreeCell α → OctreeNode α → Bool × OctreeCell α) :
    List (OctreeCell α) → List (OctreeNode α) →
    List (OctreeCell α) × List (OctreeNode α)
  | ks, [] => (ks, [])
  | ks, n :: rest =>
    match insertSeq ins ks n with
    | some ks' =>
      let r := redistrib ins ks' rest
      (r.1, r.2)
    | none =>
      let r := redistrib ins ks rest
      (r.1, n :: r.2)

/-- The 8 fresh child cells created by `OctreeCell.subdivide`, in source
order (front/back × bottom/top × left/right). -/
def freshKids (b : BoundingBox) (mn md dp : ℕ) : List (OctreeCell α) :=
  let midX := (b.minX + b.maxX) / 2
  let midY := (b.minY + b.maxY) / 2
  let midZ := (b.minZ + b.maxZ) / 2
  let nd := dp + 1
  [ leaf ⟨b.minX, b.minY, b.minZ, midX, midY, midZ⟩ [] mn md nd,
    leaf ⟨midX, b.minY, b.minZ, b.maxX, midY, midZ⟩ [] mn md nd,
    leaf ⟨b.minX, midY, b.minZ, midX, b.maxY, midZ⟩ [] mn md nd,
    leaf ⟨midX, midY, b.minZ, b.maxX, b.maxY, midZ⟩ [] mn md nd,
    leaf ⟨b.minX, b.minY, midZ, midX, midY, b.maxZ⟩ [] mn md nd,
    leaf ⟨midX, b.minY, midZ, b.maxX, midY, b.maxZ⟩ [] mn md nd,
    leaf ⟨b.minX, midY, midZ, midX, b.maxY, b.maxZ⟩ [] mn md nd,
    leaf ⟨midX, midY, midZ, b.maxX, b.maxY, b.maxZ⟩ [] mn md nd ]

/-- Rebuild a `node` cell from own nodes and a list of (exactly 8) children.
The fallback branches are unreachable: `redistrib` and `insertSeq` preserve
the length of the children list. -/
def mkNode (b : BoundingBox) (ns : List (OctreeNode α)) :
    List (OctreeCell α) → (mn md dp : ℕ) → OctreeCell α
  | [a, b1, c, d, e, f, g, h], mn, md, dp => node b ns a b1 c d e f g h mn md dp
  | _, mn, md, dp => leaf b ns mn md dp

/-- `OctreeCell.subdivide` from octree.ts: create the 8 octant children and
redistribute the existing entries into them, keeping in the parent the
entries no single child accepts.  The (recursive) insertion procedure used
for the redistribution is passed in as `ins`. -/
def subdivide (ins : OctreeCell α → OctreeNode α → Bool × OctreeCell α)
    (b : BoundingBox) (ns : List (OctreeNode α)) (mn md dp : ℕ) :
    OctreeCell α :=
  let st := redistrib ins (freshKids b mn md dp) ns
  mkNode b st.2 st.1 mn md dp

/-- `OctreeCell.insert` from octree.ts.  The `fuel` argument bounds the
recursion depth: the source recursion descends one `depth` level per call and
stops subdividing at `maxDepth`, so `maxDepth + 1` fuel (what the `Octree`
wrapper passes) always suffices; with fuel `0` the insertion reports failure
without changing the cell. -/
def insert : ℕ → OctreeCell α → OctreeNode α → Bool × OctreeCell α
  | 0, c, _ => (false, c)
  | fuel + 1, c, n =>
    if ¬ inBounds c.bounds n then (false, c)
    else if c.ownNodes.length < c.maxNodes ∨ c.maxDepth ≤ c.depth then
      (true, c.push n)
    else
      match c with
      | leaf b ns mn md dp =>
        let sd := subdivide (fun c' n' => insert fuel c' n') b ns mn md dp
        match insertSeq (fun c' n' => insert fuel c' n') sd.kids n with
        | some ks' => (true, mkNode b sd.ownNodes ks' mn md dp)
        | none => (true, sd.push n)
      | node b ns a b1 c1 d e f g h mn md dp =>
        match insertSeq (fun c' n' => insert fuel c' n')
          [a, b1, c1, d, e, f, g, h] n with
        | some ks' => (true, mkNode b ns ks' mn md dp)
        | none => (true, mkNode b (ns ++ [n]) [a, b1, c1, d, e, f, g, h] mn md dp)

/-- `OctreeCell.queryRange` from octree.ts: prune when the query box does not
intersect the cell's bounds, otherwise own matches followed by the children's
results in octant order. -/
def queryRange : OctreeCell α → BoundingBox → List (OctreeNode α)
  | leaf b ns _ _ _, r =>
    if intersects b r then ns.filter (fun n => nodeInRange n r) else []
  | node b ns a b1 c d e f g h _ _ _, r =>
    if intersects b r then
      ns.filter (fun n => nodeInRange n r) ++
        (queryRange a r ++ (queryRange b1 r ++ (queryRange c r ++
          (queryRange d r ++ (queryRange e r ++ (queryRange f r ++
            (queryRange g r ++ queryRange h r)))))))
    else []

/-- `OctreeCell.findNearby` from octree.ts: range query with the
circumscribing cube, then filter by squared distance (the source compares
`distSquared <= radiusSquared`, with no square root). -/
def findNearby (c : OctreeCell α) (x y z radius : ℚ) : List (OctreeNode α) :=
  let r : BoundingBox :=
    ⟨x - radius, y - radius, z - radius, x + radius, y + radius, z + radius⟩
  (c.queryRange r).filter fun n =>
    decide ((n.x - x) ^ 2 + (n.y - y) ^ 2 + (n.z - z) ^ 2 ≤ radius ^ 2)

end OctreeCell

/-- The public `Octree` class from octree.ts: a root cell plus the world
bounds remembered for `clear()`. -/
structure Octree (α : Type) where
  root : OctreeCell α
  bounds : BoundingBox
  deriving DecidableEq, Repr

namespace Octree

variable {α : Type}

/-- `new Octree(bounds, maxNodes = 8, maxDepth = 8)`. -/
def create (b : BoundingBox) (maxNodes : ℕ := 8) (maxDepth : ℕ := 8) :
    Octree α :=
  ⟨OctreeCell.leaf b [] maxNodes maxDepth 0, b⟩

/-- `Octree.insert` from octree.ts (fuel `maxDepth + 1` is always enough for
the depth-bounded recursion, see `OctreeCell.insert`). -/
def insert (t : Octree α) (n : OctreeNode α) : Bool × Octree α :=
  let r := OctreeCell.insert (t.root.maxDepth + 1) t.root n
  (r.1, ⟨r.2, t.bounds⟩)

/-- `Octree.queryRange` from octree.ts. -/
def queryRange (t : Octree α) (r : BoundingBox) : List (OctreeNode α) :=
  t.root.queryRange r

/-- `Octree.findNearby` from octree.ts. -/
def findNearby (t : Octree α) (x y z radius : ℚ) : List (OctreeNode α) :=
  t.root.findNearby x y z radius

/-- `Octree.clear` from octree.ts: `this.root = new OctreeCell(this.bounds)` —
a fresh empty leaf at the original bounds with the constructor defaults
`maxNodes = 8`, `maxDepth = 8`, `depth = 0`. -/
def clear (t : Octree α) : Octree α :=
  ⟨OctreeCell.leaf t.bounds [] 8 8 0, t.bounds⟩

/-- Insert a list of entries in order, discarding the returned booleans (as
the callers in collision-detector.ts do). -/
def insertAll (t : Octree α) (ns : List (OctreeNode α)) : Octree α :=
  ns.foldl (fun acc n => (acc.insert n).2) t

/-- An octree freshly built over a list of entries: `new Octree(bounds,
maxNodes, maxDepth)` followed by `insert` for each entry in order. -/
def build (b : BoundingBox) (maxNodes maxDepth : ℕ)
    (entries : List (OctreeNode α)) : Octree α :=
  insertAll (create b maxNodes maxDepth) entries

end Octree

/-! ## Data model

`NM3Node` and `NM3Link` as declared in src/test-client.ts (the staged copy
of the `models/types` module the engine imports).  String-literal union
types are embedded as `String`; an optional field (`f?: T`) becomes
`Option`, with `none` for `undefined`. -/

/-- `NM3Node` from src/test-client.ts: `id`, shape `type` (a string-literal
union), position `x,y,z`, optional `scale`, `color`, `title` and `tags`,
required markdown `content`, and optional `"rotation-x"/"rotation-y"/
"rotation-z"` (written `rotationX/Y/Z`; the hyphenated names are not Lean
identifiers).  `applyHierarchicalLayout` additionally reads an undeclared
`level` property ("assuming nodes have level property from parser",
layout-templates.ts) via `node.level || 1`; it is modelled as a final
optional field, `none` standing for `undefined`. -/
structure NM3Node where
  id : String
  type : String
  x : ℚ
  y : ℚ
  z : ℚ
  scale : Option ℚ
  color : Option String
  title : Option String
  content : String
  tags : Option String
  rotationX : Option ℚ
  rotationY : Option ℚ
  rotationZ : Option ℚ
  level : Option ℕ
  deriving DecidableEq, Repr

/-- `NM3Link` from src/test-client.ts: endpoints `from`/`to` (named
`fromId`/`toId` here, `from` being reserved in Lean), an optional
relationship `type` (a string-literal union, embedded as `String`) and the
optional rendering fields.  The layout engine reads only the endpoints. -/
structure NM3Link where
  fromId : String
  toId : String
  type : Option String
  color : Option String
  thickness : Option ℚ
  curve : Option ℚ
  animated : Option Bool
  dashed : Option Bool
  deriving DecidableEq, Repr

/-- JavaScript `node.scale || 1.0`: `undefined` and `0` are falsy. -/
def effScale (n : NM3Node) : ℚ :=
  match n.scale with
  | none => 1
  | some s => if s = 0 then 1 else s

/-- `CollisionDetector.getNodeRadius`: `baseRadius (1.0) * (scale || 1.0)`. -/
def getNodeRadius (n : NM3Node) : ℚ :=
  1 * effScale n

/-! ## Collision detection (src/core/collision-detector.ts) -/

/-- `CollisionInfo` from collision-detector.ts. -/
structure CollisionInfo where
  node1 : String
  node2 : String
  overlap : ℚ
  sepX : ℚ
  sepY : ℚ
  sepZ : ℚ
  deriving DecidableEq, Repr

/-- `CollisionDetector.checkCollision`.  The source computes `distance =
Math.sqrt(d2)` and tests `distance < minDistance`; the test is embedded by
its exact real-number equivalent `sqrtLt d2 minDistance`, and likewise
`distance > 0` by `0 < d2`.  The numeric value of the square root (used in
`overlap` and the separation vector) is the opaque `sqrtQ`. -/
def checkCollision (sqrtQ : ℚ → ℚ) (minSeparation : ℚ) (n1 n2 : NM3Node)
    (r1 r2 : ℚ) : Option CollisionInfo :=
  let dx := n2.x - n1.x
  let dy := n2.y - n1.y
  let dz := n2.z - n1.z
  let d2 := dx ^ 2 + dy ^ 2 + dz ^ 2
  let minDistance := r1 + r2 + minSeparation
  if sqrtLt d2 minDistance then
    let dist := sqrtQ d2
    let overlap := minDistance - dist
    let norm := if 0 < d2 then dist else 1
    some ⟨n1.id, n2.id, overlap,
      dx / norm * overlap, dy / norm * overlap, dz / norm * overlap⟩
  else none

/-- The octree entry built for a node in `CollisionDetector.buildOctree`. -/
def mkOctreeNode (n : NM3Node) : OctreeNode NM3Node :=
  ⟨n.id, n.x, n.y, n.z, getNodeRadius n, n⟩

/-- One step of the bounds loop in `CollisionDetector.buildOctree`. -/
def extendBounds (bb : BoundingBox) (n : NM3Node) : BoundingBox :=
  let r := getNodeRadius n
  ⟨min bb.minX (n.x - r), min bb.minY (n.y - r), min bb.minZ (n.z - r),
   max bb.maxX (n.x + r), max bb.maxY (n.y + r), max bb.maxZ (n.z + r)⟩

/-- The tight bounds computed by `CollisionDetector.buildOctree` (the source
folds from `±Infinity`; for a non-empty list this equals folding from the
first node's own extent). -/
def octBounds : List NM3Node → BoundingBox
  | [] => ⟨0, 0, 0, 0, 0, 0⟩
  | n :: rest =>
    let r := getNodeRadius n
    (n :: rest).foldl extendBounds
      ⟨n.x - r, n.y - r, n.z - r, n.x + r, n.y + r, n.z + r⟩

/-- The 10-unit padding applied in `CollisionDetector.buildOctree`. -/
def padBounds (bb : BoundingBox) : BoundingBox :=
  ⟨bb.minX - 10, bb.minY - 10, bb.minZ - 10,
   bb.maxX + 10, bb.maxY + 10, bb.maxZ + 10⟩

/-- `CollisionDetector.buildOctree`: padded bounds over all nodes, default
`Octree` parameters, then insert every node (booleans discarded). -/
def buildCDOctree (nodes : List NM3Node) : Octree NM3Node :=
  Octree.insertAll (Octree.create (padBounds (octBounds nodes)))
    (nodes.map mkOctreeNode)

/-- `CollisionDetector.detectCollisions`: for each node, query the octree for
neighbours within `radius1 + minSeparation + 5`, skip the node itself (by
id), and record the pairs that violate the minimum-distance rule.  For an
empty node list the loop body never runs and the result is `[]`. -/
def detectCollisions (sqrtQ : ℚ → ℚ) (minSeparation : ℚ)
    (nodes : List NM3Node) : List CollisionInfo :=
  let t := buildCDOctree nodes
  nodes.flatMap fun n1 =>
    let r1 := getNodeRadius n1
    let searchRadius := r1 + minSeparation + 5
    (t.findNearby n1.x n1.y n1.z searchRadius).filterMap fun en =>
      if en.id = n1.id then none
      else checkCollision sqrtQ minSeparation n1 en.data r1 (getNodeRadius en.data)

/-- The per-collision push-apart of `CollisionDetector.resolveCollisions`.
The source looks the two ids up in a `Map` built from the node list and
mutates the found objects; with unique ids (the engine's input contract)
this is the same as updating the entries with matching ids. -/
def applyCollision (nodes : List NM3Node) (col : CollisionInfo) :
    List NM3Node :=
  match nodes.find? (fun n => n.id = col.node1),
        nodes.find? (fun n => n.id = col.node2) with
  | some n1, some n2 =>
    let scale1 := effScale n1
    let scale2 := effScale n2
    let totalScale := scale1 + scale2
    let weight1 := scale2 / totalScale
    let weight2 := scale1 / totalScale
    nodes.map fun n =>
      if n.id = col.node1 then
        { n with x := n.x - col.sepX * weight1 * (1 / 2),
                 y := n.y - col.sepY * weight1 * (1 / 2),
                 z := n.z - col.sepZ * weight1 * (1 / 2) }
      else if n.id = col.node2 then
        { n with x := n.x + col.sepX * weight2 * (1 / 2),
                 y := n.y + col.sepY * weight2 * (1 / 2),
                 z := n.z + col.sepZ * weight2 * (1 / 2) }
      else n
  | _, _ => nodes

/-- The iteration loop of `CollisionDetector.resolveCollisions`, returning
the cumulative resolved count and the final node list. -/
def resolveLoop (sqrtQ : ℚ → ℚ) (minSeparation : ℚ) :
    ℕ → List NM3Node → ℕ × List NM3Node
  | 0, nodes => (0, nodes)
  | k + 1, nodes =>
    let cols := detectCollisions sqrtQ minSeparation nodes
    if cols.isEmpty then (0, nodes)
    else
      let nodes' := cols.foldl applyCollision nodes
      let r := resolveLoop sqrtQ minSeparation k nodes'
      (cols.length + r.1, r.2)

/-- `CollisionDetector.resolveCollisions` (default `maxIterations = 20`). -/
def resolveCollisions (sqrtQ : ℚ → ℚ) (minSeparation : ℚ)
    (nodes : List NM3Node) (maxIterations : ℕ := 20) : ℕ × List NM3Node :=
  resolveLoop sqrtQ minSeparation maxIterations nodes

/-! ## Force-directed layout (src/core/force-directed-3d.ts) -/

/-- `Vector3D` from force-directed-3d.ts. -/
structure Vector3D where
  x : ℚ
  y : ℚ
  z : ℚ
  deriving DecidableEq, Repr

/-- `ForceConfig` from force-directed-3d.ts. -/
structure ForceConfig where
  repulsionStrength : ℚ
  attractionStrength : ℚ
  centeringStrength : ℚ
  damping : ℚ
  minDistance : ℚ
  maxDistance : ℚ
  deriving DecidableEq, Repr

/-- The constructor defaults of `ForceDirected3D`. -/
def defaultForceConfig : ForceConfig :=
  ⟨50, 1 / 10, 1 / 100, 4 / 5, 3, 30⟩

/-- `Partial<ForceConfig>`: every field optional. -/
structure ForceConfigPartial where
  repulsionStrength : Option ℚ := none
  attractionStrength : Option ℚ := none
  centeringStrength : Option ℚ := none
  damping : Option ℚ := none
  minDistance : Option ℚ := none
  maxDistance : Option ℚ := none
  deriving DecidableEq, Repr

/-- The `{...defaults, ...config}` spread in the `ForceDirected3D`
constructor. -/
def mergeForceConfig (p : ForceConfigPartial) : ForceConfig :=
  ⟨p.repulsionStrength.getD 50, p.attractionStrength.getD (1 / 10),
   p.centeringStrength.getD (1 / 100), p.damping.getD (4 / 5),
   p.minDistance.getD 3, p.maxDistance.getD 30⟩

/-- The adjacency map: an association list keyed by node id, in key insertion
order, each value a neighbour list in insertion order without duplicates
(the source uses a `Map<string, Set<string>>`, both iterated in insertion
order). -/
abbrev AdjMap := List (String × List String)

/-- `Map.get` on the adjacency map. -/
def adjFind (m : AdjMap) (k : String) : Option (List String) :=
  (m.find? fun p => p.1 = k).map (·.2)

/-- `if (!adjacency.has(k)) adjacency.set(k, new Set())`. -/
def ensureKey (m : AdjMap) (k : String) : AdjMap :=
  if (m.find? fun p => p.1 = k).isSome then m else m ++ [(k, [])]

/-- `adjacency.get(k)!.add(v)`: add `v` to the set stored at `k` (present by
construction), keeping insertion order and ignoring duplicates. -/
def addNbr (m : AdjMap) (k v : String) : AdjMap :=
  m.map fun p =>
    if p.1 = k then (p.1, if v ∈ p.2 then p.2 else p.2 ++ [v]) else p

/-- Processing one link in `ForceDirected3D.buildAdjacencyMap`: ensure both
keys, then add each endpoint to the other's set (undirected). -/
def addLink (m : AdjMap) (l : NM3Link) : AdjMap :=
  let m1 := ensureKey m l.fromId
  let m2 := ensureKey m1 l.toId
  addNbr (addNbr m2 l.fromId l.toId) l.toId l.fromId

/-- `ForceDirected3D.buildAdjacencyMap`. -/
def buildAdjacencyMap (links : List NM3Link) : AdjMap :=
  links.foldl addLink []

/-- `adjacency.get(node1.id)`: an absent key means the neighbour loop body
never runs, the same as an empty neighbour list. -/
def neighborsOf (m : AdjMap) (k : String) : List String :=
  (adjFind m k).getD []

/-- The center of mass computed in `ForceDirected3D.calculateForces`. -/
def centroid (nodes : List NM3Node) : Vector3D :=
  let len : ℚ := nodes.length
  ⟨(nodes.foldl (fun acc n => acc + n.x) 0) / len,
   (nodes.foldl (fun acc n => acc + n.y) 0) / len,
   (nodes.foldl (fun acc n => acc + n.z) 0) / len⟩

/-- The three force contributions accumulated for the node at index `i` in
`ForceDirected3D.calculateForces`: all-pairs repulsion (skipping index `i`
itself; `dist > 0 && dist < maxDistance` is embedded as `0 < d2` and
`sqrtLt d2 maxDistance`), spring attraction towards adjacency neighbours
(`dist > minDistance` embedded as `sqrtGt d2 minDistance`), and centering. -/
def forceOn (cfg : ForceConfig) (sqrtQ : ℚ → ℚ) (nodes : List NM3Node)
    (adj : AdjMap) (center : Vector3D) (i : ℕ) (n1 : NM3Node) : Vector3D :=
  let rep := nodes.enum.foldl
    (fun (acc : Vector3D) jn =>
      if jn.1 = i then acc
      else
        let n2 := jn.2
        let dx := n1.x - n2.x
        let dy := n1.y - n2.y
        let dz := n1.z - n2.z
        let d2 := dx ^ 2 + dy ^ 2 + dz ^ 2
        if decide (0 < d2) && sqrtLt d2 cfg.maxDistance then
          let dist := sqrtQ d2
          let repulsion := cfg.repulsionStrength / (d2 + 1 / 10)
          ⟨acc.x + dx / dist * repulsion, acc.y + dy / dist * repulsion,
           acc.z + dz / dist * repulsion⟩
        else acc)
    ⟨0, 0, 0⟩
  let att := (neighborsOf adj n1.id).foldl
    (fun (acc : Vector3D) nbrId =>
      match nodes.find? fun n => n.id = nbrId with
      | none => acc
      | some n2 =>
        let dx := n2.x - n1.x
        let dy := n2.y - n1.y
        let dz := n2.z - n1.z
        let d2 := dx ^ 2 + dy ^ 2 + dz ^ 2
        if sqrtGt d2 cfg.minDistance then
          let dist := sqrtQ d2
          let attraction := cfg.attractionStrength * (dist - cfg.minDistance)
          ⟨acc.x + dx / dist * attraction, acc.y + dy / dist * attraction,
           acc.z + dz / dist * attraction⟩
        else acc)
    rep
  ⟨att.x + (center.x - n1.x) * cfg.centeringStrength,
   att.y + (center.y - n1.y) * cfg.centeringStrength,
   att.z + (center.z - n1.z) * cfg.centeringStrength⟩

/-- One step of the force-map accumulation in
`ForceDirected3D.calculateForces`: add the contribution of the indexed node
into the map entry for its id. -/
def forceAccum (cfg : ForceConfig) (sqrtQ : ℚ → ℚ) (nodes : List NM3Node)
    (adj : AdjMap) (center : Vector3D) (f : String → Vector3D)
    (in1 : ℕ × NM3Node) : String → Vector3D :=
  let add := forceOn cfg sqrtQ nodes adj center in1.1 in1.2
  fun id =>
    if id = in1.2.id then
      ⟨(f id).x + add.x, (f id).y + add.y, (f id).z + add.z⟩
    else f id

/-- `ForceDirected3D.calculateForces`: a map from id to accumulated force
(contributions of nodes sharing an id accumulate into the same entry, as
with the source's `Map`). -/
def calculateForces (cfg : ForceConfig) (sqrtQ : ℚ → ℚ)
    (nodes : List NM3Node) (adj : AdjMap) : String → Vector3D :=
  nodes.enum.foldl (forceAccum cfg sqrtQ nodes adj (centroid nodes))
    (fun _ => ⟨0, 0, 0⟩)

/-- One step of the loop in `ForceDirected3D.applyForces`: update one node's
velocity (with damping) and position and accumulate the summed absolute
velocity components. -/
def applyForceStep (cfg : ForceConfig) (forces : String → Vector3D)
    (acc : List NM3Node × (String → Vector3D) × ℚ) (n : NM3Node) :
    List NM3Node × (String → Vector3D) × ℚ :=
  let f := forces n.id
  let v := acc.2.1 n.id
  let v' : Vector3D := ⟨(v.x + f.x) * cfg.damping, (v.y + f.y) * cfg.damping,
    (v.z + f.z) * cfg.damping⟩
  let vel' := fun id => if id = n.id then v' else acc.2.1 id
  let n' := { n with x := n.x + v'.x, y := n.y + v'.y, z := n.z + v'.z }
  (acc.1 ++ [n'], vel', acc.2.2 + (|v'.x| + |v'.y| + |v'.z|))

/-- `ForceDirected3D.applyForces`: sequentially update each node's velocity
(with damping) and position, accumulating the summed absolute velocity
components; returns the updated nodes, the updated velocities and the mean
energy. -/
def applyForces (cfg : ForceConfig) (forces : String → Vector3D)
    (nodes : List NM3Node) (vel : String → Vector3D) :
    List NM3Node × (String → Vector3D) × ℚ :=
  let st := nodes.foldl (applyForceStep cfg forces) ([], vel, 0)
  (st.1, st.2.1, st.2.2 / (nodes.length : ℚ))

/-- The iteration loop of `ForceDirected3D.simulate`, with the early stop
when the energy of the just-applied step drops below `0.01`. -/
def simulateLoop (cfg : ForceConfig) (sqrtQ : ℚ → ℚ) (adj : AdjMap) :
    ℕ → List NM3Node → (String → Vector3D) → List NM3Node
  | 0, nodes, _ => nodes
  | k + 1, nodes, vel =>
    let forces := calculateForces cfg sqrtQ nodes adj
    let r := applyForces cfg forces nodes vel
    if r.2.2 < 1 / 100 then r.1
    else simulateLoop cfg sqrtQ adj k r.1 r.2.1

/-- `ForceDirected3D.simulate` (default 100 iterations): velocities are reset
to zero, the adjacency map is built once, then the loop runs.  The progress
callback has no effect on the result and is omitted. -/
def simulate (cfg : ForceConfig) (sqrtQ : ℚ → ℚ) (nodes : List NM3Node)
    (links : List NM3Link) (iterations : ℕ := 100) : List NM3Node :=
  simulateLoop cfg sqrtQ (buildAdjacencyMap links) iterations nodes
    (fun _ => ⟨0, 0, 0⟩)

/-! ## Layout templates (src/core/layout-templates.ts) -/

/-- The transcendental functions and constants of `Math` used by the layout
code, kept opaque: the engine's guarantees hold for any implementation. -/
structure JsMath where
  sqrtQ : ℚ → ℚ
  cosQ : ℚ → ℚ
  sinQ : ℚ → ℚ
  piQ : ℚ

/-- `LayoutType` from layout-templates.ts. -/
inductive LayoutType where
  | researchPaper
  | documentation
  | projectPlanning
  | knowledgeBase
  | tutorial
  | hierarchical
  | timeline
  | conceptMap
  deriving DecidableEq, Repr

/-- `LayoutConfig` from layout-templates.ts. -/
structure LayoutConfig where
  spacing : ℚ
  verticalSpread : ℚ
  horizontalSpread : ℚ
  depthSpread : ℚ
  deriving DecidableEq, Repr

/-- The defaults merged in `LayoutTemplates.applyTemplate`. -/
def defaultLayoutConfig : LayoutConfig :=
  ⟨5, 10, 15, 15⟩

/-- JavaScript `String.prototype.includes`: substring test. -/
def strIncludes (s pat : String) : Bool :=
  decide (2 ≤ (s.splitOn pat).length)

/-- `n.title?.toLowerCase().includes(pat)`, false when the title is absent. -/
def titleHas (n : NM3Node) (pat : String) : Bool :=
  match n.title with
  | none => false
  | some t => strIncludes t.toLower pat

/-- Replace only a node's position. -/
def withPos (n : NM3Node) (x y z : ℚ) : NM3Node :=
  { n with x := x, y := y, z := z }

/-- Set the position of the node at index `i` (the source mutates the node
object held at that list slot). -/
def setPosAt (ns : List NM3Node) (i : ℕ) (x y z : ℚ) : List NM3Node :=
  ns.modify (fun n => withPos n x y z) i

/-- The indices of the nodes satisfying a predicate, in list order (the
source's `nodes.filter(...)` holding references into the list). -/
def idxWhere (p : NM3Node → Bool) (ns : List NM3Node) : List ℕ :=
  (ns.enum.filter fun q => p q.2).map (·.1)

/-- The `intro` bucket predicate of `categorizeByTitle`. -/
def introPred (n : NM3Node) : Bool :=
  titleHas n "intro" || titleHas n "abstract" || titleHas n "overview"

/-- The `methods` bucket predicate of `categorizeByTitle`. -/
def methodsPred (n : NM3Node) : Bool :=
  titleHas n "method" || titleHas n "approach" || titleHas n "implementation"

/-- The `results` bucket predicate of `categorizeByTitle`. -/
def resultsPred (n : NM3Node) : Bool :=
  titleHas n "result" || titleHas n "finding" || titleHas n "outcome"

/-- The `conclusion` bucket predicate of `categorizeByTitle`. -/
def conclusionPred (n : NM3Node) : Bool :=
  titleHas n "conclusion" || titleHas n "summary" || titleHas n "future"

/-- The `references` bucket predicate of `categorizeByTitle`. -/
def referencesPred (n : NM3Node) : Bool :=
  titleHas n "reference" || titleHas n "citation" || titleHas n "bibliography"

/-- The `other` bucket predicate of `categorizeByTitle` (the source negates a
slightly smaller keyword list than the union of the five buckets). -/
def otherPred (n : NM3Node) : Bool :=
  ! (titleHas n "intro" || titleHas n "abstract" ||
     titleHas n "method" || titleHas n "approach" ||
     titleHas n "result" || titleHas n "finding" ||
     titleHas n "conclusion" || titleHas n "summary" ||
     titleHas n "reference" || titleHas n "citation")

/-- `LayoutTemplates.applyResearchPaperLayout`. -/
def applyResearchPaperLayout (jm : JsMath) (cfg : LayoutConfig)
    (ns : List NM3Node) : List NM3Node :=
  let intro := idxWhere introPred ns
  let methods := idxWhere methodsPred ns
  let results := idxWhere resultsPred ns
  let conclusion := idxWhere conclusionPred ns
  let references := idxWhere referencesPred ns
  let other := idxWhere otherPred ns
  let s1 := match intro with
    | [] => ns
    | i :: _ => setPosAt ns i 0 cfg.verticalSpread 0
  let s2 := methods.enum.foldl (fun acc q =>
    setPosAt acc q.2 (-(cfg.horizontalSpread / 2)) 0 ((q.1 : ℚ) * cfg.spacing)) s1
  let s3 := results.enum.foldl (fun acc q =>
    setPosAt acc q.2 (cfg.horizontalSpread / 2) 0 ((q.1 : ℚ) * cfg.spacing)) s2
  let s4 := match conclusion with
    | [] => s3
    | i :: _ => setPosAt s3 i 0 (-cfg.verticalSpread) 0
  let s5 := references.enum.foldl (fun acc q =>
    setPosAt acc q.2 (((q.1 : ℚ) - (references.length : ℚ) / 2) * cfg.spacing)
      (-(cfg.verticalSpread / 2)) (-cfg.depthSpread)) s4
  other.enum.foldl (fun acc q =>
    let angle := (q.1 : ℚ) / (other.length : ℚ) * jm.piQ * 2
    let radius := cfg.horizontalSpread * (7 / 10)
    setPosAt acc q.2 (jm.cosQ angle * radius) 0 (jm.sinQ angle * radius)) s5

/-- `Math.ceil(Math.sqrt n)` for a natural `n`. -/
def ceilSqrt (n : ℕ) : ℕ :=
  if n = 0 then 0 else Nat.sqrt (n - 1) + 1

/-- `LayoutTemplates.applyDocumentationLayout`. -/
def applyDocumentationLayout (cfg : LayoutConfig) (ns : List NM3Node) :
    List NM3Node :=
  let toc := idxWhere (fun n => titleHas n "content" || titleHas n "overview") ns
  let api := idxWhere (fun n => titleHas n "api" || titleHas n "reference") ns
  let guides := idxWhere (fun n => titleHas n "guide" || titleHas n "tutorial") ns
  let other := (List.range ns.length).filter fun i =>
    decide (i ∉ toc) && decide (i ∉ api) && decide (i ∉ guides)
  let s1 := match toc with
    | [] => ns
    | i :: _ => setPosAt ns i 0 (cfg.verticalSpread / 2) cfg.depthSpread
  let s2 := guides.enum.foldl (fun acc q =>
    setPosAt acc q.2 (((q.1 : ℚ) - (guides.length : ℚ) / 2) * cfg.spacing)
      0 (cfg.depthSpread / 2)) s1
  let gridSize := ceilSqrt other.length
  let s3 := other.enum.foldl (fun acc q =>
    let row : ℕ := q.1 / gridSize
    let col : ℕ := q.1 % gridSize
    setPosAt acc q.2 (((col : ℚ) - (gridSize : ℚ) / 2) * cfg.spacing) 0
      (((row : ℚ) - (gridSize : ℚ) / 2) * cfg.spacing)) s2
  api.enum.foldl (fun acc q =>
    setPosAt acc q.2 (((q.1 : ℚ) - (api.length : ℚ) / 2) * cfg.spacing)
      (-(cfg.verticalSpread / 3)) (-cfg.depthSpread)) s3

/-- `LayoutTemplates.applyProjectPlanningLayout`. -/
def applyProjectPlanningLayout (cfg : LayoutConfig) (ns : List NM3Node) :
    List NM3Node :=
  let goals := idxWhere (fun n => titleHas n "goal" || titleHas n "objective") ns
  let tasks := idxWhere (fun n => titleHas n "task" || titleHas n "todo") ns
  let completed := idxWhere (fun n => titleHas n "complete" || titleHas n "done") ns
  let blockers := idxWhere (fun n => titleHas n "block" || titleHas n "issue") ns
  let other := (List.range ns.length).filter fun i =>
    decide (i ∉ goals) && decide (i ∉ tasks) &&
    decide (i ∉ completed) && decide (i ∉ blockers)
  let s1 := goals.enum.foldl (fun acc q =>
    setPosAt acc q.2 (((q.1 : ℚ) - (goals.length : ℚ) / 2) * cfg.spacing)
      cfg.verticalSpread 0) ns
  let s2 := tasks.enum.foldl (fun acc q =>
    setPosAt acc q.2 (((q.1 : ℚ) - (tasks.length : ℚ) / 2) * cfg.spacing * (3 / 2))
      0 0) s1
  let s3 := completed.enum.foldl (fun acc q =>
    setPosAt acc q.2 (((q.1 : ℚ) - (completed.length : ℚ) / 2) * cfg.spacing)
      (-cfg.verticalSpread) (cfg.depthSpread / 2)) s2
  let s4 := blockers.enum.foldl (fun acc q =>
    setPosAt acc q.2 (((q.1 : ℚ) - (blockers.length : ℚ) / 2) * cfg.spacing)
      (cfg.verticalSpread / 2) cfg.depthSpread) s3
  other.enum.foldl (fun acc q =>
    setPosAt acc q.2 (((q.1 : ℚ) - (other.length : ℚ) / 2) * cfg.spacing)
      0 (-(cfg.depthSpread / 2))) s4

/-- `LayoutTemplates.applyKnowledgeBaseLayout`. -/
def applyKnowledgeBaseLayout (jm : JsMath) (cfg : LayoutConfig)
    (ns : List NM3Node) : List NM3Node :=
  let mainIdx := ns.findIdx? fun n =>
    titleHas n "index" || titleHas n "home" || titleHas n "main"
  let s1 := match mainIdx with
    | some i => setPosAt ns i 0 0 0
    | none => ns
  let others := match mainIdx with
    | some i => (List.range ns.length).filter fun j => decide (j ≠ i)
    | none => List.range ns.length
  others.enum.foldl (fun acc q =>
    let layer : ℕ := q.1 / 8 + 1
    let angleIndex : ℕ := q.1 % 8
    let angle := (angleIndex : ℚ) / 8 * jm.piQ * 2
    let radius := (layer : ℚ) * cfg.spacing * 2
    setPosAt acc q.2 (jm.cosQ angle * radius)
      ((((layer % 2 : ℕ) : ℚ) - 1 / 2) * cfg.verticalSpread / 3)
      (jm.sinQ angle * radius)) s1

/-- `LayoutTemplates.applyTutorialLayout`. -/
def applyTutorialLayout (cfg : LayoutConfig) (ns : List NM3Node) :
    List NM3Node :=
  (List.range ns.length).foldl (fun acc i =>
    let row : ℕ := i / 3
    let col : ℕ := i % 3
    setPosAt acc i (((col : ℚ) - 1) * cfg.spacing)
      (cfg.verticalSpread - (row : ℚ) * cfg.spacing * (1 / 2))
      ((row : ℚ) * cfg.spacing)) ns

/-- `(node.level || 1) - 1` clamped to `0..4` by `Math.min(·, maxLevel-1)`. -/
def levelIdx (n : NM3Node) : ℕ :=
  let lv := match n.level with
    | none => 1
    | some 0 => 1
    | some k => k
  min (lv - 1) 4

/-- `LayoutTemplates.applyHierarchicalLayout`. -/
def applyHierarchicalLayout (cfg : LayoutConfig) (ns : List NM3Node) :
    List NM3Node :=
  (List.range 5).foldl (fun acc l =>
    let lv := idxWhere (fun n => levelIdx n = l) ns
    let y := cfg.verticalSpread - (l : ℚ) * cfg.verticalSpread / 2
    let z := -(l : ℚ) * cfg.depthSpread / 4
    lv.enum.foldl (fun acc2 q =>
      setPosAt acc2 q.2 (((q.1 : ℚ) - (lv.length : ℚ) / 2) * cfg.spacing) y z)
      acc) ns

/-- `LayoutTemplates.applyTimelineLayout`. -/
def applyTimelineLayout (jm : JsMath) (cfg : LayoutConfig)
    (ns : List NM3Node) : List NM3Node :=
  (List.range ns.length).foldl (fun acc i =>
    setPosAt acc i (((i : ℚ) - (ns.length : ℚ) / 2) * cfg.spacing)
      (jm.sinQ ((i : ℚ) / (ns.length : ℚ) * jm.piQ) * cfg.verticalSpread / 2)
      0) ns

/-- `Math.ceil(a / 4)` for a natural `a`. -/
def ceilDiv4 (a : ℕ) : ℕ :=
  (a + 3) / 4

/-- The round-robin cluster count of `applyConceptMapLayout`. -/
def clusterCount (len : ℕ) : ℕ :=
  min 5 (ceilDiv4 len)

/-- The round-robin cluster of index `j` (indices of `ns`). -/
def clusterIdx (len cc j : ℕ) : List ℕ :=
  (List.range len).filter fun i => i % cc = j

/-- `LayoutTemplates.applyConceptMapLayout`. -/
def applyConceptMapLayout (jm : JsMath) (cfg : LayoutConfig)
    (ns : List NM3Node) : List NM3Node :=
  let cc := clusterCount ns.length
  (List.range cc).foldl (fun acc j =>
    let cluster := clusterIdx ns.length cc j
    let angle := (j : ℚ) / (cc : ℚ) * jm.piQ * 2
    let clusterRadius := cfg.horizontalSpread
    let centerX := jm.cosQ angle * clusterRadius
    let centerZ := jm.sinQ angle * clusterRadius
    cluster.enum.foldl (fun acc2 q =>
      let localAngle := (q.1 : ℚ) / (cluster.length : ℚ) * jm.piQ * 2
      let localRadius := cfg.spacing * 2
      setPosAt acc2 q.2 (centerX + jm.cosQ localAngle * localRadius) 0
        (centerZ + jm.sinQ localAngle * localRadius)) acc) ns

/-- `LayoutTemplates.applyTemplate` (defaults merged; the optimizer calls it
without a config override). -/
def applyTemplate (jm : JsMath) (ns : List NM3Node) (lt : LayoutType)
    (cfg : LayoutConfig := defaultLayoutConfig) : List NM3Node :=
  match lt with
  | .researchPaper => applyResearchPaperLayout jm cfg ns
  | .documentation => applyDocumentationLayout cfg ns
  | .projectPlanning => applyProjectPlanningLayout cfg ns
  | .knowledgeBase => applyKnowledgeBaseLayout jm cfg ns
  | .tutorial => applyTutorialLayout cfg ns
  | .hierarchical => applyHierarchicalLayout cfg ns
  | .timeline => applyTimelineLayout jm cfg ns
  | .conceptMap => applyConceptMapLayout jm cfg ns

/-! ## Spatial optimizer (src/core/spatial-optimizer-v2.ts) -/

/-- `OptimizationConfig` from spatial-optimizer-v2.ts. -/
structure OptimizationConfig where
  useForceDirected : Bool
  useCollisionResolution : Bool
  useLayoutTemplate : Option LayoutType := none
  forceConfig : Option ForceConfigPartial := none
  maxIterations : Option ℕ := none
  minSeparation : Option ℚ := none

/-- `node.tags?.includes(pat)`, false when `tags` is absent. -/
def tagsInclude (n : NM3Node) (pat : String) : Bool :=
  match n.tags with
  | none => false
  | some t => strIncludes t pat

/-- `SpatialOptimizerV2.applySpatialConventions`: z-nudges by scale, y-nudges
by shape type (and tags for cubes). -/
def applySpatialConventions (ns : List NM3Node) : List NM3Node :=
  ns.map fun n =>
    let scale := effScale n
    let n1 :=
      if 3 / 2 < scale then { n with z := n.z + 5 }
      else if scale < 4 / 5 then { n with z := n.z - 3 }
      else n
    if n1.type = "pyramid" then { n1 with y := n1.y + 2 }
    else if n1.type = "torus" then { n1 with y := n1.y + 1 }
    else if n1.type = "cube" then
      if tagsInclude n1 "code" || tagsInclude n1 "technical" then
        { n1 with y := n1.y - 1 }
      else n1
    else n1

/-- `SpatialOptimizerV2.initializeRandomPositions`: random spherical
placement; the `Math.random()` stream is passed in as `rnd`, consumed three
values per node in list order. -/
def initializeRandomPositions (jm : JsMath) (rnd : ℕ → ℚ)
    (ns : List NM3Node) : List NM3Node :=
  let spreadRadius := max 10 ((ns.length : ℚ) * 2)
  ns.enum.map fun q =>
    let theta := rnd (3 * q.1) * jm.piQ * 2
    let phi := rnd (3 * q.1 + 1) * jm.piQ
    let r := rnd (3 * q.1 + 2) * spreadRadius
    withPos q.2 (r * jm.sinQ phi * jm.cosQ theta)
      (r * jm.sinQ phi * jm.sinQ theta) (r * jm.cosQ phi)

/-- The record returned by `SpatialOptimizerV2.calculateBounds`. -/
structure NodeBounds where
  minX : ℚ
  maxX : ℚ
  minY : ℚ
  maxY : ℚ
  minZ : ℚ
  maxZ : ℚ
  centerX : ℚ
  centerY : ℚ
  centerZ : ℚ
  deriving DecidableEq, Repr

/-- `SpatialOptimizerV2.calculateBounds`.  The source folds from `±Infinity`
and so returns an infinite box for an empty list; that case is represented
as `none` (its only consumer, `normalizePositions`, then leaves the nodes
unchanged exactly as the source's `currentWidth > 0` guard does). -/
def calculateBounds : List NM3Node → Option NodeBounds
  | [] => none
  | n :: rest =>
    let st := (n :: rest).foldl
      (fun (acc : ℚ × ℚ × ℚ × ℚ × ℚ × ℚ) m =>
        (min acc.1 m.x, max acc.2.1 m.x, min acc.2.2.1 m.y,
         max acc.2.2.2.1 m.y, min acc.2.2.2.2.1 m.z, max acc.2.2.2.2.2 m.z))
      (n.x, n.x, n.y, n.y, n.z, n.z)
    some ⟨st.1, st.2.1, st.2.2.1, st.2.2.2.1, st.2.2.2.2.1, st.2.2.2.2.2,
      (st.1 + st.2.1) / 2, (st.2.2.1 + st.2.2.2.1) / 2,
      (st.2.2.2.2.1 + st.2.2.2.2.2) / 2⟩

/-- The target box of `SpatialOptimizerV2.normalizePositions`. -/
structure TargetBounds where
  width : ℚ
  height : ℚ
  depth : ℚ
  deriving DecidableEq, Repr

/-- `SpatialOptimizerV2.normalizePositions`: per-axis rescale and recenter,
applied only when a target box is supplied and every current extent is
strictly positive. -/
def normalizePositions (ns : List NM3Node) (tb : Option TargetBounds) :
    List NM3Node :=
  match calculateBounds ns with
  | none => ns
  | some b =>
    let currentWidth := b.maxX - b.minX
    let currentHeight := b.maxY - b.minY
    let currentDepth := b.maxZ - b.minZ
    match tb with
    | none => ns
    | some t =>
      if 0 < currentWidth ∧ 0 < currentHeight ∧ 0 < currentDepth then
        let scaleX := t.width / currentWidth
        let scaleY := t.height / currentHeight
        let scaleZ := t.depth / currentDepth
        ns.map fun n =>
          withPos n ((n.x - b.centerX) * scaleX) ((n.y - b.centerY) * scaleY)
            ((n.z - b.centerZ) * scaleZ)
      else ns

/-- `config.maxIterations || 100`: `undefined` and `0` are falsy. -/
def jsOrNat (o : Option ℕ) (d : ℕ) : ℕ :=
  match o with
  | none => d
  | some 0 => d
  | some k => k

/-- `SpatialOptimizerV2.optimize`: template or random initialisation, then
optional force simulation, optional collision resolution (20 iterations),
then the axis conventions.  `rnd` is the `Math.random()` stream. -/
def optimize (jm : JsMath) (rnd : ℕ → ℚ) (nodes : List NM3Node)
    (links : List NM3Link) (config : OptimizationConfig) : List NM3Node :=
  let s1 := match config.useLayoutTemplate with
    | some t => applyTemplate jm nodes t
    | none => initializeRandomPositions jm rnd nodes
  let s2 :=
    if config.useForceDirected then
      let fc := match config.forceConfig with
        | some p => mergeForceConfig p
        | none => defaultForceConfig
      simulate fc jm.sqrtQ s1 links (jsOrNat config.maxIterations 100)
    else s1
  let s3 :=
    if config.useCollisionResolution then
      let ms := match config.minSeparation with
        | some q => if q = 0 then 2 else q
        | none => 2
      (resolveCollisions jm.sqrtQ ms s2 20).2
    else s2
  applySpatialConventions s3

/-! ## Derived notions used in the statements -/

/-- A node with its position forgotten: used to state that an operation
changes nothing but positions. -/
def eraseXYZ (n : NM3Node) : NM3Node :=
  { n with x := 0, y := 0, z := 0 }

/-- Squared center-to-center distance of two nodes. -/
def nodeDist2 (a b : NM3Node) : ℚ :=
  (a.x - b.x) ^ 2 + (a.y - b.y) ^ 2 + (a.z - b.z) ^ 2

/-- Squared distance of an octree entry's center to a query point. -/
def entryDist2 (e : OctreeNode α) (x y z : ℚ) : ℚ :=
  (e.x - x) ^ 2 + (e.y - y) ^ 2 + (e.z - z) ^ 2

/-- The brute-force sphere test: true Euclidean distance at most `radius`. -/
def inSphere (e : OctreeNode α) (x y z radius : ℚ) : Bool :=
  sqrtLe (entryDist2 e x y z) radius

/-- The octree well-formedness invariant maintained by insertion: every
entry stored in a cell (or anywhere in its subtree) has its center within
the cell's bounds.  This is what makes the `intersects` pruning of
`queryRange` lossless. -/
inductive WF : OctreeCell α → Prop where
  | leaf {b : BoundingBox} {ns : List (OctreeNode α)} {mn md dp : ℕ}
      (hns : ∀ n ∈ ns, inBounds b n = true) :
      WF (OctreeCell.leaf b ns mn md dp)
  | node {b : BoundingBox} {ns : List (OctreeNode α)}
      {a b1 c d e f g h : OctreeCell α} {mn md dp : ℕ}
      (hns : ∀ n ∈ ns, inBounds b n = true)
      (hfit : ∀ k ∈ [a, b1, c, d, e, f, g, h],
        ∀ m ∈ OctreeCell.elems k, inBounds b m = true)
      (hwf : ∀ k ∈ [a, b1, c, d, e, f, g, h], WF k) :
      WF (OctreeCell.node b ns a b1 c d e f g h mn md dp)

/-- A child cell that is well-formed and whose subtree entries all lie in
the enclosing bounds `b`. -/
def KidOK (b : BoundingBox) (k : OctreeCell α) : Prop :=
  (∀ m ∈ OctreeCell.elems k, inBounds b m = true) ∧ WF k

/-! ## Octree lemmas -/

namespace OctreeCell

variable {α : Type}

@[simp]
theorem elems_leaf (b : BoundingBox) (ns : List (OctreeNode α)) (mn md dp : ℕ) :
    elems (leaf b ns mn md dp) = ns := rfl

theorem elems_node (b : BoundingBox) (ns : List (OctreeNode α))
    (a b1 c d e f g h : OctreeCell α) (mn md dp : ℕ) :
    elems (node b ns a b1 c d e f g h mn md dp) =
      ns ++ ([a, b1, c, d, e, f, g, h].flatMap elems) := by
  simp [elems]

@[simp]
theorem push_bounds (c : OctreeCell α) (n : OctreeNode α) :
    (c.push n).bounds = c.bounds := by
  cases c <;> rfl

@[simp]
theorem push_maxNodes (c : OctreeCell α) (n : OctreeNode α) :
    (c.push n).maxNodes = c.maxNodes := by
  cases c <;> rfl

@[simp]
theorem push_maxDepth (c : OctreeCell α) (n : OctreeNode α) :
    (c.push n).maxDepth = c.maxDepth := by
  cases c <;> rfl

@[simp]
theorem push_depth (c : OctreeCell α) (n : OctreeNode α) :
    (c.push n).depth = c.depth := by
  cases c <;> rfl

@[simp]
theorem push_ownNodes (c : OctreeCell α) (n : OctreeNode α) :
    (c.push n).ownNodes = c.ownNodes ++ [n] := by
  cases c <;> rfl

@[simp]
theorem push_hasChildren (c : OctreeCell α) (n : OctreeNode α) :
    (c.push n).hasChildren = c.hasChildren := by
  cases c <;> rfl

theorem elems_push (c : OctreeCell α) (n : OctreeNode α) :
    elems (c.push n) ~ n :: elems c := by
  cases c with
  | leaf b ns mn md dp =>
    simp [push]
  | node b ns a b1 c1 d e f g h mn md dp =>
    show (ns ++ [n]) ++ _ ~ n :: (ns ++ _)
    rw [List.append_assoc]
    exact List.perm_middle

@[simp]
theorem mkNode_bounds (b : BoundingBox) (ns : List (OctreeNode α))
    (ks : List (OctreeCell α)) (mn md dp : ℕ) :
    (mkNode b ns ks mn md dp).bounds = b := by
  unfold mkNode
  split <;> rfl

@[simp]
theorem mkNode_maxNodes (b : BoundingBox) (ns : List (OctreeNode α))
    (ks : List (OctreeCell α)) (mn md dp : ℕ) :
    (mkNode b ns ks mn md dp).maxNodes = mn := by
  unfold mkNode
  split <;> rfl

@[simp]
theorem mkNode_maxDepth (b : BoundingBox) (ns : List (OctreeNode α))
    (ks : List (OctreeCell α)) (mn md dp : ℕ) :
    (mkNode b ns ks mn md dp).maxDepth = md := by
  unfold mkNode
  split <;> rfl

@[simp]
theorem mkNode_depth (b : BoundingBox) (ns : List (OctreeNode α))
    (ks : List (OctreeCell α)) (mn md dp : ℕ) :
    (mkNode b ns ks mn md dp).depth = dp := by
  unfold mkNode
  split <;> rfl

@[simp]
theorem mkNode_ownNodes (b : BoundingBox) (ns : List (OctreeNode α))
    (ks : List (OctreeCell α)) (mn md dp : ℕ) :
    (mkNode b ns ks mn md dp).ownNodes = ns := by
  unfold mkNode
  split <;> rfl

theorem mkNode_of_len8 (b : BoundingBox) (ns : List (OctreeNode α))
    {ks : List (OctreeCell α)} (mn md dp : ℕ) (hlen : ks.length = 8) :
    ∃ a b1 c d e f g h, ks = [a, b1, c, d, e, f, g, h] ∧
      mkNode b ns ks mn md dp = node b ns a b1 c d e f g h mn md dp := by
  rcases ks with _ | ⟨a, _ | ⟨b1, _ | ⟨c, _ | ⟨d, _ | ⟨e, _ | ⟨f, _ | ⟨g,
    _ | ⟨h, _ | ⟨i, t⟩⟩⟩⟩⟩⟩⟩⟩⟩ <;> simp at hlen
  exact ⟨a, b1, c, d, e, f, g, h, rfl, rfl⟩

theorem elems_mkNode (b : BoundingBox) (ns : List (OctreeNode α))
    {ks : List (OctreeCell α)} (mn md dp : ℕ) (hlen : ks.length = 8) :
    elems (mkNode b ns ks mn md dp) = ns ++ ks.flatMap elems := by
  obtain ⟨a, b1, c, d, e, f, g, h, rfl, heq⟩ := mkNode_of_len8 b ns mn md dp hlen
  rw [heq, elems_node]

theorem kids_mkNode (b : BoundingBox) (ns : List (OctreeNode α))
    {ks : List (OctreeCell α)} (mn md dp : ℕ) (hlen : ks.length = 8) :
    (mkNode b ns ks mn md dp).kids = ks := by
  obtain ⟨a, b1, c, d, e, f, g, h, rfl, heq⟩ := mkNode_of_len8 b ns mn md dp hlen
  rw [heq]
  rfl

theorem hasChildren_mkNode (b : BoundingBox) (ns : List (OctreeNode α))
    {ks : List (OctreeCell α)} (mn md dp : ℕ) (hlen : ks.length = 8) :
    (mkNode b ns ks mn md dp).hasChildren = true := by
  obtain ⟨a, b1, c, d, e, f, g, h, rfl, heq⟩ := mkNode_of_len8 b ns mn md dp hlen
  rw [heq]
  rfl

theorem insertSeq_length (ins : OctreeCell α → OctreeNode α → Bool × OctreeCell α) :
    ∀ {ks ks' : List (OctreeCell α)} {n : OctreeNode α},
      insertSeq ins ks n = some ks' → ks'.length = ks.length := by
  intro ks
  induction ks with
  | nil => intro ks' n h; simp [insertSeq] at h
  | cons k ks ih =>
    intro ks' n h
    unfold insertSeq at h
    rcases hk : ins k n with ⟨bo, k2⟩
    rw [hk] at h
    cases bo with
    | true =>
      simp at h
      subst h
      simp
    | false =>
      rcases hrec : insertSeq ins ks n with _ | ks2 <;> rw [hrec] at h
      · simp at h
      · simp at h
        subst h
        simp [ih hrec]

theorem insertSeq_elems (ins : OctreeCell α → OctreeNode α → Bool × OctreeCell α)
    {n : OctreeNode α}
    (hins : ∀ k, (ins k n).1 = true → elems (ins k n).2 ~ n :: elems k) :
    ∀ {ks ks' : List (OctreeCell α)}, insertSeq ins ks n = some ks' →
      ks'.flatMap elems ~ n :: ks.flatMap elems := by
  intro ks
  induction ks with
  | nil => intro ks' h; simp [insertSeq] at h
  | cons k ks ih =>
    intro ks' h
    unfold insertSeq at h
    rcases hk : ins k n with ⟨bo, k2⟩
    rw [hk] at h
    cases bo with
    | true =>
      simp at h
      subst h
      have hp := hins k (by rw [hk])
      rw [hk] at hp
      calc (k2 :: ks).flatMap elems = elems k2 ++ ks.flatMap elems := by simp
        _ ~ (n :: elems k) ++ ks.flatMap elems := hp.append_right _
        _ = n :: (k :: ks).flatMap elems := by simp
    | false =>
      rcases hrec : insertSeq ins ks n with _ | ks2 <;> rw [hrec] at h
      · simp at h
      · simp at h
        subst h
        calc (k :: ks2).flatMap elems = elems k ++ ks2.flatMap elems := by simp
          _ ~ elems k ++ (n :: ks.flatMap elems) := ((ih hrec).append_left _)
          _ ~ n :: (elems k ++ ks.flatMap elems) := List.perm_middle
          _ = n :: (k :: ks).flatMap elems := by simp

theorem redistrib_length (ins : OctreeCell α → OctreeNode α → Bool × OctreeCell α) :
    ∀ (ns : List (OctreeNode α)) (ks : List (OctreeCell α)),
      (redistrib ins ks ns).1.length = ks.length := by
  intro ns
  induction ns with
  | nil => intro ks; rfl
  | cons n rest ih =>
    intro ks
    unfold redistrib
    rcases hseq : insertSeq ins ks n with _ | ks2
    · simpa using ih ks
    · simpa [insertSeq_length ins hseq] using ih ks2

theorem redistrib_elems (ins : OctreeCell α → OctreeNode α → Bool × OctreeCell α)
    (hins : ∀ k n, (ins k n).1 = true → elems (ins k n).2 ~ n :: elems k) :
    ∀ (ns : List (OctreeNode α)) (ks : List (OctreeCell α)),
      (redistrib ins ks ns).1.flatMap elems ++ (redistrib ins ks ns).2 ~
        ks.flatMap elems ++ ns := by
  intro ns
  induction ns with
  | nil => intro ks; simp [redistrib]
  | cons n rest ih =>
    intro ks
    unfold redistrib
    rcases hseq : insertSeq ins ks n with _ | ks2
    · simp only
      calc (redistrib ins ks rest).1.flatMap elems ++
            (n :: (redistrib ins ks rest).2)
          ~ n :: ((redistrib ins ks rest).1.flatMap elems ++
              (redistrib ins ks rest).2) := List.perm_middle
        _ ~ n :: (ks.flatMap elems ++ rest) := (ih ks).cons n
        _ ~ ks.flatMap elems ++ (n :: rest) := List.perm_middle.symm
    · simp only
      have hstep := insertSeq_elems ins (fun k => hins k n) hseq
      calc (redistrib ins ks2 rest).1.flatMap elems ++
            (redistrib ins ks2 rest).2
          ~ ks2.flatMap elems ++ rest := ih ks2
        _ ~ (n :: ks.flatMap elems) ++ rest := hstep.append_right _
        _ = n :: (ks.flatMap elems ++ rest) := rfl
        _ ~ ks.flatMap elems ++ (n :: rest) := List.perm_middle.symm

@[simp]
theorem freshKids_length (b : BoundingBox) (mn md dp : ℕ) :
    (freshKids (α := α) b mn md dp).length = 8 := rfl

@[simp]
theorem freshKids_flatMap_elems (b : BoundingBox) (mn md dp : ℕ) :
    (freshKids (α := α) b mn md dp).flatMap elems = [] := rfl

theorem subdivide_kids_length
    (ins : OctreeCell α → OctreeNode α → Bool × OctreeCell α)
    (b : BoundingBox) (ns : List (OctreeNode α)) (mn md dp : ℕ) :
    (subdivide ins b ns mn md dp).kids.length = 8 := by
  unfold subdivide
  rw [kids_mkNode]
  · exact (redistrib_length ins ns _).trans (freshKids_length b mn md dp)
  · exact (redistrib_length ins ns _).trans (freshKids_length b mn md dp)

theorem subdivide_elems (ins : OctreeCell α → OctreeNode α → Bool × OctreeCell α)
    (hins : ∀ k n, (ins k n).1 = true → elems (ins k n).2 ~ n :: elems k)
    (b : BoundingBox) (ns : List (OctreeNode α)) (mn md dp : ℕ) :
    elems (subdivide ins b ns mn md dp) ~ ns := by
  unfold subdivide
  rw [elems_mkNode _ _ _ _ _
    ((redistrib_length ins ns _).trans (freshKids_length b mn md dp))]
  calc (redistrib ins (freshKids b mn md dp) ns).2 ++
        (redistrib ins (freshKids b mn md dp) ns).1.flatMap elems
      ~ (redistrib ins (freshKids b mn md dp) ns).1.flatMap elems ++
        (redistrib ins (freshKids b mn md dp) ns).2 := List.perm_append_comm
    _ ~ (freshKids b mn md dp).flatMap elems ++ ns := redistrib_elems ins hins ns _
    _ = ns := by simp

theorem elems_eq_own_append_kids (c : OctreeCell α) :
    elems c = c.ownNodes ++ c.kids.flatMap elems := by
  cases c with
  | leaf b ns mn md dp => simp [kids, ownNodes]
  | node b ns a b1 c1 d e f g h mn md dp =>
    rw [elems_node]
    rfl

theorem subdivide_fields (ins : OctreeCell α → OctreeNode α → Bool × OctreeCell α)
    (b : BoundingBox) (ns : List (OctreeNode α)) (mn md dp : ℕ) :
    (subdivide ins b ns mn md dp).bounds = b ∧
    (subdivide ins b ns mn md dp).maxNodes = mn ∧
    (subdivide ins b ns mn md dp).maxDepth = md ∧
    (subdivide ins b ns mn md dp).depth = dp := by
  unfold subdivide
  simp

/-- Unfolding of `insert` at positive fuel on a leaf cell. -/
theorem insert_succ_leaf (f : ℕ) (b : BoundingBox) (ns : List (OctreeNode α))
    (mn md dp : ℕ) (n : OctreeNode α) :
    insert (f + 1) (leaf b ns mn md dp) n =
      if ¬ inBounds b n then (false, leaf b ns mn md dp)
      else if ns.length < mn ∨ md ≤ dp then (true, leaf b (ns ++ [n]) mn md dp)
      else
        match insertSeq (fun c' n' => insert f c' n')
            (subdivide (fun c' n' => insert f c' n') b ns mn md dp).kids n with
        | some ks' => (true, mkNode b
            (subdivide (fun c' n' => insert f c' n') b ns mn md dp).ownNodes
            ks' mn md dp)
        | none => (true,
            (subdivide (fun c' n' => insert f c' n') b ns mn md dp).push n) :=
  rfl

/-- Unfolding of `insert` at positive fuel on an internal cell. -/
theorem insert_succ_node (f : ℕ) (b : BoundingBox) (ns : List (OctreeNode α))
    (a b1 c1 d e g1 g2 h : OctreeCell α) (mn md dp : ℕ) (n : OctreeNode α) :
    insert (f + 1) (node b ns a b1 c1 d e g1 g2 h mn md dp) n =
      if ¬ inBounds b n then (false, node b ns a b1 c1 d e g1 g2 h mn md dp)
      else if ns.length < mn ∨ md ≤ dp then
        (true, node b (ns ++ [n]) a b1 c1 d e g1 g2 h mn md dp)
      else
        match insertSeq (fun c' n' => insert f c' n')
            [a, b1, c1, d, e, g1, g2, h] n with
        | some ks' => (true, mkNode b ns ks' mn md dp)
        | none => (true, mkNode b (ns ++ [n]) [a, b1, c1, d, e, g1, g2, h]
            mn md dp) :=
  rfl

/-- The exhaustive behaviour of `insert`: either it reports failure and
leaves the cell untouched, or it reports success and the stored entries are
exactly the old ones plus the new one. -/
theorem insert_cases : ∀ (fuel : ℕ) (c : OctreeCell α) (n : OctreeNode α),
    insert fuel c n = (false, c) ∨
    ((insert fuel c n).1 = true ∧ elems (insert fuel c n).2 ~ n :: elems c) := by
  intro fuel
  induction fuel with
  | zero => intro c n; exact Or.inl rfl
  | succ f ih =>
    intro c n
    have hins : ∀ (k : OctreeCell α) (m : OctreeNode α),
        (insert f k m).1 = true → elems (insert f k m).2 ~ m :: elems k := by
      intro k m hk
      rcases ih k m with heq | ⟨_, hp⟩
      · rw [heq] at hk
        exact absurd hk (by simp)
      · exact hp
    cases c with
    | leaf b ns mn md dp =>
      rw [insert_succ_leaf]
      by_cases hb : inBounds b n = true
      · rw [if_neg (by simp [hb])]
        by_cases hcap : ns.length < mn ∨ md ≤ dp
        · rw [if_pos hcap]
          right
          refine ⟨rfl, ?_⟩
          simp
        · rw [if_neg hcap]
          right
          rcases hseq : insertSeq (fun c' n' => insert f c' n')
              (subdivide (fun c' n' => insert f c' n') b ns mn md dp).kids n
            with _ | ks'
          · refine ⟨rfl, ?_⟩
            show elems ((subdivide (fun c' n' => insert f c' n') b ns mn md
              dp).push n) ~ n :: ns
            exact (elems_push _ n).trans
              ((subdivide_elems _ hins b ns mn md dp).cons n)
          · refine ⟨rfl, ?_⟩
            have hlen : ks'.length = 8 :=
              (insertSeq_length _ hseq).trans
                (subdivide_kids_length _ b ns mn md dp)
            show elems (mkNode b
              (subdivide (fun c' n' => insert f c' n') b ns mn md dp).ownNodes
              ks' mn md dp) ~ n :: ns
            rw [elems_mkNode _ _ _ _ _ hlen]
            calc (subdivide (fun c' n' => insert f c' n') b ns mn md dp).ownNodes
                  ++ ks'.flatMap elems
                ~ (subdivide (fun c' n' => insert f c' n') b ns mn md dp).ownNodes
                  ++ (n :: (subdivide (fun c' n' => insert f c' n') b ns mn md
                      dp).kids.flatMap elems) :=
                  (insertSeq_elems _ (fun k => hins k n) hseq).append_left _
              _ ~ n :: ((subdivide (fun c' n' => insert f c' n') b ns mn md
                      dp).ownNodes ++ (subdivide (fun c' n' => insert f c' n')
                      b ns mn md dp).kids.flatMap elems) := List.perm_middle
              _ = n :: elems (subdivide (fun c' n' => insert f c' n') b ns mn md
                      dp) := by rw [← elems_eq_own_append_kids]
              _ ~ n :: ns := (subdivide_elems _ hins b ns mn md dp).cons n
      · rw [if_pos (by simp [hb])]
        exact Or.inl rfl
    | node b ns a b1 c1 d e g1 g2 h mn md dp =>
      rw [insert_succ_node]
      by_cases hb : inBounds b n = true
      · rw [if_neg (by simp [hb])]
        by_cases hcap : ns.length < mn ∨ md ≤ dp
        · rw [if_pos hcap]
          right
          refine ⟨rfl, ?_⟩
          show elems (node b (ns ++ [n]) a b1 c1 d e g1 g2 h mn md dp) ~ _
          rw [elems_node, elems_node, List.append_assoc]
          exact List.perm_middle
        · rw [if_neg hcap]
          right
          rcases hseq : insertSeq (fun c' n' => insert f c' n')
              [a, b1, c1, d, e, g1, g2, h] n with _ | ks'
          · refine ⟨rfl, ?_⟩
            show elems (mkNode b (ns ++ [n]) [a, b1, c1, d, e, g1, g2, h]
              mn md dp) ~ _
            have hlen : ([a, b1, c1, d, e, g1, g2, h] :
                List (OctreeCell α)).length = 8 := rfl
            rw [elems_mkNode _ _ _ _ _ hlen, elems_node, List.append_assoc]
            exact List.perm_middle
          · refine ⟨rfl, ?_⟩
            have hlen : ks'.length = 8 := insertSeq_length _ hseq
            show elems (mkNode b ns ks' mn md dp) ~ _
            rw [elems_mkNode _ _ _ _ _ hlen, elems_node]
            calc ns ++ ks'.flatMap elems
                ~ ns ++ (n :: ([a, b1, c1, d, e, g1, g2, h].flatMap elems)) :=
                  (insertSeq_elems _ (fun k => hins k n) hseq).append_left _
              _ ~ n :: (ns ++ [a, b1, c1, d, e, g1, g2, h].flatMap elems) :=
                  List.perm_middle
      · rw [if_pos (by simp [hb])]
        exact Or.inl rfl

theorem insert_perm {fuel : ℕ} {c : OctreeCell α} {n : OctreeNode α}
    (h : (insert fuel c n).1 = true) :
    elems (insert fuel c n).2 ~ n :: elems c := by
  rcases insert_cases fuel c n with heq | ⟨_, hp⟩
  · rw [heq] at h
    exact absurd h (by simp)
  · exact hp

theorem insert_of_false {fuel : ℕ} {c : OctreeCell α} {n : OctreeNode α}
    (h : (insert fuel c n).1 = false) :
    (insert fuel c n).2 = c := by
  rcases insert_cases fuel c n with heq | ⟨ht, _⟩
  · rw [heq]
  · rw [ht] at h
    exact absurd h (by simp)

/-- With at least one unit of fuel, insertion succeeds exactly when the
entry's center lies within the cell's bounds (the final fallback `push`
guarantees success for contained entries). -/
theorem insert_ret_iff (fuel : ℕ) (c : OctreeCell α) (n : OctreeNode α) :
    (insert (fuel + 1) c n).1 = inBounds c.bounds n := by
  cases c with
  | leaf b ns mn md dp =>
    rw [insert_succ_leaf]
    by_cases hb : inBounds b n = true
    · rw [if_neg (by simp [hb])]
      by_cases hcap : ns.length < mn ∨ md ≤ dp
      · rw [if_pos hcap]
        exact hb.symm
      · rw [if_neg hcap]
        rcases hseq : insertSeq (fun c' n' => insert fuel c' n')
            (subdivide (fun c' n' => insert fuel c' n') b ns mn md dp).kids n
          with _ | ks' <;> exact hb.symm
    · rw [Bool.not_eq_true] at hb
      rw [if_pos (by simp [hb])]
      exact hb.symm
  | node b ns a b1 c1 d e g1 g2 h mn md dp =>
    rw [insert_succ_node]
    by_cases hb : inBounds b n = true
    · rw [if_neg (by simp [hb])]
      by_cases hcap : ns.length < mn ∨ md ≤ dp
      · rw [if_pos hcap]
        exact hb.symm
      · rw [if_neg hcap]
        rcases hseq : insertSeq (fun c' n' => insert fuel c' n')
            [a, b1, c1, d, e, g1, g2, h] n with _ | ks' <;> exact hb.symm
    · rw [Bool.not_eq_true] at hb
      rw [if_pos (by simp [hb])]
      exact hb.symm

/-- Insertion never changes the cell's bounds or configuration fields. -/
theorem insert_fields (fuel : ℕ) (c : OctreeCell α) (n : OctreeNode α) :
    (insert fuel c n).2.bounds = c.bounds ∧
    (insert fuel c n).2.maxNodes = c.maxNodes ∧
    (insert fuel c n).2.maxDepth = c.maxDepth ∧
    (insert fuel c n).2.depth = c.depth := by
  rcases fuel with _ | f
  · exact ⟨rfl, rfl, rfl, rfl⟩
  cases c with
  | leaf b ns mn md dp =>
    show _ = b ∧ _ = mn ∧ _ = md ∧ _ = dp
    rw [insert_succ_leaf]
    by_cases hb : ¬ inBounds b n = true
    · rw [if_pos hb]
      exact ⟨rfl, rfl, rfl, rfl⟩
    rw [if_neg hb]
    by_cases hcap : ns.length < mn ∨ md ≤ dp
    · rw [if_pos hcap]
      exact ⟨rfl, rfl, rfl, rfl⟩
    rw [if_neg hcap]
    rcases hseq : insertSeq (fun c' n' => insert f c' n')
        (subdivide (fun c' n' => insert f c' n') b ns mn md dp).kids n
      with _ | ks'
    · rcases subdivide_fields (fun c' n' => insert f c' n') b ns mn md dp
        with ⟨h1, h2, h3, h4⟩
      show ((subdivide (fun c' n' => insert f c' n') b ns mn md dp).push
        n).bounds = b ∧ _
      simp [h1, h2, h3, h4]
    · show (mkNode b
        (subdivide (fun c' n' => insert f c' n') b ns mn md dp).ownNodes
        ks' mn md dp).bounds = b ∧ _
      simp
  | node b ns a b1 c1 d e g1 g2 h mn md dp =>
    show _ = b ∧ _ = mn ∧ _ = md ∧ _ = dp
    rw [insert_succ_node]
    by_cases hb : ¬ inBounds b n = true
    · rw [if_pos hb]
      exact ⟨rfl, rfl, rfl, rfl⟩
    rw [if_neg hb]
    by_cases hcap : ns.length < mn ∨ md ≤ dp
    · rw [if_pos hcap]
      exact ⟨rfl, rfl, rfl, rfl⟩
    rw [if_neg hcap]
    rcases hseq : insertSeq (fun c' n' => insert f c' n')
        [a, b1, c1, d, e, g1, g2, h] n with _ | ks'
    · show (mkNode b (ns ++ [n]) [a, b1, c1, d, e, g1, g2, h]
        mn md dp).bounds = b ∧ _
      simp
    · show (mkNode b ns ks' mn md dp).bounds = b ∧ _
      simp

theorem WF_push {c : OctreeCell α} {n : OctreeNode α} (h : WF c)
    (hb : inBounds c.bounds n = true) : WF (c.push n) := by
  cases h with
  | leaf hns =>
    exact WF.leaf fun m hm => by
      rcases List.mem_append.mp hm with hm | hm
      · exact hns m hm
      · simp at hm
        subst hm
        exact hb
  | node hns hfit hwf =>
    refine WF.node (fun m hm => ?_) hfit hwf
    rcases List.mem_append.mp hm with hm | hm
    · exact hns m hm
    · simp at hm
      subst hm
      exact hb

theorem WF_mkNode {b : BoundingBox} {ns0 : List (OctreeNode α)}
    {ks : List (OctreeCell α)} {mn md dp : ℕ}
    (hns : ∀ m ∈ ns0, inBounds b m = true)
    (hks : ∀ k ∈ ks, KidOK b k) (hlen : ks.length = 8) :
    WF (mkNode b ns0 ks mn md dp) := by
  obtain ⟨a, b1, c, d, e, f, g, h, hkeq, hmkeq⟩ :=
    mkNode_of_len8 b ns0 mn md dp hlen
  rw [hmkeq]
  exact WF.node hns (fun k hk => (hks k (hkeq ▸ hk)).1)
    (fun k hk => (hks k (hkeq ▸ hk)).2)

theorem insertSeq_kidok (ins : OctreeCell α → OctreeNode α → Bool × OctreeCell α)
    {n : OctreeNode α} {b : BoundingBox}
    (hins_perm : ∀ k, (ins k n).1 = true → elems (ins k n).2 ~ n :: elems k)
    (hins_wf : ∀ k, WF k → (ins k n).1 = true → WF (ins k n).2)
    (hn : inBounds b n = true) :
    ∀ {ks ks' : List (OctreeCell α)}, (∀ k ∈ ks, KidOK b k) →
      insertSeq ins ks n = some ks' → ∀ k' ∈ ks', KidOK b k' := by
  intro ks
  induction ks with
  | nil => intro ks' _ hseq; simp [insertSeq] at hseq
  | cons k ks ih =>
    intro ks' hks hseq
    unfold insertSeq at hseq
    rcases hk : ins k n with ⟨bo, k2⟩
    rw [hk] at hseq
    cases bo with
    | true =>
      simp at hseq
      subst hseq
      intro k' hk'
      rcases List.mem_cons.mp hk' with rfl | hk'
      · constructor
        · intro m hm
          have hp := hins_perm k (by rw [hk])
          rw [hk] at hp
          rcases List.mem_cons.mp (hp.mem_iff.mp hm) with rfl | hm
          · exact hn
          · exact (hks k (by simp)).1 m hm
        · have hw := hins_wf k (hks k (by simp)).2 (by rw [hk])
          rw [hk] at hw
          exact hw
      · exact hks k' (List.mem_cons_of_mem _ hk')
    | false =>
      rcases hrec : insertSeq ins ks n with _ | ks2 <;> rw [hrec] at hseq
      · simp at hseq
      · simp at hseq
        subst hseq
        intro k' hk'
        rcases List.mem_cons.mp hk' with rfl | hk'
        · exact hks k' (by simp)
        · exact ih (fun k0 hk0 => hks k0 (List.mem_cons_of_mem _ hk0)) hrec k' hk'

theorem redistrib_kidok (ins : OctreeCell α → OctreeNode α → Bool × OctreeCell α)
    {b : BoundingBox}
    (hins_perm : ∀ k m, (ins k m).1 = true → elems (ins k m).2 ~ m :: elems k)
    (hins_wf : ∀ k m, WF k → (ins k m).1 = true → WF (ins k m).2) :
    ∀ (ns : List (OctreeNode α)), (∀ m ∈ ns, inBounds b m = true) →
    ∀ (ks : List (OctreeCell α)), (∀ k ∈ ks, KidOK b k) →
    ∀ k' ∈ (redistrib ins ks ns).1, KidOK b k' := by
  intro ns
  induction ns with
  | nil => intro _ ks hks k' hk'; exact hks k' hk'
  | cons n rest ih =>
    intro hns ks hks k' hk'
    rw [redistrib] at hk'
    rcases hseq : insertSeq ins ks n with _ | ks2 <;> rw [hseq] at hk'
    · exact ih (fun m hm => hns m (List.mem_cons_of_mem _ hm)) ks hks k' (by simpa using hk')
    · refine ih (fun m hm => hns m (List.mem_cons_of_mem _ hm)) ks2 ?_ k' (by simpa using hk')
      exact insertSeq_kidok ins (fun k => hins_perm k n)
        (fun k hw => hins_wf k n hw) (hns n (by simp)) hks hseq

theorem redistrib_kept_sub (ins : OctreeCell α → OctreeNode α → Bool × OctreeCell α)
    (hins_perm : ∀ k m, (ins k m).1 = true → elems (ins k m).2 ~ m :: elems k)
    (ns : List (OctreeNode α)) (ks : List (OctreeCell α)) :
    ∀ m ∈ (redistrib ins ks ns).2, m ∈ ks.flatMap elems ++ ns := by
  intro m hm
  exact (redistrib_elems ins hins_perm ns ks).mem_iff.mp
    (List.mem_append.mpr (Or.inr hm))

theorem insert_WF : ∀ (fuel : ℕ) (c : OctreeCell α) (n : OctreeNode α),
    WF c → WF (insert fuel c n).2 := by
  intro fuel
  induction fuel with
  | zero => intro c n h; exact h
  | succ f ih =>
    intro c n h
    have hins_perm : ∀ (k : OctreeCell α) (m : OctreeNode α),
        (insert f k m).1 = true → elems (insert f k m).2 ~ m :: elems k :=
      fun k m hk => insert_perm hk
    have hins_wf : ∀ (k : OctreeCell α) (m : OctreeNode α),
        WF k → (insert f k m).1 = true → WF (insert f k m).2 :=
      fun k m hw _ => ih k m hw
    cases c with
    | leaf b ns mn md dp =>
      have hns : ∀ m ∈ ns, inBounds b m = true := by
        cases h with | leaf hns => exact hns
      rw [insert_succ_leaf]
      by_cases hb : inBounds b n = true
      · rw [if_neg (by simp [hb])]
        by_cases hcap : ns.length < mn ∨ md ≤ dp
        · rw [if_pos hcap]
          exact WF_push h hb
        · rw [if_neg hcap]
          have hlen8 : (redistrib (fun c' n' => insert f c' n')
              (freshKids b mn md dp) ns).1.length = 8 :=
            (redistrib_length _ ns _).trans (freshKids_length b mn md dp)
          have hfreshok : ∀ k ∈ freshKids (α := α) b mn md dp, KidOK b k := by
            intro k hk
            simp only [freshKids, List.mem_cons] at hk
            rcases hk with rfl | rfl | rfl | rfl | rfl | rfl | rfl | rfl | hk
            all_goals try exact ⟨fun m hm => by simp at hm,
              WF.leaf (fun m hm => by simp at hm)⟩
            simp at hk
          have hown : ∀ m ∈ (redistrib (fun c' n' => insert f c' n')
              (freshKids b mn md dp) ns).2, inBounds b m = true := by
            intro m hm
            have := redistrib_kept_sub _ hins_perm ns (freshKids b mn md dp) m hm
            simp only [freshKids_flatMap_elems, List.nil_append] at this
            exact hns m this
          have hkidok0 : ∀ k ∈ (redistrib (fun c' n' => insert f c' n')
              (freshKids b mn md dp) ns).1, KidOK b k :=
            redistrib_kidok _ hins_perm hins_wf ns hns _ hfreshok
          have hkidok : ∀ k ∈ (subdivide (fun c' n' => insert f c' n')
              b ns mn md dp).kids, KidOK b k := by
            unfold subdivide
            rw [kids_mkNode _ _ _ _ _ hlen8]
            exact hkidok0
          have hownsd : ∀ m ∈ (subdivide (fun c' n' => insert f c' n')
              b ns mn md dp).ownNodes, inBounds b m = true := by
            unfold subdivide
            rw [mkNode_ownNodes]
            exact hown
          have hwfsd : WF (subdivide (fun c' n' => insert f c' n') b ns mn md dp) := by
            unfold subdivide
            exact WF_mkNode hown hkidok0 hlen8
          rcases hseq : insertSeq (fun c' n' => insert f c' n')
              (subdivide (fun c' n' => insert f c' n') b ns mn md dp).kids n
            with _ | ks'
          · show WF ((subdivide (fun c' n' => insert f c' n') b ns mn md dp).push n)
            refine WF_push hwfsd ?_
            rw [subdivide, mkNode_bounds]
            exact hb
          · show WF (mkNode b (subdivide (fun c' n' => insert f c' n')
              b ns mn md dp).ownNodes ks' mn md dp)
            refine WF_mkNode hownsd ?_
              ((insertSeq_length _ hseq).trans
                (subdivide_kids_length _ b ns mn md dp))
            exact insertSeq_kidok _ (fun k => hins_perm k n)
              (fun k hw => hins_wf k n hw) hb hkidok hseq
      · rw [if_pos (by simp [hb])]
        exact h
    | node b ns a b1 c1 d e g1 g2 hcell mn md dp =>
      have hns : ∀ m ∈ ns, inBounds b m = true := by
        cases h with | node hns hfit hwf => exact hns
      have hkid : ∀ k ∈ [a, b1, c1, d, e, g1, g2, hcell], KidOK b k := by
        cases h with | node hns hfit hwf => exact fun k hk => ⟨hfit k hk, hwf k hk⟩
      rw [insert_succ_node]
      by_cases hb : inBounds b n = true
      · rw [if_neg (by simp [hb])]
        by_cases hcap : ns.length < mn ∨ md ≤ dp
        · rw [if_pos hcap]
          exact WF_push h hb
        · rw [if_neg hcap]
          rcases hseq : insertSeq (fun c' n' => insert f c' n')
              [a, b1, c1, d, e, g1, g2, hcell] n with _ | ks'
          · show WF (mkNode b (ns ++ [n]) [a, b1, c1, d, e, g1, g2, hcell]
              mn md dp)
            refine WF_mkNode ?_ hkid rfl
            intro m hm
            rcases List.mem_append.mp hm with hm | hm
            · exact hns m hm
            · simp at hm
              subst hm
              exact hb
          · show WF (mkNode b ns ks' mn md dp)
            refine WF_mkNode hns ?_ (insertSeq_length _ hseq)
            exact insertSeq_kidok _ (fun k => hins_perm k n)
              (fun k hw => hins_wf k n hw) hb hkid hseq
      · rw [if_pos (by simp [hb])]
        exact h

/-- A cell whose bounds contain a point of the query box intersects the
query box: the pruning of `queryRange` never discards a stored entry that
the query should report. -/
theorem intersects_of_common {b r : BoundingBox} {m : OctreeNode α}
    (hb : inBounds b m = true) (hr : nodeInRange m r = true) :
    intersects b r = true := by
  simp only [inBounds, Bool.and_eq_true, decide_eq_true_eq] at hb
  simp only [nodeInRange, Bool.and_eq_true, decide_eq_true_eq] at hr
  simp only [intersects, Bool.or_eq_true, decide_eq_true_eq, Bool.not_eq_true',
    Bool.or_eq_false_iff, decide_eq_false_iff_not, not_lt, gt_iff_lt]
  refine ⟨⟨⟨⟨⟨?_, ?_⟩, ?_⟩, ?_⟩, ?_⟩, ?_⟩ <;> linarith [hb.1.1.1.1.1, hb.1.1.1.1.2,
    hb.1.1.1.2, hb.1.1.2, hb.1.2, hb.2, hr.1.1.1.1.1, hr.1.1.1.1.2,
    hr.1.1.1.2, hr.1.1.2, hr.1.2, hr.2]

/-- On a well-formed cell, `queryRange` returns exactly the stored entries
whose center lies in the query box, in storage order. -/
theorem queryRange_eq_filter {c : OctreeCell α} (h : WF c) (r : BoundingBox) :
    queryRange c r = (elems c).filter (fun n => nodeInRange n r) := by
  induction c with
  | leaf b ns mn md dp =>
    have hns : ∀ m ∈ ns, inBounds b m = true := by
      cases h with | leaf hns => exact hns
    rw [queryRange]
    by_cases hint : intersects b r = true
    · rw [if_pos hint]
      rfl
    · rw [if_neg hint, elems_leaf, Eq.comm, List.filter_eq_nil_iff]
      intro m hm hr
      exact hint (intersects_of_common (hns m hm) hr)
  | node b ns a b1 c1 d e g1 g2 hcell mn md dp iha ihb ihc ihd ihe ihg1 ihg2 ihh =>
    have hns : ∀ m ∈ ns, inBounds b m = true := by
      cases h with | node hns hfit hwf => exact hns
    have hfit : ∀ k ∈ [a, b1, c1, d, e, g1, g2, hcell],
        ∀ m ∈ elems k, inBounds b m = true := by
      cases h with | node hns hfit hwf => exact hfit
    have hwf : ∀ k ∈ [a, b1, c1, d, e, g1, g2, hcell], WF k := by
      cases h with | node hns hfit hwf => exact hwf
    rw [queryRange]
    by_cases hint : intersects b r = true
    · rw [if_pos hint, elems_node]
      rw [iha (hwf a (by simp)), ihb (hwf b1 (by simp)), ihc (hwf c1 (by simp)),
        ihd (hwf d (by simp)), ihe (hwf e (by simp)), ihg1 (hwf g1 (by simp)),
        ihg2 (hwf g2 (by simp)), ihh (hwf hcell (by simp))]
      simp [List.filter_append]
    · rw [if_neg hint, Eq.comm, List.filter_eq_nil_iff]
      intro m hm hr
      rw [elems_node, List.mem_append] at hm
      rcases hm with hm | hm
      · exact hint (intersects_of_common (hns m hm) hr)
      · simp only [List.mem_flatMap] at hm
        obtain ⟨k, hk, hmk⟩ := hm
        exact hint (intersects_of_common (hfit k hk m hmk) hr)

end OctreeCell

namespace Octree

variable {α : Type}

theorem insert_ret (t : Octree α) (e : OctreeNode α) :
    (t.insert e).1 = inBounds t.root.bounds e :=
  OctreeCell.insert_ret_iff t.root.maxDepth t.root e

theorem insert_root_fields (t : Octree α) (e : OctreeNode α) :
    (t.insert e).2.root.bounds = t.root.bounds ∧
    (t.insert e).2.root.maxNodes = t.root.maxNodes ∧
    (t.insert e).2.root.maxDepth = t.root.maxDepth ∧
    (t.insert e).2.root.depth = t.root.depth ∧
    (t.insert e).2.bounds = t.bounds :=
  ⟨(OctreeCell.insert_fields _ t.root e).1,
   (OctreeCell.insert_fields _ t.root e).2.1,
   (OctreeCell.insert_fields _ t.root e).2.2.1,
   (OctreeCell.insert_fields _ t.root e).2.2.2, rfl⟩

theorem insert_WFroot {t : Octree α} (h : WF t.root) (e : OctreeNode α) :
    WF (t.insert e).2.root :=
  OctreeCell.insert_WF _ t.root e h

theorem insert_elems (t : Octree α) (e : OctreeNode α) :
    OctreeCell.elems (t.insert e).2.root ~
      (if inBounds t.root.bounds e then e :: OctreeCell.elems t.root
       else OctreeCell.elems t.root) := by
  by_cases hb : inBounds t.root.bounds e = true
  · rw [if_pos hb]
    exact OctreeCell.insert_perm (by rw [← insert_ret t e] at hb; exact hb)
  · rw [if_neg hb]
    have hf : (OctreeCell.insert (t.root.maxDepth + 1) t.root e).1 = false := by
      have := insert_ret t e
      simp only [Bool.not_eq_true] at hb
      rw [hb] at this
      exact this
    rw [show (t.insert e).2.root = (OctreeCell.insert (t.root.maxDepth + 1)
      t.root e).2 from rfl, OctreeCell.insert_of_false hf]

theorem insertAll_root_fields (es : List (OctreeNode α)) :
    ∀ (t : Octree α),
    (insertAll t es).root.bounds = t.root.bounds ∧
    (insertAll t es).root.maxNodes = t.root.maxNodes ∧
    (insertAll t es).root.maxDepth = t.root.maxDepth ∧
    (insertAll t es).root.depth = t.root.depth ∧
    (insertAll t es).bounds = t.bounds := by
  induction es with
  | nil => intro t; exact ⟨rfl, rfl, rfl, rfl, rfl⟩
  | cons e rest ih =>
    intro t
    have h1 := insert_root_fields t e
    have h2 := ih (t.insert e).2
    exact ⟨h2.1.trans h1.1, h2.2.1.trans h1.2.1, h2.2.2.1.trans h1.2.2.1,
      h2.2.2.2.1.trans h1.2.2.2.1, h2.2.2.2.2.trans h1.2.2.2.2⟩

theorem insertAll_WFroot (es : List (OctreeNode α)) :
    ∀ {t : Octree α}, WF t.root → WF (insertAll t es).root := by
  induction es with
  | nil => intro t h; exact h
  | cons e rest ih => intro t h; exact ih (insert_WFroot h e)

theorem insertAll_elems (es : List (OctreeNode α)) :
    ∀ (t : Octree α), WF t.root →
    OctreeCell.elems (insertAll t es).root ~
      (es.filter fun e => inBounds t.root.bounds e) ++
        OctreeCell.elems t.root := by
  induction es with
  | nil => intro t _; simp [insertAll]
  | cons e rest ih =>
    intro t h
    have hstep : insertAll t (e :: rest) = insertAll (t.insert e).2 rest := rfl
    rw [hstep]
    have hb := (insert_root_fields t e).1
    have h2 := ih (t.insert e).2 (insert_WFroot h e)
    rw [hb] at h2
    by_cases hbo : inBounds t.root.bounds e = true
    · have he : OctreeCell.elems (t.insert e).2.root ~
          e :: OctreeCell.elems t.root := by
        have := insert_elems t e
        rw [if_pos hbo] at this
        exact this
      calc OctreeCell.elems (insertAll (t.insert e).2 rest).root
          ~ (rest.filter fun e' => inBounds t.root.bounds e') ++
              OctreeCell.elems (t.insert e).2.root := h2
        _ ~ (rest.filter fun e' => inBounds t.root.bounds e') ++
              (e :: OctreeCell.elems t.root) := he.append_left _
        _ ~ e :: ((rest.filter fun e' => inBounds t.root.bounds e') ++
              OctreeCell.elems t.root) := List.perm_middle
        _ = ((e :: rest).filter fun e' => inBounds t.root.bounds e') ++
              OctreeCell.elems t.root := by
            rw [List.filter_cons_of_pos hbo, List.cons_append]
    · have he : OctreeCell.elems (t.insert e).2.root ~
          OctreeCell.elems t.root := by
        have := insert_elems t e
        rw [if_neg hbo] at this
        exact this
      calc OctreeCell.elems (insertAll (t.insert e).2 rest).root
          ~ (rest.filter fun e' => inBounds t.root.bounds e') ++
              OctreeCell.elems (t.insert e).2.root := h2
        _ ~ (rest.filter fun e' => inBounds t.root.bounds e') ++
              OctreeCell.elems t.root := he.append_left _
        _ = ((e :: rest).filter fun e' => inBounds t.root.bounds e') ++
              OctreeCell.elems t.root := by
            rw [List.filter_cons_of_neg (by simpa using hbo)]

@[simp]
theorem create_root (b : BoundingBox) (mn md : ℕ) :
    (create (α := α) b mn md).root = OctreeCell.leaf b [] mn md 0 := rfl

theorem build_root_bounds (b : BoundingBox) (mn md : ℕ)
    (es : List (OctreeNode α)) : (build b mn md es).root.bounds = b :=
  (insertAll_root_fields es (create b mn md)).1

theorem build_WFroot (b : BoundingBox) (mn md : ℕ)
    (es : List (OctreeNode α)) : WF (build b mn md es).root :=
  insertAll_WFroot es (WF.leaf (by intro m hm; simp at hm))

theorem build_elems (b : BoundingBox) (mn md : ℕ) (es : List (OctreeNode α)) :
    OctreeCell.elems (build b mn md es).root ~
      es.filter fun e => inBounds b e := by
  have := insertAll_elems es (create b mn md)
    (WF.leaf (by intro m hm; simp at hm))
  simpa using this

/-- `queryRange` on a freshly built octree agrees (as a multiset) with the
brute-force scan over the successfully inserted entries. -/
theorem build_queryRange (b : BoundingBox) (mn md : ℕ)
    (es : List (OctreeNode α)) (box : BoundingBox) :
    (build b mn md es).queryRange box ~
      es.filter fun e => inBounds b e && nodeInRange e box := by
  have hq : (build b mn md es).queryRange box =
      (OctreeCell.elems (build b mn md es).root).filter
        (fun n => nodeInRange n box) :=
    OctreeCell.queryRange_eq_filter (build_WFroot b mn md es) box
  rw [hq]
  calc (OctreeCell.elems (build b mn md es).root).filter
        (fun n => nodeInRange n box)
      ~ (es.filter fun e => inBounds b e).filter
          (fun n => nodeInRange n box) :=
        (build_elems b mn md es).filter _
    _ = es.filter fun e => inBounds b e && nodeInRange e box := by
        rw [List.filter_filter]
        exact List.filter_congr fun e _ => Bool.and_comm _ _

/-- The two-phase box-then-sphere filter of `findNearby` coincides pointwise
with the plain sphere test `true distance ≤ radius` (for a negative radius
both are empty: the circumscribing box is inverted). -/
theorem sphere_box_eq (e : OctreeNode α) (x y z radius : ℚ) :
    (decide ((e.x - x) ^ 2 + (e.y - y) ^ 2 + (e.z - z) ^ 2 ≤ radius ^ 2) &&
      nodeInRange e ⟨x - radius, y - radius, z - radius,
        x + radius, y + radius, z + radius⟩) =
      inSphere e x y z radius := by
  rw [Bool.eq_iff_iff]
  simp only [Bool.and_eq_true, decide_eq_true_eq, nodeInRange, inSphere,
    sqrtLe, entryDist2]
  constructor
  · rintro ⟨hd, hbox⟩
    obtain ⟨⟨⟨⟨⟨h1, h2⟩, h3⟩, h4⟩, h5⟩, h6⟩ := hbox
    exact ⟨by linarith, hd⟩
  · rintro ⟨hr, hd⟩
    have hx2 : (e.x - x) ^ 2 ≤ radius ^ 2 := by
      nlinarith [sq_nonneg (e.y - y), sq_nonneg (e.z - z)]
    have hy2 : (e.y - y) ^ 2 ≤ radius ^ 2 := by
      nlinarith [sq_nonneg (e.x - x), sq_nonneg (e.z - z)]
    have hz2 : (e.z - z) ^ 2 ≤ radius ^ 2 := by
      nlinarith [sq_nonneg (e.x - x), sq_nonneg (e.y - y)]
    refine ⟨hd, ⟨⟨⟨⟨⟨?_, ?_⟩, ?_⟩, ?_⟩, ?_⟩, ?_⟩⟩ <;>
      nlinarith [sq_nonneg (e.x - x + radius), sq_nonneg (e.x - x - radius),
        sq_nonneg (e.y - y + radius), sq_nonneg (e.y - y - radius),
        sq_nonneg (e.z - z + radius), sq_nonneg (e.z - z - radius)]

/-- `findNearby` on a freshly built octree agrees (as a multiset) with the
brute-force sphere scan over the successfully inserted entries. -/
theorem build_findNearby (b : BoundingBox) (mn md : ℕ)
    (es : List (OctreeNode α)) (x y z radius : ℚ) :
    (build b mn md es).findNearby x y z radius ~
      es.filter fun e => inBounds b e && inSphere e x y z radius := by
  show ((build b mn md es).root.queryRange ⟨x - radius, y - radius, z - radius,
      x + radius, y + radius, z + radius⟩).filter
      (fun n => decide ((n.x - x) ^ 2 + (n.y - y) ^ 2 + (n.z - z) ^ 2 ≤
        radius ^ 2)) ~ _
  rw [OctreeCell.queryRange_eq_filter (build_WFroot b mn md es),
    List.filter_filter]
  calc (OctreeCell.elems (build b mn md es).root).filter
        (fun n => decide ((n.x - x) ^ 2 + (n.y - y) ^ 2 + (n.z - z) ^ 2 ≤
          radius ^ 2) && nodeInRange n ⟨x - radius, y - radius, z - radius,
          x + radius, y + radius, z + radius⟩)
      = (OctreeCell.elems (build b mn md es).root).filter
          (fun n => inSphere n x y z radius) :=
        List.filter_congr fun n _ => sphere_box_eq n x y z radius
    _ ~ (es.filter fun e => inBounds b e).filter
          (fun n => inSphere n x y z radius) :=
        (build_elems b mn md es).filter _
    _ = es.filter fun e => inBounds b e && inSphere e x y z radius := by
        rw [List.filter_filter]
        exact List.filter_congr fun e _ => Bool.and_comm _ _

end Octree

/-! ## Claim theorems: octree (C3, C4, C5, C10) -/

/-- C3: For every sequence of entries successfully inserted into an Octree,
`queryRange(box)` returns exactly the inserted entries whose center lies
within the axis-aligned box (each entry exactly once, stated as a list
permutation), and `findNearby(x, y, z, radius)` returns exactly the inserted
entries whose true Euclidean distance to `(x, y, z)` is at most `radius` —
the same result sets a brute-force scan over all inserted entries would
produce, for every query.  (The inserted entries are those whose center lies
in the world bounds, cf. C4.) -/
theorem octree_queries_match_bruteforce {α : Type} (b : BoundingBox)
    (mn md : ℕ) (entries : List (OctreeNode α)) (box : BoundingBox)
    (x y z radius : ℚ) :
    ((Octree.build b mn md entries).queryRange box ~
      entries.filter fun e => inBounds b e && nodeInRange e box) ∧
    ((Octree.build b mn md entries).findNearby x y z radius ~
      entries.filter fun e => inBounds b e && inSphere e x y z radius) :=
  ⟨Octree.build_queryRange b mn md entries box,
   Octree.build_findNearby b mn md entries x y z radius⟩

/-- C4: `Octree.insert` returns `false` exactly when the entry's center lies
outside the tree's fixed world bounds; when the center is inside, it returns
`true` and the stored entries afterwards are exactly the old ones plus the
new entry (one copy added — the entry is stored once and never dropped). -/
theorem octree_insert_false_iff_outside {α : Type} (b : BoundingBox)
    (mn md : ℕ) (entries : List (OctreeNode α)) (e : OctreeNode α) :
    (((Octree.build b mn md entries).insert e).1 = inBounds b e) ∧
    (OctreeCell.elems ((Octree.build b mn md entries).insert e).2.root ~
      (if inBounds b e then
        e :: OctreeCell.elems (Octree.build b mn md entries).root
      else OctreeCell.elems (Octree.build b mn md entries).root)) := by
  constructor
  · rw [Octree.insert_ret, Octree.build_root_bounds]
  · have h := Octree.insert_elems (Octree.build b mn md entries) e
    rw [Octree.build_root_bounds] at h
    exact h

/-- C5: a leaf cell subdivides on an insertion exactly when the entry is
accepted (it is in bounds) while the cell already holds at least `maxNodes`
entries and its depth is strictly below `maxDepth`; a cell at (or beyond)
maximum depth never subdivides and accepts any contained entry by appending
it to its own list, whatever the list's current length; and the subdivision
redistribution loses no entry — the entries stored in the subtree right
after `subdivide` are a permutation of (in particular, as many as) the
entries held just before. -/
theorem octree_subdivide_iff_and_preserves_count {α : Type} (f : ℕ)
    (b : BoundingBox) (ns : List (OctreeNode α)) (mn md dp : ℕ)
    (n : OctreeNode α) :
    ((OctreeCell.insert (f + 1) (OctreeCell.leaf b ns mn md dp) n).2.hasChildren
      = (inBounds b n && decide (mn ≤ ns.length) && decide (dp < md))) ∧
    (OctreeCell.elems (OctreeCell.subdivide
        (fun c' n' => OctreeCell.insert f c' n') b ns mn md dp) ~ ns) ∧
    (∀ c : OctreeCell α, c.maxDepth ≤ c.depth → inBounds c.bounds n = true →
      OctreeCell.insert (f + 1) c n = (true, c.push n)) := by
  refine ⟨?_, ?_, ?_⟩
  · rw [OctreeCell.insert_succ_leaf]
    by_cases hb : inBounds b n = true
    · rw [if_neg (by simp [hb]), hb]
      by_cases hcap : ns.length < mn ∨ md ≤ dp
      · rw [if_pos hcap]
        show false = _
        rcases hcap with hcap | hcap
        · have : decide (mn ≤ ns.length) = false := by
            simpa using Nat.not_le.mpr hcap
          rw [this]
          simp
        · have : decide (dp < md) = false := by
            simpa using Nat.not_lt.mpr hcap
          rw [this]
          simp
      · rw [if_neg hcap]
        push_neg at hcap
        have h1 : decide (mn ≤ ns.length) = true := by simpa using hcap.1
        have h2 : decide (dp < md) = true := by
          simpa using Nat.lt_of_not_le (by simpa using hcap.2)
        rw [h1, h2]
        rcases hseq : OctreeCell.insertSeq
            (fun c' n' => OctreeCell.insert f c' n')
            (OctreeCell.subdivide (fun c' n' => OctreeCell.insert f c' n')
              b ns mn md dp).kids n with _ | ks'
        · show ((OctreeCell.subdivide (fun c' n' => OctreeCell.insert f c' n')
            b ns mn md dp).push n).hasChildren = true
          rw [OctreeCell.push_hasChildren]
          unfold OctreeCell.subdivide
          exact OctreeCell.hasChildren_mkNode _ _ _ _ _
            ((OctreeCell.redistrib_length _ ns _).trans rfl)
        · show (OctreeCell.mkNode b _ ks' mn md dp).hasChildren = true
          exact OctreeCell.hasChildren_mkNode _ _ _ _ _
            ((OctreeCell.insertSeq_length _ hseq).trans
              (OctreeCell.subdivide_kids_length _ b ns mn md dp))
    · rw [if_pos (by simp [hb])]
      show false = _
      simp only [Bool.not_eq_true] at hb
      rw [hb]
      simp
  · exact OctreeCell.subdivide_elems _
      (fun k m hk => OctreeCell.insert_perm hk) b ns mn md dp
  · intro c hdp hb
    cases c with
    | leaf b0 ns0 mn0 md0 dp0 =>
      have hdp' : md0 ≤ dp0 := hdp
      rw [OctreeCell.insert_succ_leaf,
        if_neg (by simpa using hb), if_pos (Or.inr hdp')]
      rfl
    | node b0 ns0 a b1 c1 d e g1 g2 h mn0 md0 dp0 =>
      have hdp' : md0 ≤ dp0 := hdp
      rw [OctreeCell.insert_succ_node,
        if_neg (by simpa using hb), if_pos (Or.inr hdp')]
      rfl

/-- Witness for C5 at a concrete input: a leaf at capacity 1 holding one
entry subdivides on the next insertion, the subdivision keeps the single
stored entry, and a full cell at maximum depth still accepts a contained
entry by appending it. -/
theorem octree_subdivide_iff_witness :
    ((OctreeCell.insert 9 (OctreeCell.leaf
        ⟨-10, -10, -10, 10, 10, 10⟩ [⟨"a", 1, 0, 0, 1, ()⟩] 1 8 0)
        ⟨"b", 2, 0, 0, 1, ()⟩).2.hasChildren
      = (inBounds ⟨-10, -10, -10, 10, 10, 10⟩
          (⟨"b", 2, 0, 0, 1, ()⟩ : OctreeNode Unit) &&
        decide (1 ≤ ([⟨"a", 1, 0, 0, 1, ()⟩] :
          List (OctreeNode Unit)).length) && decide (0 < 8))) ∧
    (OctreeCell.elems (OctreeCell.subdivide
        (fun c' n' => OctreeCell.insert 8 c' n')
        ⟨-10, -10, -10, 10, 10, 10⟩ [⟨"a", 1, 0, 0, 1, ()⟩] 1 8 0) ~
      [⟨"a", 1, 0, 0, 1, ()⟩]) ∧
    (OctreeCell.insert 9 (OctreeCell.leaf ⟨-10, -10, -10, 10, 10, 10⟩
        [⟨"a", 1, 0, 0, 1, ()⟩, ⟨"c", 3, 0, 0, 1, ()⟩] 1 2 2)
        ⟨"b", 2, 0, 0, 1, ()⟩ =
      (true, (OctreeCell.leaf ⟨-10, -10, -10, 10, 10, 10⟩
        [⟨"a", 1, 0, 0, 1, ()⟩, ⟨"c", 3, 0, 0, 1, ()⟩] 1 2 2).push
          ⟨"b", 2, 0, 0, 1, ()⟩)) := by
  refine ⟨(octree_subdivide_iff_and_preserves_count 8
      ⟨-10, -10, -10, 10, 10, 10⟩ [⟨"a", 1, 0, 0, 1, ()⟩] 1 8 0
      ⟨"b", 2, 0, 0, 1, ()⟩).1,
    (octree_subdivide_iff_and_preserves_count 8
      ⟨-10, -10, -10, 10, 10, 10⟩ [⟨"a", 1, 0, 0, 1, ()⟩] 1 8 0
      ⟨"b", 2, 0, 0, 1, ()⟩).2.1,
    (octree_subdivide_iff_and_preserves_count 8
      ⟨-10, -10, -10, 10, 10, 10⟩ [⟨"a", 1, 0, 0, 1, ()⟩] 1 8 0
      ⟨"b", 2, 0, 0, 1, ()⟩).2.2
      (OctreeCell.leaf ⟨-10, -10, -10, 10, 10, 10⟩
        [⟨"a", 1, 0, 0, 1, ()⟩, ⟨"c", 3, 0, 0, 1, ()⟩] 1 2 2)
      (by decide) (by decide)⟩

/-- C10: `Octree.clear` resets the tree to a single empty leaf at the
original world bounds, but with the constructor defaults `maxNodes = 8`,
`maxDepth = 8` instead of the values the octree was constructed with.
Consequently (second part) an insertion right after `clear()` never
subdivides — the root holds 0 entries against the default capacity 8 —
whereas (third part) the same insertion into a leaf configured with
`maxNodes = 1` already holding one entry does subdivide: after `clear()`
insertions follow the default thresholds, not the configured ones. -/
theorem octree_clear_forgets_custom_config :
    (∀ (α : Type) (t : Octree α),
      Octree.clear t = ⟨OctreeCell.leaf t.bounds [] 8 8 0, t.bounds⟩) ∧
    (∀ (α : Type) (t : Octree α) (e : OctreeNode α),
      ((Octree.clear t).insert e).2.root.hasChildren = false) ∧
    (∀ (α : Type) (b : BoundingBox) (ns : List (OctreeNode α))
      (n : OctreeNode α) (f : ℕ), inBounds b n = true → 1 ≤ ns.length →
      (OctreeCell.insert (f + 1) (OctreeCell.leaf b ns 1 8 0) n).2.hasChildren
        = true) := by
  refine ⟨fun α t => rfl, ?_, ?_⟩
  · intro α t e
    show (OctreeCell.insert (8 + 1) (OctreeCell.leaf t.bounds [] 8 8 0)
      e).2.hasChildren = false
    rw [OctreeCell.insert_succ_leaf]
    by_cases hb : inBounds t.bounds e = true
    · rw [if_neg (by simp [hb]), if_pos (Or.inl (by simp))]
      rfl
    · rw [if_pos (by simp [hb])]
      rfl
  · intro α b ns n f hb hlen
    rw [OctreeCell.insert_succ_leaf, if_neg (by simp [hb]),
      if_neg (by simp [Nat.not_lt.mpr hlen])]
    rcases hseq : OctreeCell.insertSeq
        (fun c' n' => OctreeCell.insert f c' n')
        (OctreeCell.subdivide (fun c' n' => OctreeCell.insert f c' n')
          b ns 1 8 0).kids n with _ | ks'
    · show ((OctreeCell.subdivide (fun c' n' => OctreeCell.insert f c' n')
        b ns 1 8 0).push n).hasChildren = true
      rw [OctreeCell.push_hasChildren]
      unfold OctreeCell.subdivide
      exact OctreeCell.hasChildren_mkNode _ _ _ _ _
        ((OctreeCell.redistrib_length _ ns _).trans rfl)
    · show (OctreeCell.mkNode b _ ks' 1 8 0).hasChildren = true
      exact OctreeCell.hasChildren_mkNode _ _ _ _ _
        ((OctreeCell.insertSeq_length _ hseq).trans
          (OctreeCell.subdivide_kids_length _ b ns 1 8 0))

/-- Witness for C10 at a concrete input: after clearing, inserting an entry
leaves the root an undivided leaf, while the same insertion into a
capacity-1 leaf already holding one entry subdivides it. -/
theorem octree_clear_forgets_custom_config_witness :
    (((Octree.clear (Octree.create ⟨-10, -10, -10, 10, 10, 10⟩ 1 3)).insert
        (⟨"a", 1, 0, 0, 1, ()⟩ : OctreeNode Unit)).2.root.hasChildren
      = false) ∧
    ((OctreeCell.insert 5 (OctreeCell.leaf ⟨-10, -10, -10, 10, 10, 10⟩
        [⟨"a", 1, 0, 0, 1, ()⟩] 1 8 0)
        (⟨"b", 2, 0, 0, 1, ()⟩ : OctreeNode Unit)).2.hasChildren = true) :=
  ⟨octree_clear_forgets_custom_config.2.1 Unit
      (Octree.create ⟨-10, -10, -10, 10, 10, 10⟩ 1 3) ⟨"a", 1, 0, 0, 1, ()⟩,
   octree_clear_forgets_custom_config.2.2 Unit ⟨-10, -10, -10, 10, 10, 10⟩
      [⟨"a", 1, 0, 0, 1, ()⟩] ⟨"b", 2, 0, 0, 1, ()⟩ 4 (by decide) (by decide)⟩

/-! ## Force simulation lemmas (C2, C9) -/

theorem foldl_fixed {β γ : Type} {f : β → γ → β} {b : β} {l : List γ}
    (h : ∀ acc x, x ∈ l → f acc x = acc) : l.foldl f b = b := by
  induction l generalizing b with
  | nil => rfl
  | cons x xs ih =>
    rw [List.foldl_cons, h b x (by simp)]
    exact ih fun acc y hy => h acc y (List.mem_cons_of_mem _ hy)

theorem foldl_add_const {γ : Type} {g : γ → ℚ} {c : ℚ} :
    ∀ (l : List γ) (a : ℚ), (∀ n ∈ l, g n = c) →
    l.foldl (fun acc n => acc + g n) a = a + l.length * c := by
  intro l
  induction l with
  | nil => intro a _; simp
  | cons x xs ih =>
    intro a h
    rw [List.foldl_cons, h x (by simp), ih (a + c)
      (fun n hn => h n (List.mem_cons_of_mem _ hn))]
    simp only [List.length_cons]
    push_cast
    ring

theorem centroid_coincident {ns : List NM3Node} {px py pz : ℚ}
    (hne : ns ≠ []) (hp : ∀ n ∈ ns, n.x = px ∧ n.y = py ∧ n.z = pz) :
    centroid ns = ⟨px, py, pz⟩ := by
  have hlen : (ns.length : ℚ) ≠ 0 := by
    simp [List.length_eq_zero, hne]
  unfold centroid
  have hx := foldl_add_const (g := fun n : NM3Node => n.x) ns 0
    (fun n hn => (hp n hn).1)
  have hy := foldl_add_const (g := fun n : NM3Node => n.y) ns 0
    (fun n hn => (hp n hn).2.1)
  have hz := foldl_add_const (g := fun n : NM3Node => n.z) ns 0
    (fun n hn => (hp n hn).2.2)
  simp only at hx hy hz
  rw [hx, hy, hz]
  show Vector3D.mk _ _ _ = _
  have : ∀ a : ℚ, (0 + (ns.length : ℚ) * a) / (ns.length : ℚ) = a := by
    intro a
    field_simp
  rw [this px, this py, this pz]

theorem forceOn_coincident {cfg : ForceConfig} {sqrtQ : ℚ → ℚ}
    {ns : List NM3Node} {px py pz : ℚ} (hne : ns ≠ [])
    (hp : ∀ n ∈ ns, n.x = px ∧ n.y = py ∧ n.z = pz)
    (i : ℕ) (n1 : NM3Node) (h1 : n1 ∈ ns) :
    forceOn cfg sqrtQ ns [] (centroid ns) i n1 = ⟨0, 0, 0⟩ := by
  unfold forceOn
  have hrep : ns.enum.foldl
      (fun (acc : Vector3D) jn =>
        if jn.1 = i then acc
        else
          let n2 := jn.2
          let dx := n1.x - n2.x
          let dy := n1.y - n2.y
          let dz := n1.z - n2.z
          let d2 := dx ^ 2 + dy ^ 2 + dz ^ 2
          if decide (0 < d2) && sqrtLt d2 cfg.maxDistance then
            let dist := sqrtQ d2
            let repulsion := cfg.repulsionStrength / (d2 + 1 / 10)
            ⟨acc.x + dx / dist * repulsion, acc.y + dy / dist * repulsion,
             acc.z + dz / dist * repulsion⟩
          else acc)
      ⟨0, 0, 0⟩ = ⟨0, 0, 0⟩ := by
    refine foldl_fixed ?_
    intro acc jn hjn
    by_cases hji : jn.1 = i
    · simp [hji]
    · have hmem : jn.2 ∈ ns := by
        obtain ⟨hlt, heq⟩ := List.mem_enum (x := jn.2) (i := jn.1) (by
          simpa using hjn)
        rw [heq]
        exact List.getElem_mem hlt
      have hd2 : (n1.x - jn.2.x) ^ 2 + (n1.y - jn.2.y) ^ 2 +
          (n1.z - jn.2.z) ^ 2 = 0 := by
        rw [(hp n1 h1).1, (hp n1 h1).2.1, (hp n1 h1).2.2,
          (hp jn.2 hmem).1, (hp jn.2 hmem).2.1, (hp jn.2 hmem).2.2]
        ring
      simp [hji, hd2]
  rw [hrep]
  have hnbr : neighborsOf (buildAdjacencyMap []) n1.id = [] := rfl
  show Vector3D.mk _ _ _ = _
  rw [show neighborsOf [] n1.id = [] from rfl]
  rw [centroid_coincident hne hp]
  simp only [List.foldl_nil]
  rw [(hp n1 h1).1, (hp n1 h1).2.1, (hp n1 h1).2.2]
  simp

theorem applyForceStep_zero {cfg : ForceConfig} (acc : List NM3Node)
    (n : NM3Node) :
    applyForceStep cfg (fun _ => ⟨0, 0, 0⟩) (acc, fun _ => ⟨0, 0, 0⟩, 0) n =
      (acc ++ [n], fun _ => ⟨0, 0, 0⟩, 0) := by
  unfold applyForceStep
  simp

theorem applyForces_zero {cfg : ForceConfig} {ns : List NM3Node} :
    applyForces cfg (fun _ => ⟨0, 0, 0⟩) ns (fun _ => ⟨0, 0, 0⟩) =
      (ns, fun _ => ⟨0, 0, 0⟩, 0) := by
  unfold applyForces
  have hfold : ∀ (l : List NM3Node) (acc : List NM3Node),
      l.foldl (applyForceStep cfg (fun _ => ⟨0, 0, 0⟩))
        (acc, fun _ => ⟨0, 0, 0⟩, 0) = (acc ++ l, fun _ => ⟨0, 0, 0⟩, 0) := by
    intro l
    induction l with
    | nil => intro acc; simp
    | cons n rest ih =>
      intro acc
      rw [List.foldl_cons, applyForceStep_zero, ih (acc ++ [n])]
      simp
  have := hfold ns []
  rw [this]
  simp

/-- For nodes that all share one position and an empty link list, the
simulation applies zero force in every iteration: positions are unchanged
(the `dist > 0` guard skips coincident repulsion, there is no adjacency, and
the centroid coincides with every node), the energy is 0 and the loop stops
at the first iteration. -/
theorem simulate_coincident_fixed {cfg : ForceConfig} {sqrtQ : ℚ → ℚ}
    {ns : List NM3Node} {px py pz : ℚ} (hne : ns ≠ [])
    (hp : ∀ n ∈ ns, n.x = px ∧ n.y = py ∧ n.z = pz) (iterations : ℕ) :
    simulate cfg sqrtQ ns [] iterations = ns := by
  cases iterations with
  | zero => rfl
  | succ k =>
    unfold simulate simulateLoop
    have hforces : calculateForces cfg sqrtQ ns (buildAdjacencyMap []) =
        fun _ => ⟨0, 0, 0⟩ := by
      unfold calculateForces
      refine foldl_fixed ?_
      intro acc jn hjn
      have hmem : jn.2 ∈ ns := by
        obtain ⟨hlt, heq⟩ := List.mem_enum (x := jn.2) (i := jn.1) (by
          simpa using hjn)
        rw [heq]
        exact List.getElem_mem hlt
      unfold forceAccum
      rw [show buildAdjacencyMap [] = ([] : AdjMap) from rfl]
      rw [forceOn_coincident hne hp jn.1 jn.2 hmem]
      funext id
      by_cases hid : id = jn.2.id <;> simp [hid]
    rw [hforces]
    simp only [applyForces_zero]
    norm_num

/-! ## Claim theorems: force simulation start from a common point (C2) -/

/-- C2 (amended): for a set of at least 2 nodes all given the same initial
position and an empty link list, every iteration of
`ForceDirected3D.simulate` applies zero net force — the `dist > 0` guard
skips repulsion between coincident nodes — so the node positions are left
unchanged for any iteration budget (the energy is 0 and the loop converges
at its first iteration), and the average pairwise distance stays 0 instead
of strictly increasing. -/
theorem force_sim_coincident_keeps_positions (cfg : ForceConfig)
    (sqrtQ : ℚ → ℚ) (ns : List NM3Node) (px py pz : ℚ) (iterations : ℕ)
    (h2 : 2 ≤ ns.length)
    (hp : ∀ n ∈ ns, n.x = px ∧ n.y = py ∧ n.z = pz) :
    simulate cfg sqrtQ ns [] iterations = ns ∧
    ∀ a ∈ ns, ∀ b ∈ ns, nodeDist2 a b = 0 := by
  have hne : ns ≠ [] := by
    intro h
    rw [h] at h2
    simp at h2
  refine ⟨simulate_coincident_fixed hne hp iterations, ?_⟩
  intro a ha b hb
  unfold nodeDist2
  rw [(hp a ha).1, (hp a ha).2.1, (hp a ha).2.2,
    (hp b hb).1, (hp b hb).2.1, (hp b hb).2.2]
  ring

/-- Witness for the amended C2 at a concrete input: two nodes at the origin,
no links, 7 iterations — the positions come back unchanged. -/
theorem force_sim_coincident_keeps_positions_witness :
    2 ≤ ([⟨"n1", "sphere", 0, 0, 0, none, none, none, "", none, none, none, none, none⟩,
          ⟨"n2", "sphere", 0, 0, 0, none, none, none, "", none, none, none, none, none⟩] :
         List NM3Node).length ∧
    simulate defaultForceConfig (fun _ => 0)
      [⟨"n1", "sphere", 0, 0, 0, none, none, none, "", none, none, none, none, none⟩,
       ⟨"n2", "sphere", 0, 0, 0, none, none, none, "", none, none, none, none, none⟩] [] 7 =
      [⟨"n1", "sphere", 0, 0, 0, none, none, none, "", none, none, none, none, none⟩,
       ⟨"n2", "sphere", 0, 0, 0, none, none, none, "", none, none, none, none, none⟩] :=
  ⟨by decide,
   (force_sim_coincident_keeps_positions defaultForceConfig (fun _ => 0)
      [⟨"n1", "sphere", 0, 0, 0, none, none, none, "", none, none, none, none, none⟩,
       ⟨"n2", "sphere", 0, 0, 0, none, none, none, "", none, none, none, none, none⟩]
      0 0 0 7 (by decide) (by decide)).1⟩

/-- C2 counterexample: for the concrete configuration of two nodes both at
the origin and an empty link list, running `simulate` with the default
config and the full default iteration budget returns the very same
positions, and the (average) pairwise distance is 0 before and after — it
does not strictly increase, contradicting the claim as stated. -/
theorem force_sim_no_strict_increase_counterexample :
    simulate defaultForceConfig (fun _ => 0)
      [⟨"n1", "sphere", 0, 0, 0, none, none, none, "", none, none, none, none, none⟩,
       ⟨"n2", "sphere", 0, 0, 0, none, none, none, "", none, none, none, none, none⟩] [] 100 =
      [⟨"n1", "sphere", 0, 0, 0, none, none, none, "", none, none, none, none, none⟩,
       ⟨"n2", "sphere", 0, 0, 0, none, none, none, "", none, none, none, none, none⟩] ∧
    nodeDist2 ⟨"n1", "sphere", 0, 0, 0, none, none, none, "", none, none, none, none, none⟩
      ⟨"n2", "sphere", 0, 0, 0, none, none, none, "", none, none, none, none, none⟩ = 0 := by
  constructor
  · exact @simulate_coincident_fixed defaultForceConfig (fun _ => 0)
      [⟨"n1", "sphere", 0, 0, 0, none, none, none, "", none, none, none, none, none⟩,
       ⟨"n2", "sphere", 0, 0, 0, none, none, none, "", none, none, none, none, none⟩]
      0 0 0 (by decide) (by decide) 100
  · unfold nodeDist2
    norm_num

/-! ## Adjacency map lemmas (C9) -/

/-- A directed edge recorded in the adjacency map: the key is present and
every entry with that key holds the neighbour. -/
def HasEdge (m : AdjMap) (a b : String) : Prop :=
  ((m.find? fun p => p.1 = a).isSome = true) ∧ ∀ p ∈ m, p.1 = a → b ∈ p.2

theorem ensureKey_of_found {m : AdjMap} {k : String}
    (h : (m.find? fun p => p.1 = k).isSome = true) : ensureKey m k = m := by
  unfold ensureKey
  rw [if_pos h]

theorem find_addNbr (m : AdjMap) (k v a : String) :
    (addNbr m k v).find? (fun p => p.1 = a) =
      ((m.find? fun p => p.1 = a).map fun p =>
        if p.1 = k then (p.1, if v ∈ p.2 then p.2 else p.2 ++ [v]) else p) := by
  unfold addNbr
  have hpred : ((fun p : String × List String => decide (p.1 = a)) ∘
      (fun p : String × List String =>
        if p.1 = k then (p.1, if v ∈ p.2 then p.2 else p.2 ++ [v]) else p)) =
      fun p : String × List String => decide (p.1 = a) := by
    funext p
    by_cases hk : p.1 = k <;> simp [hk]
  rw [List.find?_map, hpred]

theorem found_addNbr {m : AdjMap} {k v a : String} :
    ((addNbr m k v).find? fun p => p.1 = a).isSome =
      ((m.find? fun p => p.1 = a)).isSome := by
  rw [find_addNbr]
  rcases hf : m.find? fun p => p.1 = a with _ | p <;> simp [hf]

theorem found_ensureKey {m : AdjMap} {k a : String}
    (h : (m.find? fun p => p.1 = a).isSome = true) :
    ((ensureKey m k).find? fun p => p.1 = a).isSome = true := by
  unfold ensureKey
  split
  · exact h
  · rw [List.find?_append]
    rcases hf : m.find? fun p => p.1 = a
    · rw [hf] at h
      simp at h
    · rw [hf]
      rfl

theorem found_ensureKey_self (m : AdjMap) (k : String) :
    ((ensureKey m k).find? fun p => p.1 = k).isSome = true := by
  unfold ensureKey
  split
  · assumption
  · rw [List.find?_append]
    rcases hf : m.find? fun p => p.1 = k with _ | p <;> simp [hf]

theorem mem_addNbr_self (m : AdjMap) (k v : String) :
    ∀ p ∈ addNbr m k v, p.1 = k → v ∈ p.2 := by
  intro p hp hk
  unfold addNbr at hp
  obtain ⟨q, hq, rfl⟩ := List.mem_map.mp hp
  by_cases hqk : q.1 = k
  · rw [if_pos hqk] at hk ⊢
    by_cases hv : v ∈ q.2 <;> simp [hv]
  · rw [if_neg hqk] at hk
    exact absurd hk hqk

theorem mem_addNbr_mono {m : AdjMap} {a b : String} (k v : String)
    (h : ∀ p ∈ m, p.1 = a → b ∈ p.2) :
    ∀ p ∈ addNbr m k v, p.1 = a → b ∈ p.2 := by
  intro p hp ha
  unfold addNbr at hp
  obtain ⟨q, hq, rfl⟩ := List.mem_map.mp hp
  by_cases hqk : q.1 = k
  · rw [if_pos hqk] at ha ⊢
    have := h q hq ha
    by_cases hv : v ∈ q.2 <;> simp [hv, this]
  · rw [if_neg hqk] at ha ⊢
    exact h q hq ha

theorem mem_ensureKey_mono {m : AdjMap} {a b : String} (k : String)
    (hfound : (m.find? fun p => p.1 = a).isSome = true)
    (h : ∀ p ∈ m, p.1 = a → b ∈ p.2) :
    ∀ p ∈ ensureKey m k, p.1 = a → b ∈ p.2 := by
  intro p hp ha
  unfold ensureKey at hp
  split at hp
  · exact h p hp ha
  · rcases List.mem_append.mp hp with hp | hp
    · exact h p hp ha
    · simp at hp
      subst hp
      simp only at ha
      subst ha
      rename_i hnone
      exact absurd hfound (by simpa using hnone)

theorem hasEdge_addLink_mono {m : AdjMap} {a b : String} (l : NM3Link)
    (h : HasEdge m a b) : HasEdge (addLink m l) a b := by
  obtain ⟨hf, hm⟩ := h
  unfold addLink
  constructor
  · rw [found_addNbr, found_addNbr]
    exact found_ensureKey (found_ensureKey hf)
  · exact mem_addNbr_mono _ _ (mem_addNbr_mono _ _
      (mem_ensureKey_mono _ (found_ensureKey hf)
        (mem_ensureKey_mono _ hf hm)))

theorem hasEdge_addLink_self (m : AdjMap) (l : NM3Link) :
    HasEdge (addLink m l) l.fromId l.toId ∧
    HasEdge (addLink m l) l.toId l.fromId := by
  unfold addLink
  refine ⟨⟨?_, ?_⟩, ⟨?_, ?_⟩⟩
  · rw [found_addNbr, found_addNbr]
    exact found_ensureKey (found_ensureKey_self m l.fromId)
  · exact mem_addNbr_mono _ _ (mem_addNbr_self _ _ _)
  · rw [found_addNbr, found_addNbr]
    exact found_ensureKey_self _ l.toId
  · exact mem_addNbr_self _ _ _

theorem hasEdge_foldl_mono {m : AdjMap} {a b : String}
    (links : List NM3Link) (h : HasEdge m a b) :
    HasEdge (links.foldl addLink m) a b := by
  induction links generalizing m with
  | nil => exact h
  | cons l2 rest ih =>
    rw [List.foldl_cons]
    exact ih (hasEdge_addLink_mono l2 h)

theorem hasEdge_foldl {links : List NM3Link} {l : NM3Link} (hl : l ∈ links)
    (m0 : AdjMap) :
    HasEdge (links.foldl addLink m0) l.fromId l.toId ∧
    HasEdge (links.foldl addLink m0) l.toId l.fromId := by
  obtain ⟨u, v, rfl⟩ := List.append_of_mem hl
  rw [List.foldl_append, List.foldl_cons]
  have hbase := hasEdge_addLink_self (u.foldl addLink m0) l
  exact ⟨hasEdge_foldl_mono v hbase.1, hasEdge_foldl_mono v hbase.2⟩

theorem addLink_of_hasEdge {m : AdjMap} {l : NM3Link}
    (h1 : HasEdge m l.fromId l.toId) (h2 : HasEdge m l.toId l.fromId) :
    addLink m l = m := by
  show addNbr (addNbr (ensureKey (ensureKey m l.fromId) l.toId)
    l.fromId l.toId) l.toId l.fromId = m
  rw [ensureKey_of_found h1.1, ensureKey_of_found h2.1]
  have haddNbr_id : ∀ (k v : String), (∀ p ∈ m, p.1 = k → v ∈ p.2) →
      addNbr m k v = m := by
    intro k v hmem
    unfold addNbr
    have : ∀ p ∈ m, (if p.1 = k then
        (p.1, if v ∈ p.2 then p.2 else p.2 ++ [v]) else p) = p := by
      intro p hp
      by_cases hk : p.1 = k
      · rw [if_pos hk, if_pos (hmem p hp hk)]
      · rw [if_neg hk]
    rw [List.map_congr_left this]
    simp
  rw [haddNbr_id l.fromId l.toId h1.2, haddNbr_id l.toId l.fromId h2.2]

/-- Appending a link already present in the list leaves the adjacency map
unchanged (the `Set` absorbs the duplicate endpoints). -/
theorem buildAdjacencyMap_dup {links : List NM3Link} {l : NM3Link}
    (hl : l ∈ links) :
    buildAdjacencyMap (links ++ [l]) = buildAdjacencyMap links := by
  unfold buildAdjacencyMap
  rw [List.foldl_append, List.foldl_cons, List.foldl_nil]
  exact addLink_of_hasEdge (hasEdge_foldl hl []).1 (hasEdge_foldl hl []).2

theorem adjFind_addNbr_ne {m : AdjMap} {k v a : String} (h : a ≠ k) :
    adjFind (addNbr m k v) a = adjFind m a := by
  unfold adjFind
  rw [find_addNbr]
  rcases hf : m.find? fun p => p.1 = a with _ | p
  · simp [hf]
  · have hp : p.1 = a := by simpa using List.find?_some hf
    simp [hf, hp, h]

theorem adjFind_addNbr_self (m : AdjMap) (k v : String) :
    adjFind (addNbr m k v) k =
      (adjFind m k).map fun l0 => if v ∈ l0 then l0 else l0 ++ [v] := by
  unfold adjFind
  rw [find_addNbr]
  rcases hf : m.find? fun p => p.1 = k with _ | p
  · simp [hf]
  · have hp : p.1 = k := by simpa using List.find?_some hf
    simp [hf, hp]

theorem adjFind_ensureKey_ne {m : AdjMap} {k a : String} (h : a ≠ k) :
    adjFind (ensureKey m k) a = adjFind m a := by
  unfold ensureKey adjFind
  split
  · rfl
  · rw [List.find?_append]
    have hone : ([(k, ([] : List String))].find? fun p => decide (p.1 = a)) = none := by
      simp [Ne.symm h]
    rw [hone, Option.or_none]

theorem adjFind_ensureKey_self (m : AdjMap) (k : String) :
    adjFind (ensureKey m k) k = some ((adjFind m k).getD []) := by
  unfold ensureKey adjFind
  split
  · rename_i hsome
    rcases hf : m.find? fun p => p.1 = k with _ | p
    · rw [hf] at hsome
      simp at hsome
    · rw [hf]
      simp
  · rename_i hnone
    have hn : (m.find? fun p => decide (p.1 = k)) = none :=
      Option.not_isSome_iff_eq_none.mp (by simpa using hnone)
    have hone : ([(k, ([] : List String))].find? fun p => decide (p.1 = k)) =
        some (k, []) := List.find?_cons_of_pos _ (by simp)
    rw [List.find?_append, hn, hone]
    simp [hn]

/-- Effect of processing a self-referential link on the neighbour lists:
other keys are untouched, and the key itself at most gains itself as a
neighbour (once). -/
theorem neighborsOf_addLink_self (m : AdjMap) (s : String)
    (ty cL : Option String) (thL cuL : Option ℚ) (aL dL : Option Bool) :
    (∀ a, a ≠ s → neighborsOf (addLink m ⟨s, s, ty, cL, thL, cuL, aL, dL⟩) a = neighborsOf m a) ∧
    neighborsOf (addLink m ⟨s, s, ty, cL, thL, cuL, aL, dL⟩) s =
      (if s ∈ neighborsOf m s then neighborsOf m s
       else neighborsOf m s ++ [s]) := by
  have hshow : addLink m ⟨s, s, ty, cL, thL, cuL, aL, dL⟩ =
      addNbr (addNbr (ensureKey (ensureKey m s) s) s s) s s := rfl
  constructor
  · intro a ha
    unfold neighborsOf
    rw [hshow, adjFind_addNbr_ne ha, adjFind_addNbr_ne ha,
      adjFind_ensureKey_ne ha, adjFind_ensureKey_ne ha]
  · unfold neighborsOf
    rw [hshow]
    have h2 : adjFind (ensureKey (ensureKey m s) s) s =
        some ((adjFind m s).getD []) := by
      rw [adjFind_ensureKey_self, adjFind_ensureKey_self]
      simp
    rw [adjFind_addNbr_self, adjFind_addNbr_self, h2]
    simp only [Option.map_some', Option.getD_some]
    by_cases hs : s ∈ (adjFind m s).getD []
    · simp [hs]
    · simp [hs]

theorem find?_eq_self {nodes : List NM3Node} {n1 : NM3Node}
    (hdist : nodes.Pairwise fun a b => a.id ≠ b.id) (h1 : n1 ∈ nodes) :
    nodes.find? (fun n => n.id = n1.id) = some n1 := by
  induction nodes with
  | nil => simp at h1
  | cons m rest ih =>
    rw [List.pairwise_cons] at hdist
    rcases List.mem_cons.mp h1 with rfl | h1
    · exact List.find?_cons_of_pos _ (by simp)
    · have hne : ¬ (m.id = n1.id) := hdist.1 n1 h1
      rw [List.find?_cons_of_neg _ (by simpa using hne)]
      exact ih hdist.2 h1

theorem foldl_congr_fn {α β : Type _} {f g : β → α → β} {l : List α}
    (h : ∀ acc x, x ∈ l → f acc x = g acc x) :
    ∀ b : β, l.foldl f b = l.foldl g b := by
  induction l with
  | nil => intro b; rfl
  | cons a rest ih =>
    intro b
    rw [List.foldl_cons, List.foldl_cons, h b a (List.mem_cons_self a rest)]
    exact ih (fun acc x hx => h acc x (List.mem_cons_of_mem a hx)) _

/-- `forceOn` reads the adjacency map only through the neighbour list of the
node's own id. -/
theorem forceOn_congr_adj {cfg : ForceConfig} {sqrtQ : ℚ → ℚ}
    {nodes : List NM3Node} {adj adj' : AdjMap} {center : Vector3D} {i : ℕ}
    {n1 : NM3Node} (h : neighborsOf adj' n1.id = neighborsOf adj n1.id) :
    forceOn cfg sqrtQ nodes adj' center i n1 =
      forceOn cfg sqrtQ nodes adj center i n1 := by
  unfold forceOn
  rw [h]

/-- An extra neighbour equal to the node itself contributes no attraction:
the lookup resolves to the node, the distance is 0, and the
`dist > minDistance` guard fails for a non-negative `minDistance`. -/
theorem forceOn_extra_self {cfg : ForceConfig} {sqrtQ : ℚ → ℚ}
    {nodes : List NM3Node} {adj adj' : AdjMap} {center : Vector3D} {i : ℕ}
    {n1 : NM3Node} (hmin : 0 ≤ cfg.minDistance)
    (hfind : nodes.find? (fun n => n.id = n1.id) = some n1)
    (h : neighborsOf adj' n1.id = neighborsOf adj n1.id ++ [n1.id]) :
    forceOn cfg sqrtQ nodes adj' center i n1 =
      forceOn cfg sqrtQ nodes adj center i n1 := by
  simp only [forceOn]
  rw [h, List.foldl_append]
  have hc : sqrtGt ((n1.x - n1.x) ^ 2 + (n1.y - n1.y) ^ 2 + (n1.z - n1.z) ^ 2)
      cfg.minDistance = false := by
    simp [sqrtGt, sub_self, hmin.not_lt, (sq_nonneg cfg.minDistance).not_lt]
  simp only [List.foldl_cons, List.foldl_nil, hfind, hc, Bool.false_eq_true,
    if_false]

/-- Appending a self-referential link leaves the force map unchanged (under
distinct node ids and a non-negative `minDistance`). -/
theorem calculateForces_addLink_self {cfg : ForceConfig} (sqrtQ : ℚ → ℚ)
    {nodes : List NM3Node} (m : AdjMap) (s : String)
    (ty cL : Option String) (thL cuL : Option ℚ) (aL dL : Option Bool)
    (hmin : 0 ≤ cfg.minDistance)
    (hdist : nodes.Pairwise fun a b => a.id ≠ b.id) :
    calculateForces cfg sqrtQ nodes (addLink m ⟨s, s, ty, cL, thL, cuL, aL, dL⟩) =
      calculateForces cfg sqrtQ nodes m := by
  unfold calculateForces
  refine foldl_congr_fn ?_ _
  intro acc in1 hin
  have h1 : in1.2 ∈ nodes := by
    obtain ⟨hlt, heq⟩ := List.mem_enum (x := in1.2) (i := in1.1) (by
      simpa using hin)
    rw [heq]
    exact List.getElem_mem hlt
  unfold forceAccum
  by_cases hids : in1.2.id = s
  · by_cases hs : s ∈ neighborsOf m s
    · have hn : neighborsOf (addLink m ⟨s, s, ty, cL, thL, cuL, aL, dL⟩) in1.2.id =
          neighborsOf m in1.2.id := by
        rw [hids, (neighborsOf_addLink_self m s ty cL thL cuL aL dL).2, if_pos hs]
      rw [forceOn_congr_adj hn]
    · have hn : neighborsOf (addLink m ⟨s, s, ty, cL, thL, cuL, aL, dL⟩) in1.2.id =
          neighborsOf m in1.2.id ++ [in1.2.id] := by
        rw [hids, (neighborsOf_addLink_self m s ty cL thL cuL aL dL).2, if_neg hs]
      rw [forceOn_extra_self hmin (find?_eq_self hdist h1) hn]
  · rw [forceOn_congr_adj ((neighborsOf_addLink_self m s ty cL thL cuL aL dL).1 in1.2.id hids)]

theorem foldl_applyForceStep_ids (cfg : ForceConfig)
    (forces : String → Vector3D) (l : List NM3Node) :
    ∀ p : List NM3Node × (String → Vector3D) × ℚ,
      ((l.foldl (applyForceStep cfg forces) p).1).map (fun n => n.id) =
        p.1.map (fun n => n.id) ++ l.map (fun n => n.id) := by
  induction l with
  | nil => intro p; simp
  | cons n rest ih =>
    intro p
    rw [List.foldl_cons, ih]
    have h1 : (applyForceStep cfg forces p n).1.map (fun x => x.id) =
        p.1.map (fun x => x.id) ++ [n.id] := by
      simp [applyForceStep]
    rw [h1]
    simp

/-- `applyForces` keeps the node ids in order. -/
theorem applyForces_map_id (cfg : ForceConfig) (forces : String → Vector3D)
    (nodes : List NM3Node) (vel : String → Vector3D) :
    ((applyForces cfg forces nodes vel).1).map (fun n => n.id) =
      nodes.map (fun n => n.id) := by
  unfold applyForces
  simpa using foldl_applyForceStep_ids cfg forces nodes ([], vel, 0)

/-- The simulation loop gives identical positions with and without a
self-referential link added to the adjacency map. -/
theorem simulateLoop_addLink_self {cfg : ForceConfig} (sqrtQ : ℚ → ℚ)
    (m : AdjMap) (s : String) (ty cL : Option String) (thL cuL : Option ℚ)
    (aL dL : Option Bool) (hmin : 0 ≤ cfg.minDistance) :
    ∀ (k : ℕ) (ns : List NM3Node) (vel : String → Vector3D),
      ns.Pairwise (fun a b => a.id ≠ b.id) →
      simulateLoop cfg sqrtQ (addLink m ⟨s, s, ty, cL, thL, cuL, aL, dL⟩) k ns vel =
        simulateLoop cfg sqrtQ m k ns vel := by
  intro k
  induction k with
  | zero => intro ns vel _; rfl
  | succ k ih =>
    intro ns vel hdist
    simp only [simulateLoop]
    rw [calculateForces_addLink_self sqrtQ m s ty cL thL cuL aL dL hmin hdist]
    by_cases hr : (applyForces cfg (calculateForces cfg sqrtQ ns m) ns
        vel).2.2 < 1 / 100
    · rw [if_pos hr, if_pos hr]
    · rw [if_neg hr, if_neg hr]
      apply ih
      have h1 : ((applyForces cfg (calculateForces cfg sqrtQ ns m) ns
          vel).1.map (fun n => n.id)).Pairwise (fun a b => a ≠ b) := by
        rw [applyForces_map_id]
        exact List.pairwise_map.mpr hdist
      exact List.pairwise_map.mp h1

/-! ## Claim theorems: duplicate and self links (C9) -/

/-- C9 (amended): for every node list with pairwise-distinct ids, every link
list, every iteration count and every configuration with non-negative
`minDistance`, the positions produced by `ForceDirected3D.simulate` are
identical whether or not the link list additionally contains a duplicate of
an existing link or a self-referential link: the duplicate is absorbed by
the undirected-adjacency set construction, and the self link's extra
neighbour entry contributes no force because the node's distance to itself
is 0.  (The distinct-id hypothesis is necessary: when two nodes share an
id, the neighbour lookup resolves the self link to the first node with
that id and exerts a real attraction on the other.) -/
theorem duplicate_and_self_links_are_absorbed
    (cfg : ForceConfig) (sqrtQ : ℚ → ℚ) (nodes : List NM3Node)
    (links : List NM3Link) (iterations : ℕ)
    (hmin : 0 ≤ cfg.minDistance)
    (hids : nodes.Pairwise fun a b => a.id ≠ b.id) :
    (∀ l ∈ links,
      simulate cfg sqrtQ nodes (links ++ [l]) iterations =
        simulate cfg sqrtQ nodes links iterations) ∧
    ∀ l2 : NM3Link, l2.fromId = l2.toId →
      simulate cfg sqrtQ nodes (links ++ [l2]) iterations =
        simulate cfg sqrtQ nodes links iterations := by
  constructor
  · intro l hl
    unfold simulate
    rw [buildAdjacencyMap_dup hl]
  · intro l2 hl2
    obtain ⟨s, t, ty, cL, thL, cuL, aL, dL⟩ := l2
    obtain rfl : s = t := hl2
    unfold simulate
    have hb : buildAdjacencyMap (links ++ [⟨s, s, ty, cL, thL, cuL, aL, dL⟩]) =
        addLink (buildAdjacencyMap links) ⟨s, s, ty, cL, thL, cuL, aL, dL⟩ := by
      unfold buildAdjacencyMap
      rw [List.foldl_append, List.foldl_cons, List.foldl_nil]
    rw [hb]
    exact simulateLoop_addLink_self sqrtQ (buildAdjacencyMap links) s ty cL
      thL cuL aL dL hmin iterations nodes _ hids

/-- Witness for the amended C9 at a concrete input: two distinct-id nodes,
one link, the default configuration and 5 iterations. -/
theorem duplicate_and_self_links_are_absorbed_witness :
    (0 ≤ defaultForceConfig.minDistance ∧
     ([⟨"p", "sphere", 0, 0, 0, none, none, none, "", none, none, none, none, none⟩,
       ⟨"q", "sphere", 1, 0, 0, none, none, none, "", none, none, none, none, none⟩] :
        List NM3Node).Pairwise (fun a b => a.id ≠ b.id)) ∧
    (∀ l ∈ [(⟨"p", "q", some "relates", none, none, none, none, none⟩ : NM3Link)],
      simulate defaultForceConfig (fun _ => 0)
        [⟨"p", "sphere", 0, 0, 0, none, none, none, "", none, none, none, none, none⟩,
         ⟨"q", "sphere", 1, 0, 0, none, none, none, "", none, none, none, none, none⟩]
        ([⟨"p", "q", some "relates", none, none, none, none, none⟩] ++ [l]) 5 =
      simulate defaultForceConfig (fun _ => 0)
        [⟨"p", "sphere", 0, 0, 0, none, none, none, "", none, none, none, none, none⟩,
         ⟨"q", "sphere", 1, 0, 0, none, none, none, "", none, none, none, none, none⟩]
        [⟨"p", "q", some "relates", none, none, none, none, none⟩] 5) ∧
    ∀ l2 : NM3Link, l2.fromId = l2.toId →
      simulate defaultForceConfig (fun _ => 0)
        [⟨"p", "sphere", 0, 0, 0, none, none, none, "", none, none, none, none, none⟩,
         ⟨"q", "sphere", 1, 0, 0, none, none, none, "", none, none, none, none, none⟩]
        ([⟨"p", "q", some "relates", none, none, none, none, none⟩] ++
          [l2]) 5 =
      simulate defaultForceConfig (fun _ => 0)
        [⟨"p", "sphere", 0, 0, 0, none, none, none, "", none, none, none, none, none⟩,
         ⟨"q", "sphere", 1, 0, 0, none, none, none, "", none, none, none, none, none⟩]
        [⟨"p", "q", some "relates", none, none, none, none, none⟩] 5 :=
  ⟨⟨by decide, by decide⟩,
   duplicate_and_self_links_are_absorbed defaultForceConfig (fun _ => 0)
     [⟨"p", "sphere", 0, 0, 0, none, none, none, "", none, none, none, none, none⟩,
      ⟨"q", "sphere", 1, 0, 0, none, none, none, "", none, none, none, none, none⟩]
     [⟨"p", "q", some "relates", none, none, none, none, none⟩] 5 (by decide) (by decide)⟩

/-- C9 counterexample for the claim as stated (over every node list): with
two nodes sharing the id `"a"` at different positions, a self-referential
link on `"a"` changes the simulated positions, because the attraction
lookup `nodes.find(n => n.id === targetId)` resolves the self link to the
first node carrying the id and pulls the second node towards it — even
though the configuration's `minDistance` is non-negative. -/
theorem force_sim_self_link_counterexample :
    0 ≤ (⟨0, 1, 0, 1, 0, 1⟩ : ForceConfig).minDistance ∧
    simulate ⟨0, 1, 0, 1, 0, 1⟩ (fun _ => 9)
      [⟨"a", "sphere", 0, 0, 0, none, none, none, "", none, none, none, none, none⟩,
       ⟨"a", "sphere", 9, 0, 0, none, none, none, "", none, none, none, none, none⟩]
      ([] ++ [⟨"a", "a", some "rel", none, none, none, none, none⟩]) 1 ≠
    simulate ⟨0, 1, 0, 1, 0, 1⟩ (fun _ => 9)
      [⟨"a", "sphere", 0, 0, 0, none, none, none, "", none, none, none, none, none⟩,
       ⟨"a", "sphere", 9, 0, 0, none, none, none, "", none, none, none, none, none⟩]
      [] 1 := by
  refine ⟨by decide, ?_⟩
  have hadj : buildAdjacencyMap ([] ++ [⟨"a", "a", some "rel", none, none, none, none, none⟩]) =
      [("a", ["a"])] := by
    simp [buildAdjacencyMap, addLink, ensureKey, addNbr, adjFind, List.find?]
  have hL : simulate ⟨0, 1, 0, 1, 0, 1⟩ (fun _ => 9)
      [⟨"a", "sphere", 0, 0, 0, none, none, none, "", none, none, none, none, none⟩,
       ⟨"a", "sphere", 9, 0, 0, none, none, none, "", none, none, none, none, none⟩]
      ([] ++ [⟨"a", "a", some "rel", none, none, none, none, none⟩]) 1 =
      [⟨"a", "sphere", -9, 0, 0, none, none, none, "", none, none, none, none, none⟩,
       ⟨"a", "sphere", -9, 0, 0, none, none, none, "", none, none, none, none, none⟩] := by
    unfold simulate
    rw [hadj]
    simp only [simulateLoop]
    norm_num [calculateForces, forceAccum, forceOn, centroid, neighborsOf,
      adjFind, applyForces, applyForceStep, sqrtLt, sqrtGt, List.find?,
      List.enum, List.enumFrom]
  have hR : simulate ⟨0, 1, 0, 1, 0, 1⟩ (fun _ => 9)
      [⟨"a", "sphere", 0, 0, 0, none, none, none, "", none, none, none, none, none⟩,
       ⟨"a", "sphere", 9, 0, 0, none, none, none, "", none, none, none, none, none⟩] [] 1 =
      [⟨"a", "sphere", 0, 0, 0, none, none, none, "", none, none, none, none, none⟩,
       ⟨"a", "sphere", 9, 0, 0, none, none, none, "", none, none, none, none, none⟩] := by
    unfold simulate
    simp only [simulateLoop]
    norm_num [calculateForces, forceAccum, forceOn, centroid, neighborsOf,
      adjFind, buildAdjacencyMap, applyForces, applyForceStep, sqrtLt, sqrtGt,
      List.find?, List.enum, List.enumFrom]
  rw [hL, hR]
  simp

/-! ## Frame property of the optimizer (C6): only positions change -/

theorem eraseXYZ_withPos (n : NM3Node) (x y z : ℚ) :
    eraseXYZ (withPos n x y z) = eraseXYZ n := rfl

theorem map_eraseXYZ_modify (f : NM3Node → NM3Node)
    (hf : ∀ n, eraseXYZ (f n) = eraseXYZ n) :
    ∀ (ns : List NM3Node) (i : ℕ),
      (ns.modify f i).map eraseXYZ = ns.map eraseXYZ := by
  intro ns
  induction ns with
  | nil =>
    intro i
    cases i with
    | zero => rfl
    | succ j => rfl
  | cons a t ih =>
    intro i
    cases i with
    | zero =>
      show (f a :: t).map eraseXYZ = (a :: t).map eraseXYZ
      simp [hf a]
    | succ j =>
      show (a :: t.modify f j).map eraseXYZ = (a :: t).map eraseXYZ
      simp [ih j]

theorem map_eraseXYZ_setPosAt (ns : List NM3Node) (i : ℕ) (x y z : ℚ) :
    (setPosAt ns i x y z).map eraseXYZ = ns.map eraseXYZ := by
  unfold setPosAt
  exact map_eraseXYZ_modify (fun n => withPos n x y z) (fun n => rfl) ns i

theorem foldl_map_inv {β : Type _} {f : List NM3Node → β → List NM3Node}
    (h : ∀ acc q, (f acc q).map eraseXYZ = acc.map eraseXYZ) (l : List β) :
    ∀ b, ((l.foldl f b).map eraseXYZ) = b.map eraseXYZ := by
  induction l with
  | nil => intro b; rfl
  | cons a t ih => intro b; rw [List.foldl_cons, ih, h]

theorem map_eraseXYZ_researchPaper (jm : JsMath) (cfg : LayoutConfig)
    (ns : List NM3Node) :
    (applyResearchPaperLayout jm cfg ns).map eraseXYZ = ns.map eraseXYZ := by
  simp only [applyResearchPaperLayout]
  refine (foldl_map_inv (fun a q => map_eraseXYZ_setPosAt _ _ _ _ _) _ _).trans ?_
  refine (foldl_map_inv (fun a q => map_eraseXYZ_setPosAt _ _ _ _ _) _ _).trans ?_
  rcases idxWhere conclusionPred ns with _ | ⟨i, t⟩
  · refine (foldl_map_inv (fun a q => map_eraseXYZ_setPosAt _ _ _ _ _) _ _).trans ?_
    refine (foldl_map_inv (fun a q => map_eraseXYZ_setPosAt _ _ _ _ _) _ _).trans ?_
    rcases idxWhere introPred ns with _ | ⟨j, t2⟩
    · rfl
    · exact map_eraseXYZ_setPosAt _ _ _ _ _
  · refine (map_eraseXYZ_setPosAt _ _ _ _ _).trans ?_
    refine (foldl_map_inv (fun a q => map_eraseXYZ_setPosAt _ _ _ _ _) _ _).trans ?_
    refine (foldl_map_inv (fun a q => map_eraseXYZ_setPosAt _ _ _ _ _) _ _).trans ?_
    rcases idxWhere introPred ns with _ | ⟨j, t2⟩
    · rfl
    · exact map_eraseXYZ_setPosAt _ _ _ _ _

theorem map_eraseXYZ_documentation (cfg : LayoutConfig) (ns : List NM3Node) :
    (applyDocumentationLayout cfg ns).map eraseXYZ = ns.map eraseXYZ := by
  simp only [applyDocumentationLayout]
  refine (foldl_map_inv (fun a q => map_eraseXYZ_setPosAt _ _ _ _ _) _ _).trans ?_
  refine (foldl_map_inv (fun a q => map_eraseXYZ_setPosAt _ _ _ _ _) _ _).trans ?_
  refine (foldl_map_inv (fun a q => map_eraseXYZ_setPosAt _ _ _ _ _) _ _).trans ?_
  rcases idxWhere (fun n => titleHas n "content" || titleHas n "overview") ns with
    _ | ⟨i, t⟩
  · rfl
  · exact map_eraseXYZ_setPosAt _ _ _ _ _

theorem map_eraseXYZ_projectPlanning (cfg : LayoutConfig) (ns : List NM3Node) :
    (applyProjectPlanningLayout cfg ns).map eraseXYZ = ns.map eraseXYZ := by
  simp only [applyProjectPlanningLayout]
  refine (foldl_map_inv (fun a q => map_eraseXYZ_setPosAt _ _ _ _ _) _ _).trans ?_
  refine (foldl_map_inv (fun a q => map_eraseXYZ_setPosAt _ _ _ _ _) _ _).trans ?_
  refine (foldl_map_inv (fun a q => map_eraseXYZ_setPosAt _ _ _ _ _) _ _).trans ?_
  refine (foldl_map_inv (fun a q => map_eraseXYZ_setPosAt _ _ _ _ _) _ _).trans ?_
  exact foldl_map_inv (fun a q => map_eraseXYZ_setPosAt _ _ _ _ _) _ _

theorem map_eraseXYZ_knowledgeBase (jm : JsMath) (cfg : LayoutConfig)
    (ns : List NM3Node) :
    (applyKnowledgeBaseLayout jm cfg ns).map eraseXYZ = ns.map eraseXYZ := by
  simp only [applyKnowledgeBaseLayout]
  refine (foldl_map_inv (fun a q => map_eraseXYZ_setPosAt _ _ _ _ _) _ _).trans ?_
  rcases ns.findIdx? fun n =>
      titleHas n "index" || titleHas n "home" || titleHas n "main" with _ | i
  · rfl
  · exact map_eraseXYZ_setPosAt _ _ _ _ _

theorem map_eraseXYZ_tutorial (cfg : LayoutConfig) (ns : List NM3Node) :
    (applyTutorialLayout cfg ns).map eraseXYZ = ns.map eraseXYZ := by
  simp only [applyTutorialLayout]
  exact foldl_map_inv (fun a i => map_eraseXYZ_setPosAt _ _ _ _ _) _ _

theorem map_eraseXYZ_hierarchical (cfg : LayoutConfig) (ns : List NM3Node) :
    (applyHierarchicalLayout cfg ns).map eraseXYZ = ns.map eraseXYZ := by
  simp only [applyHierarchicalLayout]
  exact foldl_map_inv
    (fun acc l => foldl_map_inv (fun a2 q => map_eraseXYZ_setPosAt _ _ _ _ _) _ acc)
    _ _

theorem map_eraseXYZ_timeline (jm : JsMath) (cfg : LayoutConfig)
    (ns : List NM3Node) :
    (applyTimelineLayout jm cfg ns).map eraseXYZ = ns.map eraseXYZ := by
  simp only [applyTimelineLayout]
  exact foldl_map_inv (fun a i => map_eraseXYZ_setPosAt _ _ _ _ _) _ _

theorem map_eraseXYZ_conceptMap (jm : JsMath) (cfg : LayoutConfig)
    (ns : List NM3Node) :
    (applyConceptMapLayout jm cfg ns).map eraseXYZ = ns.map eraseXYZ := by
  simp only [applyConceptMapLayout]
  exact foldl_map_inv
    (fun acc j => foldl_map_inv (fun a2 q => map_eraseXYZ_setPosAt _ _ _ _ _) _ acc)
    _ _

theorem map_eraseXYZ_template (jm : JsMath) (ns : List NM3Node)
    (lt : LayoutType) (cfg : LayoutConfig) :
    (applyTemplate jm ns lt cfg).map eraseXYZ = ns.map eraseXYZ := by
  cases lt
  · exact map_eraseXYZ_researchPaper jm cfg ns
  · exact map_eraseXYZ_documentation cfg ns
  · exact map_eraseXYZ_projectPlanning cfg ns
  · exact map_eraseXYZ_knowledgeBase jm cfg ns
  · exact map_eraseXYZ_tutorial cfg ns
  · exact map_eraseXYZ_hierarchical cfg ns
  · exact map_eraseXYZ_timeline jm cfg ns
  · exact map_eraseXYZ_conceptMap jm cfg ns

theorem map_eraseXYZ_enum_map {g : ℕ × NM3Node → NM3Node}
    (hg : ∀ q, eraseXYZ (g q) = eraseXYZ q.2) (ns : List NM3Node) :
    ((ns.enum.map g).map eraseXYZ) = ns.map eraseXYZ := by
  rw [List.map_map]
  have h1 : (eraseXYZ ∘ g) = fun q => eraseXYZ q.2 := funext hg
  rw [h1]
  have h2 : (fun q : ℕ × NM3Node => eraseXYZ q.2) = eraseXYZ ∘ Prod.snd := rfl
  rw [h2, ← List.map_map, List.enum_map_snd]

theorem map_eraseXYZ_initRandom (jm : JsMath) (rnd : ℕ → ℚ)
    (ns : List NM3Node) :
    (initializeRandomPositions jm rnd ns).map eraseXYZ = ns.map eraseXYZ := by
  simp only [initializeRandomPositions]
  refine map_eraseXYZ_enum_map ?_ ns
  intro q
  rfl

theorem map_eraseXYZ_conventions (ns : List NM3Node) :
    (applySpatialConventions ns).map eraseXYZ = ns.map eraseXYZ := by
  unfold applySpatialConventions
  rw [List.map_map]
  refine List.map_congr_left ?_
  intro n hn
  simp only [Function.comp_apply]
  split_ifs <;> rfl

theorem map_eraseXYZ_applyCollision (nodes : List NM3Node)
    (col : CollisionInfo) :
    (applyCollision nodes col).map eraseXYZ = nodes.map eraseXYZ := by
  simp only [applyCollision]
  split
  · rw [List.map_map]
    refine List.map_congr_left ?_
    intro n hn
    simp only [Function.comp_apply]
    split_ifs <;> rfl
  · rfl

theorem resolveLoop_map_eraseXYZ (sqrtQ : ℚ → ℚ) (ms : ℚ) :
    ∀ (k : ℕ) (nodes : List NM3Node),
      ((resolveLoop sqrtQ ms k nodes).2).map eraseXYZ =
        nodes.map eraseXYZ := by
  intro k
  induction k with
  | zero => intro nodes; rfl
  | succ k ih =>
    intro nodes
    simp only [resolveLoop]
    by_cases hc : (detectCollisions sqrtQ ms nodes).isEmpty
    · rw [if_pos hc]
    · rw [if_neg hc]
      exact (ih _).trans
        (foldl_map_inv (fun acc col => map_eraseXYZ_applyCollision acc col) _ _)

theorem foldl_applyForceStep_eraseXYZ (cfg : ForceConfig)
    (forces : String → Vector3D) (l : List NM3Node) :
    ∀ p : List NM3Node × (String → Vector3D) × ℚ,
      ((l.foldl (applyForceStep cfg forces) p).1).map eraseXYZ =
        p.1.map eraseXYZ ++ l.map eraseXYZ := by
  induction l with
  | nil => intro p; simp
  | cons n rest ih =>
    intro p
    rw [List.foldl_cons, ih]
    have h1 : (applyForceStep cfg forces p n).1.map eraseXYZ =
        p.1.map eraseXYZ ++ [eraseXYZ n] := by
      simp [applyForceStep, eraseXYZ]
    rw [h1]
    simp

theorem applyForces_map_eraseXYZ (cfg : ForceConfig)
    (forces : String → Vector3D) (nodes : List NM3Node)
    (vel : String → Vector3D) :
    ((applyForces cfg forces nodes vel).1).map eraseXYZ =
      nodes.map eraseXYZ := by
  unfold applyForces
  simpa using foldl_applyForceStep_eraseXYZ cfg forces nodes ([], vel, 0)

theorem simulateLoop_map_eraseXYZ (cfg : ForceConfig) (sqrtQ : ℚ → ℚ)
    (adj : AdjMap) :
    ∀ (k : ℕ) (ns : List NM3Node) (vel : String → Vector3D),
      (simulateLoop cfg sqrtQ adj k ns vel).map eraseXYZ =
        ns.map eraseXYZ := by
  intro k
  induction k with
  | zero => intro ns vel; rfl
  | succ k ih =>
    intro ns vel
    simp only [simulateLoop]
    by_cases hr : (applyForces cfg (calculateForces cfg sqrtQ ns adj) ns
        vel).2.2 < 1 / 100
    · rw [if_pos hr]
      exact applyForces_map_eraseXYZ cfg _ ns vel
    · rw [if_neg hr]
      exact (ih _ _).trans (applyForces_map_eraseXYZ cfg _ ns vel)

theorem simulate_map_eraseXYZ (cfg : ForceConfig) (sqrtQ : ℚ → ℚ)
    (ns : List NM3Node) (links : List NM3Link) (iterations : ℕ) :
    (simulate cfg sqrtQ ns links iterations).map eraseXYZ =
      ns.map eraseXYZ :=
  simulateLoop_map_eraseXYZ cfg sqrtQ _ iterations ns _

/-- C6: `SpatialOptimizerV2.optimize` changes only the position coordinates
of the supplied nodes: erasing positions on the result gives the same list
(same length, same order, every non-position field of every node intact) as
erasing positions on the input, for every node list, link list and
configuration, and in particular the length is preserved.  (The embedding
is pure, so the in-place-mutation reading — no node object copied or
replaced, links untouched — is captured by this list-level equality.) -/
theorem optimize_mutates_only_positions (jm : JsMath) (rnd : ℕ → ℚ)
    (nodes : List NM3Node) (links : List NM3Link)
    (config : OptimizationConfig) :
    (optimize jm rnd nodes links config).map eraseXYZ =
      nodes.map eraseXYZ ∧
    (optimize jm rnd nodes links config).length = nodes.length := by
  have hmain : (optimize jm rnd nodes links config).map eraseXYZ =
      nodes.map eraseXYZ := by
    simp only [optimize]
    refine (map_eraseXYZ_conventions _).trans ?_
    split
    · refine (resolveLoop_map_eraseXYZ _ _ _ _).trans ?_
      split
      · refine (simulate_map_eraseXYZ _ _ _ _ _).trans ?_
        split
        · exact map_eraseXYZ_template _ _ _ _
        · exact map_eraseXYZ_initRandom _ _ _
      · split
        · exact map_eraseXYZ_template _ _ _ _
        · exact map_eraseXYZ_initRandom _ _ _
    · split
      · refine (simulate_map_eraseXYZ _ _ _ _ _).trans ?_
        split
        · exact map_eraseXYZ_template _ _ _ _
        · exact map_eraseXYZ_initRandom _ _ _
      · split
        · exact map_eraseXYZ_template _ _ _ _
        · exact map_eraseXYZ_initRandom _ _ _
  refine ⟨hmain, ?_⟩
  have hlen := congrArg List.length hmain
  simpa using hlen

/-! ## Determinism and divisor safety of the templates (C7) -/

/-- C7: the layout templates are deterministic — `applyTemplate` is a pure
function of the node list (and the `Math` functions), so two identical
copies of a node list get identical positions — and, in this exact-rational
embedding of the arithmetic, the only places the source could produce
`NaN`/`Infinity` from finite inputs are its divisions by a collection size
(`other.length`, `nodes.length`, `gridSize = ceil(sqrt(other.length))`,
`cluster.length`); each such division happens only inside a loop over that
very collection, where the size is provably non-zero: an executed
`forEach`/indexed iteration forces the list non-empty (second conjunct,
covering the length and grid-size divisors), and every round-robin cluster
of `applyConceptMapLayout` that the loop visits is non-empty (third
conjunct). -/
theorem template_layouts_deterministic_and_finite (jm : JsMath)
    (cfg : LayoutConfig) (ns ms : List NM3Node) (lt : LayoutType)
    (h : ns = ms) :
    applyTemplate jm ns lt cfg = applyTemplate jm ms lt cfg ∧
    (∀ (l : List ℕ) (q : ℕ × ℕ), q ∈ l.enum →
      ((l.length : ℚ) ≠ 0 ∧ ceilSqrt l.length ≠ 0)) ∧
    (∀ j ∈ List.range (clusterCount ns.length),
      clusterIdx ns.length (clusterCount ns.length) j ≠ []) := by
  refine ⟨by rw [h], ?_, ?_⟩
  · intro l q hq
    have hne : l ≠ [] := by
      rintro rfl
      simp at hq
    have hpos : 0 < l.length := List.length_pos.mpr hne
    constructor
    · exact_mod_cast Nat.pos_iff_ne_zero.mp hpos
    · unfold ceilSqrt
      rw [if_neg (Nat.pos_iff_ne_zero.mp hpos)]
      exact Nat.succ_ne_zero _
  · intro j hj
    rw [List.mem_range] at hj
    have hlen : 0 < ns.length := by
      by_contra hl
      have h0 : ns.length = 0 := by omega
      rw [h0] at hj
      simp [clusterCount, ceilDiv4] at hj
    have hccle : clusterCount ns.length ≤ ns.length := by
      unfold clusterCount ceilDiv4
      omega
    intro hnil
    have hjmem : j ∈ clusterIdx ns.length (clusterCount ns.length) j := by
      unfold clusterIdx
      rw [List.mem_filter]
      refine ⟨List.mem_range.mpr (lt_of_lt_of_le hj hccle), ?_⟩
      simp [Nat.mod_eq_of_lt hj]
    rw [hnil] at hjmem
    simp at hjmem

/-- Witness for C7 at a concrete input: a one-node list, the timeline
template, trivial `Math` functions. -/
theorem template_layouts_deterministic_and_finite_witness :
    ([⟨"n1", "sphere", 0, 0, 0, none, none, none, "", none, none, none, none, none⟩] :
       List NM3Node) =
      [⟨"n1", "sphere", 0, 0, 0, none, none, none, "", none, none, none, none, none⟩] ∧
    (applyTemplate ⟨fun _ => 0, fun _ => 0, fun _ => 0, 0⟩
        [⟨"n1", "sphere", 0, 0, 0, none, none, none, "", none, none, none, none, none⟩]
        LayoutType.timeline defaultLayoutConfig =
      applyTemplate ⟨fun _ => 0, fun _ => 0, fun _ => 0, 0⟩
        [⟨"n1", "sphere", 0, 0, 0, none, none, none, "", none, none, none, none, none⟩]
        LayoutType.timeline defaultLayoutConfig ∧
    (∀ (l : List ℕ) (q : ℕ × ℕ), q ∈ l.enum →
      ((l.length : ℚ) ≠ 0 ∧ ceilSqrt l.length ≠ 0)) ∧
    ∀ j ∈ List.range (clusterCount
        ([⟨"n1", "sphere", 0, 0, 0, none, none, none, "", none,
           none, none, none, none⟩] : List NM3Node).length),
      clusterIdx
        ([⟨"n1", "sphere", 0, 0, 0, none, none, none, "", none,
           none, none, none, none⟩] : List NM3Node).length
        (clusterCount ([⟨"n1", "sphere", 0, 0, 0, none, none, none, "",
           none, none, none, none, none⟩] : List NM3Node).length) j ≠ []) :=
  ⟨rfl, template_layouts_deterministic_and_finite
    ⟨fun _ => 0, fun _ => 0, fun _ => 0, 0⟩ defaultLayoutConfig
    [⟨"n1", "sphere", 0, 0, 0, none, none, none, "", none, none, none, none, none⟩]
    [⟨"n1", "sphere", 0, 0, 0, none, none, none, "", none, none, none, none, none⟩]
    LayoutType.timeline rfl⟩

/-! ## Normalisation into a target box (C8) -/

theorem calcB_fold_split (l : List NM3Node) :
    ∀ a : ℚ × ℚ × ℚ × ℚ × ℚ × ℚ,
      l.foldl
        (fun (acc : ℚ × ℚ × ℚ × ℚ × ℚ × ℚ) m =>
          (min acc.1 m.x, max acc.2.1 m.x, min acc.2.2.1 m.y,
           max acc.2.2.2.1 m.y, min acc.2.2.2.2.1 m.z, max acc.2.2.2.2.2 m.z))
        a =
      (l.foldl (fun m n => min m n.x) a.1,
       l.foldl (fun m n => max m n.x) a.2.1,
       l.foldl (fun m n => min m n.y) a.2.2.1,
       l.foldl (fun m n => max m n.y) a.2.2.2.1,
       l.foldl (fun m n => min m n.z) a.2.2.2.2.1,
       l.foldl (fun m n => max m n.z) a.2.2.2.2.2) := by
  induction l with
  | nil => intro a; rfl
  | cons n rest ih =>
    intro a
    rw [List.foldl_cons, ih]
    rfl

theorem foldl_min_map (g : ℚ → ℚ) (hg : Monotone g) (sel : NM3Node → ℚ)
    (f : NM3Node → NM3Node) (hf : ∀ n, sel (f n) = g (sel n))
    (l : List NM3Node) :
    ∀ a, (l.map f).foldl (fun m n => min m (sel n)) (g a) =
      g (l.foldl (fun m n => min m (sel n)) a) := by
  induction l with
  | nil => intro a; rfl
  | cons n rest ih =>
    intro a
    rw [List.map_cons, List.foldl_cons, List.foldl_cons, hf, ← hg.map_min, ih]

theorem foldl_max_map (g : ℚ → ℚ) (hg : Monotone g) (sel : NM3Node → ℚ)
    (f : NM3Node → NM3Node) (hf : ∀ n, sel (f n) = g (sel n))
    (l : List NM3Node) :
    ∀ a, (l.map f).foldl (fun m n => max m (sel n)) (g a) =
      g (l.foldl (fun m n => max m (sel n)) a) := by
  induction l with
  | nil => intro a; rfl
  | cons n rest ih =>
    intro a
    rw [List.map_cons, List.foldl_cons, List.foldl_cons, hf, ← hg.map_max, ih]

theorem calculateBounds_center {ns : List NM3Node} {b : NodeBounds}
    (hb : calculateBounds ns = some b) :
    b.centerX = (b.minX + b.maxX) / 2 ∧
    b.centerY = (b.minY + b.maxY) / 2 ∧
    b.centerZ = (b.minZ + b.maxZ) / 2 := by
  cases ns with
  | nil => simp [calculateBounds] at hb
  | cons n rest =>
    have hb' := (Option.some.inj hb).symm
    subst hb'
    refine ⟨rfl, rfl, rfl⟩

theorem calculateBounds_cons (n : NM3Node) (rest : List NM3Node) :
    calculateBounds (n :: rest) = some
      ⟨(n :: rest).foldl (fun m k => min m k.x) n.x,
       (n :: rest).foldl (fun m k => max m k.x) n.x,
       (n :: rest).foldl (fun m k => min m k.y) n.y,
       (n :: rest).foldl (fun m k => max m k.y) n.y,
       (n :: rest).foldl (fun m k => min m k.z) n.z,
       (n :: rest).foldl (fun m k => max m k.z) n.z,
       ((n :: rest).foldl (fun m k => min m k.x) n.x +
        (n :: rest).foldl (fun m k => max m k.x) n.x) / 2,
       ((n :: rest).foldl (fun m k => min m k.y) n.y +
        (n :: rest).foldl (fun m k => max m k.y) n.y) / 2,
       ((n :: rest).foldl (fun m k => min m k.z) n.z +
        (n :: rest).foldl (fun m k => max m k.z) n.z) / 2⟩ := by
  simp only [calculateBounds]
  rw [calcB_fold_split]

theorem calculateBounds_map_scale {ns : List NM3Node} {b : NodeBounds}
    (hb : calculateBounds ns = some b) (cX cY cZ sX sY sZ : ℚ)
    (hsX : 0 ≤ sX) (hsY : 0 ≤ sY) (hsZ : 0 ≤ sZ) :
    calculateBounds (ns.map fun n =>
        withPos n ((n.x - cX) * sX) ((n.y - cY) * sY) ((n.z - cZ) * sZ)) =
      some ⟨(b.minX - cX) * sX, (b.maxX - cX) * sX, (b.minY - cY) * sY,
        (b.maxY - cY) * sY, (b.minZ - cZ) * sZ, (b.maxZ - cZ) * sZ,
        ((b.minX - cX) * sX + (b.maxX - cX) * sX) / 2,
        ((b.minY - cY) * sY + (b.maxY - cY) * sY) / 2,
        ((b.minZ - cZ) * sZ + (b.maxZ - cZ) * sZ) / 2⟩ := by
  have hgX : Monotone fun v : ℚ => (v - cX) * sX := by
    intro u v huv
    exact mul_le_mul_of_nonneg_right (by linarith) hsX
  have hgY : Monotone fun v : ℚ => (v - cY) * sY := by
    intro u v huv
    exact mul_le_mul_of_nonneg_right (by linarith) hsY
  have hgZ : Monotone fun v : ℚ => (v - cZ) * sZ := by
    intro u v huv
    exact mul_le_mul_of_nonneg_right (by linarith) hsZ
  cases ns with
  | nil => simp [calculateBounds] at hb
  | cons n rest =>
    rw [calculateBounds_cons] at hb
    obtain rfl : b = _ := (Option.some.inj hb).symm
    rw [List.map_cons, calculateBounds_cons]
    have e1 := foldl_min_map _ hgX (fun k => k.x)
      (fun n => withPos n ((n.x - cX) * sX) ((n.y - cY) * sY) ((n.z - cZ) * sZ))
      (fun k => rfl) (n :: rest) n.x
    have e2 := foldl_max_map _ hgX (fun k => k.x)
      (fun n => withPos n ((n.x - cX) * sX) ((n.y - cY) * sY) ((n.z - cZ) * sZ))
      (fun k => rfl) (n :: rest) n.x
    have e3 := foldl_min_map _ hgY (fun k => k.y)
      (fun n => withPos n ((n.x - cX) * sX) ((n.y - cY) * sY) ((n.z - cZ) * sZ))
      (fun k => rfl) (n :: rest) n.y
    have e4 := foldl_max_map _ hgY (fun k => k.y)
      (fun n => withPos n ((n.x - cX) * sX) ((n.y - cY) * sY) ((n.z - cZ) * sZ))
      (fun k => rfl) (n :: rest) n.y
    have e5 := foldl_min_map _ hgZ (fun k => k.z)
      (fun n => withPos n ((n.x - cX) * sX) ((n.y - cY) * sY) ((n.z - cZ) * sZ))
      (fun k => rfl) (n :: rest) n.z
    have e6 := foldl_max_map _ hgZ (fun k => k.z)
      (fun n => withPos n ((n.x - cX) * sX) ((n.y - cY) * sY) ((n.z - cZ) * sZ))
      (fun k => rfl) (n :: rest) n.z
    simp only [List.map_cons] at e1 e2 e3 e4 e5 e6
    congr 1
    simp only [NodeBounds.mk.injEq]
    exact ⟨e1, e2, e3, e4, e5, e6,
      congrArg₂ (fun u v => (u + v) / 2) e1 e2,
      congrArg₂ (fun u v => (u + v) / 2) e3 e4,
      congrArg₂ (fun u v => (u + v) / 2) e5 e6⟩

/-- C8: `SpatialOptimizerV2.normalizePositions` with a target box, on a node
list whose current bounding box has strictly positive extent on all three
axes, rescales and recenters the positions so that the new bounding box's
width, height and depth equal the (non-negative) target dimensions and its
center lies at the origin; with no target box, an empty node list, or a
degenerate extent on some axis, every position is left unchanged. -/
theorem normalize_rescales_to_target (ns : List NM3Node) (t : TargetBounds) :
    normalizePositions ns none = ns ∧
    (calculateBounds ns = none → normalizePositions ns (some t) = ns) ∧
    (∀ b : NodeBounds, calculateBounds ns = some b →
      ¬(0 < b.maxX - b.minX ∧ 0 < b.maxY - b.minY ∧ 0 < b.maxZ - b.minZ) →
      normalizePositions ns (some t) = ns) ∧
    ∀ b : NodeBounds, calculateBounds ns = some b →
      0 < b.maxX - b.minX → 0 < b.maxY - b.minY → 0 < b.maxZ - b.minZ →
      0 ≤ t.width → 0 ≤ t.height → 0 ≤ t.depth →
      ∃ b2 : NodeBounds,
        calculateBounds (normalizePositions ns (some t)) = some b2 ∧
        b2.maxX - b2.minX = t.width ∧
        b2.maxY - b2.minY = t.height ∧
        b2.maxZ - b2.minZ = t.depth ∧
        b2.centerX = 0 ∧ b2.centerY = 0 ∧ b2.centerZ = 0 := by
  refine ⟨?_, ?_, ?_, ?_⟩
  · unfold normalizePositions
    rcases calculateBounds ns with _ | b
    · rfl
    · rfl
  · intro h
    unfold normalizePositions
    rw [h]
  · intro b hb hneg
    unfold normalizePositions
    simp only [hb]
    exact if_neg hneg
  · intro b hb hx hy hz htw hth htd
    have hnp : normalizePositions ns (some t) = ns.map (fun n =>
        withPos n ((n.x - b.centerX) * (t.width / (b.maxX - b.minX)))
          ((n.y - b.centerY) * (t.height / (b.maxY - b.minY)))
          ((n.z - b.centerZ) * (t.depth / (b.maxZ - b.minZ)))) := by
      unfold normalizePositions
      simp only [hb]
      exact if_pos ⟨hx, hy, hz⟩
    rw [hnp]
    obtain ⟨hcx, hcy, hcz⟩ := calculateBounds_center hb
    refine ⟨_, calculateBounds_map_scale hb b.centerX b.centerY b.centerZ
      (t.width / (b.maxX - b.minX)) (t.height / (b.maxY - b.minY))
      (t.depth / (b.maxZ - b.minZ)) (div_nonneg htw hx.le)
      (div_nonneg hth hy.le) (div_nonneg htd hz.le), ?_, ?_, ?_, ?_, ?_, ?_⟩
    · show (b.maxX - b.centerX) * (t.width / (b.maxX - b.minX)) -
        (b.minX - b.centerX) * (t.width / (b.maxX - b.minX)) = t.width
      rw [show (b.maxX - b.centerX) * (t.width / (b.maxX - b.minX)) -
          (b.minX - b.centerX) * (t.width / (b.maxX - b.minX)) =
          (b.maxX - b.minX) * (t.width / (b.maxX - b.minX)) from by ring,
        ← mul_div_assoc, mul_div_cancel_left₀ _ hx.ne']
    · show (b.maxY - b.centerY) * (t.height / (b.maxY - b.minY)) -
        (b.minY - b.centerY) * (t.height / (b.maxY - b.minY)) = t.height
      rw [show (b.maxY - b.centerY) * (t.height / (b.maxY - b.minY)) -
          (b.minY - b.centerY) * (t.height / (b.maxY - b.minY)) =
          (b.maxY - b.minY) * (t.height / (b.maxY - b.minY)) from by ring,
        ← mul_div_assoc, mul_div_cancel_left₀ _ hy.ne']
    · show (b.maxZ - b.centerZ) * (t.depth / (b.maxZ - b.minZ)) -
        (b.minZ - b.centerZ) * (t.depth / (b.maxZ - b.minZ)) = t.depth
      rw [show (b.maxZ - b.centerZ) * (t.depth / (b.maxZ - b.minZ)) -
          (b.minZ - b.centerZ) * (t.depth / (b.maxZ - b.minZ)) =
          (b.maxZ - b.minZ) * (t.depth / (b.maxZ - b.minZ)) from by ring,
        ← mul_div_assoc, mul_div_cancel_left₀ _ hz.ne']
    · show ((b.minX - b.centerX) * (t.width / (b.maxX - b.minX)) +
        (b.maxX - b.centerX) * (t.width / (b.maxX - b.minX))) / 2 = 0
      rw [hcx]
      ring
    · show ((b.minY - b.centerY) * (t.height / (b.maxY - b.minY)) +
        (b.maxY - b.centerY) * (t.height / (b.maxY - b.minY))) / 2 = 0
      rw [hcy]
      ring
    · show ((b.minZ - b.centerZ) * (t.depth / (b.maxZ - b.minZ)) +
        (b.maxZ - b.centerZ) * (t.depth / (b.maxZ - b.minZ))) / 2 = 0
      rw [hcz]
      ring

/-! ## Collision detection coverage (C1) -/

theorem foldl_extendBounds_le (l : List NM3Node) :
    ∀ bb : BoundingBox,
      (l.foldl extendBounds bb).minX ≤ bb.minX ∧
      (l.foldl extendBounds bb).minY ≤ bb.minY ∧
      (l.foldl extendBounds bb).minZ ≤ bb.minZ ∧
      bb.maxX ≤ (l.foldl extendBounds bb).maxX ∧
      bb.maxY ≤ (l.foldl extendBounds bb).maxY ∧
      bb.maxZ ≤ (l.foldl extendBounds bb).maxZ := by
  induction l with
  | nil =>
    intro bb
    exact ⟨le_refl _, le_refl _, le_refl _, le_refl _, le_refl _, le_refl _⟩
  | cons a rest ih =>
    intro bb
    obtain ⟨h1, h2, h3, h4, h5, h6⟩ := ih (extendBounds bb a)
    rw [List.foldl_cons]
    exact ⟨h1.trans (min_le_left _ _), h2.trans (min_le_left _ _),
      h3.trans (min_le_left _ _), (le_max_left _ _).trans h4,
      (le_max_left _ _).trans h5, (le_max_left _ _).trans h6⟩

theorem foldl_extendBounds_mem {m : NM3Node} :
    ∀ (l : List NM3Node), m ∈ l → ∀ bb : BoundingBox,
      (l.foldl extendBounds bb).minX ≤ m.x - getNodeRadius m ∧
      (l.foldl extendBounds bb).minY ≤ m.y - getNodeRadius m ∧
      (l.foldl extendBounds bb).minZ ≤ m.z - getNodeRadius m ∧
      m.x + getNodeRadius m ≤ (l.foldl extendBounds bb).maxX ∧
      m.y + getNodeRadius m ≤ (l.foldl extendBounds bb).maxY ∧
      m.z + getNodeRadius m ≤ (l.foldl extendBounds bb).maxZ := by
  intro l
  induction l with
  | nil =>
    intro hm
    simp at hm
  | cons a rest ih =>
    intro hm bb
    rw [List.foldl_cons]
    rcases List.mem_cons.mp hm with rfl | hm2
    · obtain ⟨h1, h2, h3, h4, h5, h6⟩ :=
        foldl_extendBounds_le rest (extendBounds bb m)
      exact ⟨h1.trans (min_le_right _ _), h2.trans (min_le_right _ _),
        h3.trans (min_le_right _ _), (le_max_right _ _).trans h4,
        (le_max_right _ _).trans h5, (le_max_right _ _).trans h6⟩
    · exact ih hm2 _

/-- With non-negative radii, every node's center lies inside the padded
bounds computed by `CollisionDetector.buildOctree`, so its insertion
succeeds. -/
theorem mem_inBounds_pad {nodes : List NM3Node}
    (hrad : ∀ n ∈ nodes, 0 ≤ getNodeRadius n) {n : NM3Node}
    (hn : n ∈ nodes) :
    inBounds (padBounds (octBounds nodes)) (mkOctreeNode n) = true := by
  have hr := hrad n hn
  cases nodes with
  | nil => simp at hn
  | cons a rest =>
    obtain ⟨h1, h2, h3, h4, h5, h6⟩ := foldl_extendBounds_mem (a :: rest) hn
      ⟨a.x - getNodeRadius a, a.y - getNodeRadius a, a.z - getNodeRadius a,
       a.x + getNodeRadius a, a.y + getNodeRadius a, a.z + getNodeRadius a⟩
    have hoct : octBounds (a :: rest) = (a :: rest).foldl extendBounds
        ⟨a.x - getNodeRadius a, a.y - getNodeRadius a, a.z - getNodeRadius a,
         a.x + getNodeRadius a, a.y + getNodeRadius a,
         a.z + getNodeRadius a⟩ := rfl
    simp only [inBounds, padBounds, mkOctreeNode, Bool.and_eq_true,
      decide_eq_true_eq, hoct]
    refine ⟨⟨⟨⟨⟨?_, ?_⟩, ?_⟩, ?_⟩, ?_⟩, ?_⟩ <;> linarith

/-- If `detectCollisions` reports nothing, then any pair `(a, b)` with
distinct ids whose second node has effective radius at most 5 satisfies the
separation rule: the search sphere around `a` (radius `r_a + minSep + 5`)
is then wide enough to reach `b`, so the collision check on the pair must
have failed. -/
theorem detect_empty_side {sqrtQ : ℚ → ℚ} {ms : ℚ} {nodes : List NM3Node}
    (hsep : 0 ≤ ms) (hrad : ∀ n ∈ nodes, 0 ≤ getNodeRadius n)
    (hempty : detectCollisions sqrtQ ms nodes = [])
    {a b : NM3Node} (ha : a ∈ nodes) (hb : b ∈ nodes) (hab : b.id ≠ a.id)
    (hb5 : getNodeRadius b ≤ 5) :
    sqrtLt (nodeDist2 b a) (getNodeRadius a + getNodeRadius b + ms) =
      false := by
  by_contra hcon
  rw [Bool.not_eq_false] at hcon
  have hpair : 0 < getNodeRadius a + getNodeRadius b + ms ∧
      nodeDist2 b a < (getNodeRadius a + getNodeRadius b + ms) ^ 2 := by
    simpa [sqrtLt] using hcon
  have hra := hrad a ha
  have hsph : inSphere (mkOctreeNode b) a.x a.y a.z
      (getNodeRadius a + ms + 5) = true := by
    simp only [inSphere, sqrtLe, entryDist2, mkOctreeNode,
      Bool.and_eq_true, decide_eq_true_eq]
    constructor
    · linarith
    · have hdd : (b.x - a.x) ^ 2 + (b.y - a.y) ^ 2 + (b.z - a.z) ^ 2 =
          nodeDist2 b a := rfl
      rw [hdd]
      have hRs : getNodeRadius a + getNodeRadius b + ms ≤
          getNodeRadius a + ms + 5 := by linarith
      have hsq := mul_self_le_mul_self (le_of_lt hpair.1) hRs
      nlinarith [hpair.2, hsq]
  have hbuild : buildCDOctree nodes = Octree.build (padBounds (octBounds
      nodes)) 8 8 (nodes.map mkOctreeNode) := rfl
  have hmem : mkOctreeNode b ∈ (buildCDOctree nodes).findNearby a.x a.y a.z
      (getNodeRadius a + ms + 5) := by
    rw [hbuild, (Octree.build_findNearby _ 8 8 _ a.x a.y a.z _).mem_iff,
      List.mem_filter]
    refine ⟨List.mem_map_of_mem _ hb, ?_⟩
    rw [Bool.and_eq_true]
    exact ⟨mem_inBounds_pad hrad hb, hsph⟩
  have hsome : (checkCollision sqrtQ ms a (mkOctreeNode b).data
      (getNodeRadius a) (getNodeRadius (mkOctreeNode b).data)).isSome =
        true := by
    simp only [mkOctreeNode, checkCollision]
    rw [show sqrtLt ((b.x - a.x) ^ 2 + (b.y - a.y) ^ 2 + (b.z - a.z) ^ 2)
        (getNodeRadius a + getNodeRadius b + ms) = true from hcon]
    simp
  obtain ⟨c, hc⟩ := Option.isSome_iff_exists.mp hsome
  have hcmem : c ∈ detectCollisions sqrtQ ms nodes := by
    simp only [detectCollisions]
    rw [List.mem_flatMap]
    refine ⟨a, ha, ?_⟩
    rw [List.mem_filterMap]
    refine ⟨mkOctreeNode b, hmem, ?_⟩
    have hne : ¬ ((mkOctreeNode b).id = a.id) := by
      simp only [mkOctreeNode]
      exact hab
    rw [if_neg hne]
    exact hc
  rw [hempty] at hcmem
  simp at hcmem

/-- C1 (amended): if `detectCollisions` returns no collision, then every
pair of distinct-id nodes in which at least one effective radius is at most
5 is separated by at least `radius1 + radius2 + minSeparation` (stated by
the exact-real equivalent of `dist < r1 + r2 + minSep` being false), for
any non-negative `minSeparation` and non-negative radii.  The radius bound
is necessary: the octree query around a node only reaches
`radius1 + minSeparation + 5`, so pairs in which both radii exceed 5 can
violate the rule undetected. -/
theorem collision_free_pairs_separated (sqrtQ : ℚ → ℚ) (minSep : ℚ)
    (nodes : List NM3Node) (hsep : 0 ≤ minSep)
    (hrad : ∀ n ∈ nodes, 0 ≤ getNodeRadius n)
    (hempty : detectCollisions sqrtQ minSep nodes = []) :
    ∀ n1 ∈ nodes, ∀ n2 ∈ nodes, n1.id ≠ n2.id →
      (getNodeRadius n1 ≤ 5 ∨ getNodeRadius n2 ≤ 5) →
      sqrtLt (nodeDist2 n1 n2)
        (getNodeRadius n1 + getNodeRadius n2 + minSep) = false := by
  intro n1 h1 n2 h2 hneid hr5
  rcases hr5 with hra | hrb
  · have h := detect_empty_side hsep hrad hempty h2 h1 hneid hra
    have e : getNodeRadius n2 + getNodeRadius n1 + minSep =
        getNodeRadius n1 + getNodeRadius n2 + minSep := by ring
    rwa [e] at h
  · have h := detect_empty_side hsep hrad hempty h1 h2 (Ne.symm hneid) hrb
    have e : nodeDist2 n2 n1 = nodeDist2 n1 n2 := by
      unfold nodeDist2
      ring
    rwa [e] at h

/-- For a two-node list in which neither node lies in the other's search
sphere, `detectCollisions` finds nothing (used to build concrete runs
without evaluating the octree). -/
theorem detectCollisions_two_empty (sqrtQ : ℚ → ℚ) (ms : ℚ)
    (a b : NM3Node)
    (hs1 : inSphere (mkOctreeNode b) a.x a.y a.z
      (getNodeRadius a + ms + 5) = false)
    (hs2 : inSphere (mkOctreeNode a) b.x b.y b.z
      (getNodeRadius b + ms + 5) = false) :
    detectCollisions sqrtQ ms [a, b] = [] := by
  rw [List.eq_nil_iff_forall_not_mem]
  intro c hc
  simp only [detectCollisions] at hc
  rw [List.mem_flatMap] at hc
  obtain ⟨n1, hn1, hc2⟩ := hc
  rw [List.mem_filterMap] at hc2
  obtain ⟨en, hen, hgen⟩ := hc2
  have hbuild : buildCDOctree [a, b] = Octree.build (padBounds (octBounds
      [a, b])) 8 8 ([a, b].map mkOctreeNode) := rfl
  rw [hbuild, (Octree.build_findNearby _ 8 8 _ n1.x n1.y n1.z _).mem_iff]
    at hen
  simp only [List.map_cons, List.map_nil] at hen
  rw [List.mem_filter] at hen
  obtain ⟨henl, henp⟩ := hen
  have hn1' : n1 = a ∨ n1 = b := by simpa using hn1
  have henl' : en = mkOctreeNode a ∨ en = mkOctreeNode b := by simpa using henl
  rcases hn1' with rfl | rfl <;> rcases henl' with rfl | rfl
  · simp [mkOctreeNode] at hgen
  · rw [Bool.and_eq_true, hs1] at henp
    simp at henp
  · rw [Bool.and_eq_true, hs2] at henp
    simp at henp
  · simp [mkOctreeNode] at hgen

/-- Witness for the amended C1 at a concrete input: two unit-radius nodes
100 apart, `minSeparation = 2`; the detector reports nothing and the
separation conclusion holds for the pair. -/
theorem collision_free_pairs_separated_witness :
    ((0 : ℚ) ≤ 2 ∧
     (∀ n ∈ ([⟨"a", "sphere", 0, 0, 0, none, none, none, "", none, none, none, none, none⟩,
        ⟨"b", "sphere", 100, 0, 0, none, none, none, "", none, none, none, none, none⟩] :
         List NM3Node), 0 ≤ getNodeRadius n) ∧
     detectCollisions (fun _ => 0) 2
       [⟨"a", "sphere", 0, 0, 0, none, none, none, "", none, none, none, none, none⟩,
        ⟨"b", "sphere", 100, 0, 0, none, none, none, "", none, none, none, none, none⟩] =
       []) ∧
    ∀ n1 ∈ ([⟨"a", "sphere", 0, 0, 0, none, none, none, "", none, none, none, none, none⟩,
       ⟨"b", "sphere", 100, 0, 0, none, none, none, "", none, none, none, none, none⟩] :
        List NM3Node),
      ∀ n2 ∈ ([⟨"a", "sphere", 0, 0, 0, none, none, none, "", none,
           none, none, none, none⟩,
        ⟨"b", "sphere", 100, 0, 0, none, none, none, "", none, none, none, none, none⟩] :
        List NM3Node), n1.id ≠ n2.id →
      (getNodeRadius n1 ≤ 5 ∨ getNodeRadius n2 ≤ 5) →
      sqrtLt (nodeDist2 n1 n2)
        (getNodeRadius n1 + getNodeRadius n2 + 2) = false := by
  have hempty : detectCollisions (fun _ => 0) 2
      [⟨"a", "sphere", 0, 0, 0, none, none, none, "", none, none, none, none, none⟩,
       ⟨"b", "sphere", 100, 0, 0, none, none, none, "", none, none, none, none, none⟩] =
      [] := by
    refine detectCollisions_two_empty _ _ _ _ ?_ ?_ <;>
      norm_num [inSphere, sqrtLe, entryDist2, mkOctreeNode, getNodeRadius,
        effScale]
  refine ⟨⟨by norm_num, ?_, hempty⟩, ?_⟩
  · intro n hn
    rcases (by simpa using hn :
        n = (⟨"a", "sphere", 0, 0, 0, none, none, none, "", none,
           none, none, none, none⟩ : NM3Node) ∨
        n = (⟨"b", "sphere", 100, 0, 0, none, none, none, "", none,
           none, none, none, none⟩ : NM3Node)) with rfl | rfl <;>
      norm_num [getNodeRadius, effScale]
  · refine collision_free_pairs_separated (fun _ => 0) 2 _ (by norm_num)
      ?_ hempty
    intro n hn
    rcases (by simpa using hn :
        n = (⟨"a", "sphere", 0, 0, 0, none, none, none, "", none,
           none, none, none, none⟩ : NM3Node) ∨
        n = (⟨"b", "sphere", 100, 0, 0, none, none, none, "", none,
           none, none, none, none⟩ : NM3Node)) with rfl | rfl <;>
      norm_num [getNodeRadius, effScale]

/-- C1 counterexample for the claim as stated: two nodes of effective
radius 10 at distance 18 violate the separation rule (`18 < 10 + 10 + 2`),
yet `detectCollisions` returns the empty list — the search radius
`radius1 + minSeparation + 5 = 17` is too small to reach the other node,
so the convergence condition can hold while nodes overlap. -/
theorem collision_missed_pair_counterexample :
    detectCollisions (fun _ => 0) 2
      [⟨"a", "sphere", 0, 0, 0, some 10, none, none, "", none, none, none, none, none⟩,
       ⟨"b", "sphere", 18, 0, 0, some 10, none, none, "", none, none, none, none, none⟩] =
      [] ∧
    sqrtLt
      (nodeDist2
        ⟨"a", "sphere", 0, 0, 0, some 10, none, none, "", none, none, none, none, none⟩
        ⟨"b", "sphere", 18, 0, 0, some 10, none, none, "", none, none, none, none, none⟩)
      (getNodeRadius
        ⟨"a", "sphere", 0, 0, 0, some 10, none, none, "", none, none, none, none, none⟩ +
       getNodeRadius
        ⟨"b", "sphere", 18, 0, 0, some 10, none, none, "", none, none, none, none, none⟩ +
       2) = true := by
  constructor
  · refine detectCollisions_two_empty _ _ _ _ ?_ ?_ <;>
      norm_num [inSphere, sqrtLe, entryDist2, mkOctreeNode, getNodeRadius,
        effScale]
  · norm_num [sqrtLt, nodeDist2, getNodeRadius, effScale]


end M3D
